import Mathlib

/-!
# mitk::DataTreeFilter — a verification development

Shallow embedding of `Core/DataStructures/mitkDataTreeFilter.cpp`.

Modelling conventions

* Raw pointers are natural numbers, `0` is the null pointer.
* The item forest is owned through smart-pointer lists (`ItemList`); an item
  lives exactly as long as some list of the forest holds it.  The forest is
  therefore a nested value (`Item` holds the elements of its `m_Children`),
  every item carries its own address (`self`), and dereferencing an item
  pointer is a search of the forest.  Dereferencing a null or dangling
  pointer is undefined behaviour and is the result `none`.
* `m_Parent`, the registry `m_Item`, the selection set and
  `m_LastSelectedItem` are non-owning and hold addresses.
* `new Item` takes the next unused address (`nextItem + 1`); addresses are
  never reused.
* `InvokeEvent` appends to the trace `events`.
* The data tree, the node properties, the property factory and the code of
  the filter functions live outside the translation unit; their current
  content is part of the state record.
-/

namespace mitk

/-! ## Pointers, the data tree and the filter functions -/

/-- Address of a `mitk::DataTreeNode`; `0` is NULL. -/
abbrev NodePtr := Nat
/-- Address of a `DataTreeFilter::Item`; `0` is NULL. -/
abbrev ItemPtr := Nat
/-- Address of a `mitk::BaseProperty`; `0` is NULL. -/
abbrev PropPtr := Nat
/-- Address of a `mitk::BaseRenderer`; `0` is NULL. -/
abbrev RendererPtr := Nat

/-- One position of the data tree: the `DataTreeNode*` stored there (what
`iter->Get()` returns) and its ordered children. -/
inductive TreeNode where
  | mk (data : NodePtr) (children : List TreeNode)
deriving Repr

/-- Value of `iter->Get()` at this position. -/
def TreeNode.Get : TreeNode → NodePtr
  | .mk d _ => d

/-- The children that `GoToChild(0) .. GoToChild(CountChildren()-1)` visit. -/
def TreeNode.children : TreeNode → List TreeNode
  | .mk _ cs => cs

/-- An iterator position: the child numbers on the way from the root. -/
abbrev TreePosition := List Nat

/-- The sub-tree an iterator position denotes; `none` for a position that
does not exist. -/
def TreeNode.subtree : TreeNode → TreePosition → Option TreeNode
  | t, [] => some t
  | .mk _ cs, i :: rest =>
    match cs.get? i with
    | some c => TreeNode.subtree c rest
    | none => none

mutual
/-- Modelled from the spec: `DataTreePreOrderIterator(tree, start)`, the
pre-order traversal of the sub-tree rooted at `start` (start included);
the values `Get()` returns, in visiting order. -/
def TreeNode.preOrder : TreeNode → List NodePtr
  | .mk d cs => d :: preOrderList cs
/-- Pre-order traversal of a list of sibling sub-trees. -/
def preOrderList : List TreeNode → List NodePtr
  | [] => []
  | c :: cs => TreeNode.preOrder c ++ preOrderList cs
end

/-- The positions repeated `GoToParent()` reaches from `pos`, nearest first. -/
def ancestorPositions (pos : TreePosition) : List TreePosition :=
  (List.inits pos).reverse.tail

/-- Body of `static bool IsDataTreeNode(mitk::DataTreeNode* node)`. -/
def IsDataTreeNode (node : NodePtr) : Bool := node != 0

/-- A `FilterFunctionPointer`: NULL, `&mitk::IsDataTreeNode`, or the
address of another function. -/
inductive FilterFunctionPointer where
  | null
  | addrIsDataTreeNode
  | other (fn : Nat)
deriving DecidableEq, Repr

inductive HierarchyHandling where
  | PRESERVE_HIERARCHY
  | FLATTEN_HIERARCHY
deriving DecidableEq, Repr

inductive SelectionMode where
  | SINGLE_SELECT
  | MULTI_SELECT
deriving DecidableEq, Repr

/-- The notifications `InvokeEvent` sends (mitkDataTreeFilterEvents.h). -/
inductive Event where
  | TreeFilterRemoveAllEvent
  | TreeFilterUpdateAllEvent
  | TreeFilterItemAddedEvent (item : ItemPtr)
  | TreeFilterRemoveChildrenEvent (parent : ItemPtr)
  | TreeFilterSelectionChangedEvent (item : ItemPtr) (selected : Bool)
deriving DecidableEq, Repr

/-- The dynamic type of an `itk::EventObject` a tree observer receives. -/
inductive TreeEventKind where
  | TreeNodeChangeEvent
  | TreeAddEvent
  | TreeRemoveEvent
  | TreePruneEvent
  | otherEvent
deriving DecidableEq, Repr

/-- An event of the data tree: its dynamic type and `GetChangePosition()`. -/
structure TreeEvent where
  kind : TreeEventKind
  position : TreePosition
deriving DecidableEq, Repr

/-! ## Items -/

/-- A `DataTreeFilter::Item`: its address and its members.  `m_Children`
holds the items the child list owns. -/
inductive Item where
  | mk (self : ItemPtr) (m_Index : Nat) (m_Parent : ItemPtr)
       (m_Children : List Item) (m_Node : NodePtr) (m_Selected : Bool)
deriving Repr

namespace Item

def self : Item → ItemPtr
  | mk a _ _ _ _ _ => a

def m_Index : Item → Nat
  | mk _ i _ _ _ _ => i

def m_Parent : Item → ItemPtr
  | mk _ _ p _ _ _ => p

def m_Children : Item → List Item
  | mk _ _ _ c _ _ => c

def m_Node : Item → NodePtr
  | mk _ _ _ _ n _ => n

def m_Selected : Item → Bool
  | mk _ _ _ _ _ b => b

def setIndex (i : Nat) : Item → Item
  | mk a _ p c n b => mk a i p c n b

def setChildren (c : List Item) : Item → Item
  | mk a i p _ n b => mk a i p c n b

def setSelectedFlag (b : Bool) : Item → Item
  | mk a i p c n _ => mk a i p c n b

/-- Source function `Item::GetChildren`. -/
def GetChildren (it : Item) : List Item := it.m_Children

/-- Source function `Item::HasChildren`. -/
def HasChildren (it : Item) : Bool := decide (it.m_Children.length > 0)

/-- Source function `Item::GetIndex`. -/
def GetIndex (it : Item) : Nat := it.m_Index

/-- Source function `Item::IsRoot`. -/
def IsRoot (it : Item) : Bool := it.m_Parent == 0

/-- Source function `Item::IsSelected`. -/
def IsSelected (it : Item) : Bool := it.m_Selected

/-- Source function `Item::GetParent`. -/
def GetParent (it : Item) : ItemPtr := it.m_Parent

end Item

mutual
/-- The item at address `p` in the sub-forest of an item, first hit in
pre-order. -/
def Item.find (p : ItemPtr) : Item → Option Item
  | .mk a i par ch n b => if a = p then some (.mk a i par ch n b) else findItem p ch
/-- The item at address `p` in a forest, first hit in pre-order. -/
def findItem (p : ItemPtr) : List Item → Option Item
  | [] => none
  | x :: xs =>
    match Item.find p x with
    | some y => some y
    | none => findItem p xs
end

mutual
/-- Rewrite the item at address `p` (the one `Item.find` hits) with `f`. -/
def Item.modify (p : ItemPtr) (f : Item → Item) : Item → Option Item
  | .mk a i par ch n b =>
    if a = p then some (f (.mk a i par ch n b))
    else
      match modifyItem p f ch with
      | some ch2 => some (.mk a i par ch2 n b)
      | none => none
/-- Rewrite the item at address `p` of a forest (the one `findItem` hits). -/
def modifyItem (p : ItemPtr) (f : Item → Item) : List Item → Option (List Item)
  | [] => none
  | x :: xs =>
    match Item.modify p f x with
    | some x2 => some (x2 :: xs)
    | none =>
      match modifyItem p f xs with
      | some xs2 => some (x :: xs2)
      | none => none
end

mutual
/-- An item followed by all the items it owns, in pre-order. -/
def Item.flatten : Item → List Item
  | .mk a i par ch n b => .mk a i par ch n b :: flattenItems ch
/-- All items of a forest, in pre-order. -/
def flattenItems : List Item → List Item
  | [] => []
  | x :: xs => Item.flatten x ++ flattenItems xs
end

/-- Source expression `(*it)->m_Index = i` for the elements of a list, `i` counting from `start`. -/
def renumber : Nat → List Item → List Item
  | _, [] => []
  | i, x :: xs => x.setIndex i :: renumber (i + 1) xs

/-- Dereference of an item pointer in a forest; null and dangling pointers
have no target. -/
def derefIn (p : ItemPtr) (forest : List Item) : Option Item :=
  if p = 0 then none else findItem p forest

/-! ## std::set and std::map -/

/-- Source expression `std::set<Item*>::insert`. -/
def setInsert (a : ItemPtr) (l : List ItemPtr) : List ItemPtr :=
  if a ∈ l then l else l ++ [a]

/-- Source expression `std::set<Item*>::erase(key)`. -/
def setErase (a : ItemPtr) (l : List ItemPtr) : List ItemPtr :=
  l.filter (fun x => x != a)

/-- Source expression `std::map<DataTreeNode*, Item*>::find`. -/
def mapFind (k : NodePtr) : List (NodePtr × ItemPtr) → Option ItemPtr
  | [] => none
  | (k2, v) :: rest => if k2 = k then some v else mapFind k rest

/-- Source expression `std::map::erase(key)`. -/
def mapErase (k : NodePtr) (m : List (NodePtr × ItemPtr)) : List (NodePtr × ItemPtr) :=
  m.filter (fun e => e.1 != k)

/-- The assignment `m[k] = v`. -/
def mapAssign (k : NodePtr) (v : ItemPtr) (m : List (NodePtr × ItemPtr)) :
    List (NodePtr × ItemPtr) :=
  mapErase k m ++ [(k, v)]

/-- The read `m[k]`: an absent key is inserted with a null value. -/
def mapIndex (k : NodePtr) (m : List (NodePtr × ItemPtr)) :
    ItemPtr × List (NodePtr × ItemPtr) :=
  match mapFind k m with
  | some v => (v, m)
  | none => (0, m ++ [(k, 0)])

/-! ## The engine -/

/-- The members of `DataTreeFilter` (the observer tags apart), with the
content of the objects it points to and the event trace. -/
structure DataTreeFilter where
  m_Filter : FilterFunctionPointer
  /-- Content of `*m_DataTree`: the root position, `none` for an empty tree. -/
  m_DataTree : Option TreeNode
  m_HierarchyHandling : HierarchyHandling
  m_SelectionMode : SelectionMode
  m_Renderer : RendererPtr
  /-- The root list `m_Items`. -/
  m_Items : List Item
  /-- The registry `m_Item`. -/
  m_Item : List (NodePtr × ItemPtr)
  m_SelectedItems : List ItemPtr
  m_LastSelectedItem : ItemPtr
  m_PropertyLabels : List String
  m_VisibleProperties : List String
  m_EditableProperties : List String
  /-- Bodies of the filter functions other than `IsDataTreeNode`. -/
  filterCode : Nat → NodePtr → Bool
  /-- Modelled from the spec: the property lists of the nodes (the external
  property storage): the property a node holds under a key. -/
  nodeProperties : List ((NodePtr × String) × PropPtr)
  /-- Modelled from the spec: the external property factory: whether
  `CreateDefaultProperty(key)` yields a property for the key. -/
  hasDefaultProperty : String → Bool
  /-- Last item address handed out by `new Item`. -/
  nextItem : Nat
  /-- Last property address handed out by the property factory. -/
  nextProperty : Nat
  /-- The notifications sent so far, oldest first. -/
  events : List Event

namespace DataTreeFilter

/-- The call `m_Filter(node)`; calling a null function pointer is undefined. -/
def callFilter (s : DataTreeFilter) (node : NodePtr) : Option Bool :=
  match s.m_Filter with
  | .null => none
  | .addrIsDataTreeNode => some (IsDataTreeNode node)
  | .other fn => some (s.filterCode fn node)

/-- Source expression `InvokeEvent(e)`. -/
def InvokeEvent (e : Event) (s : DataTreeFilter) : DataTreeFilter :=
  { s with events := s.events ++ [e] }

/-- Dereference of an item pointer. -/
def deref (p : ItemPtr) (s : DataTreeFilter) : Option Item :=
  derefIn p s.m_Items

end DataTreeFilter

/-- An `ItemList*`: `m_Items`, or the `m_Children` of the item at an address. -/
inductive ItemListPtr where
  | items
  | childrenOf (owner : ItemPtr)
deriving DecidableEq, Repr

namespace ItemListPtr

/-- The elements of the list pointed to, in a forest. -/
def getIn (l : ItemListPtr) (forest : List Item) : Option (List Item) :=
  match l with
  | .items => some forest
  | .childrenOf p =>
    match derefIn p forest with
    | some it => some it.m_Children
    | none => none

/-- Overwrite the elements of the list pointed to, in a forest. -/
def setIn (l : ItemListPtr) (new : List Item) (forest : List Item) : Option (List Item) :=
  match l with
  | .items => some new
  | .childrenOf p =>
    if p = 0 then none else modifyItem p (Item.setChildren new) forest

/-- The elements of the list pointed to. -/
def get (l : ItemListPtr) (s : DataTreeFilter) : Option (List Item) :=
  l.getIn s.m_Items

/-- Overwrite the elements of the list pointed to. -/
def set (l : ItemListPtr) (new : List Item) (s : DataTreeFilter) : Option DataTreeFilter :=
  match l.setIn new s.m_Items with
  | some f => some { s with m_Items := f }
  | none => none

/-- Source expression `list->Size()`. -/
def Size (l : ItemListPtr) (s : DataTreeFilter) : Option Nat :=
  match l.get s with
  | some xs => some xs.length
  | none => none

/-- Source expression `list->ElementAt(id)`; outside the list it is undefined. -/
def ElementAt (l : ItemListPtr) (id : Nat) (s : DataTreeFilter) : Option Item :=
  match l.get s with
  | some xs => xs.get? id
  | none => none

end ItemListPtr

namespace DataTreeFilter

/-- Source function `Item::~Item`: leave the selection set and the registry. -/
def destroyItem (it : Item) (s : DataTreeFilter) : DataTreeFilter :=
  { s with m_SelectedItems := setErase it.self s.m_SelectedItems,
           m_Item := mapErase it.m_Node s.m_Item }

/-- Reference counting: of the items that left a list (with the items they
own), those that no list of the forest holds any more are destroyed. -/
def release (gone : List Item) (s : DataTreeFilter) : DataTreeFilter :=
  (flattenItems gone).foldl
    (fun acc it => if (findItem it.self s.m_Items).isSome then acc else destroyItem it acc) s

/-- Source function `Item::New`: the new item (not yet in a list) and the state with the
registry entry `m_Item[node] = rawPtr`. -/
def Item.New (node : NodePtr) (index : Nat) (parent : ItemPtr) (s : DataTreeFilter) :
    Item × DataTreeFilter :=
  let rawPtr := s.nextItem + 1
  (Item.mk rawPtr index parent [] node false,
   { s with nextItem := rawPtr, m_Item := mapAssign node rawPtr s.m_Item })

/-- Source expression `list->CreateElementAt(id) = item`: appends when `id` is the size,
replaces the element when `id` is inside the list. -/
def CreateElementAt (list : ItemListPtr) (id : Nat) (item : Item) (s : DataTreeFilter) :
    Option DataTreeFilter :=
  match list.get s with
  | none => none
  | some xs =>
    if id = xs.length then list.set (xs ++ [item]) s
    else if id < xs.length then
      match list.set (xs.set id item) s with
      | some s2 => some (release (xs.drop id |>.take 1) s2)
      | none => none
    else none


/-- Source expression `list->clear()`. -/
def clear (list : ItemListPtr) (s : DataTreeFilter) : Option DataTreeFilter :=
  match list.get s with
  | none => none
  | some xs =>
    match list.set [] s with
    | some s2 => some (release xs s2)
    | none => none

/-- Source expression `list->erase(first, last)` on iterator positions; a range that is not
inside the list is undefined. -/
def eraseRange (list : ItemListPtr) (first last : Nat) (s : DataTreeFilter) :
    Option DataTreeFilter :=
  match list.get s with
  | none => none
  | some xs =>
    if first ≤ last ∧ last ≤ xs.length then
      match list.set (xs.take first ++ xs.drop last) s with
      | some s2 => some (release ((xs.drop first).take (last - first)) s2)
      | none => none
    else none

/-- The loop `for (it = list->begin(); it != list->end(); ++it, ++i)
{ (*it)->m_Index = i; InvokeEvent(TreeFilterItemAddedEvent(*it)); }`. -/
def renumberAndAnnounce (list : ItemListPtr) (s : DataTreeFilter) : Option DataTreeFilter :=
  match list.get s with
  | none => none
  | some xs =>
    match list.set (renumber 0 xs) s with
    | some s2 =>
      some { s2 with events := s2.events ++ xs.map (fun x => Event.TreeFilterItemAddedEvent x.self) }
    | none => none

/-- Position of the first element of `xs` that is the item at `item`
(`*it == item`), the end position when there is none. -/
def findPosition (item : ItemPtr) (xs : List Item) : Nat :=
  xs.findIdx (fun x => x.self == item)

mutual
/-- Source function `DataTreeFilter::AddMatchingChildren(iter, list, parent, verbose)`. -/
def AddMatchingChildren (iter : TreeNode) (list : ItemListPtr) (parent : ItemPtr)
    (verbose : Bool) (s : DataTreeFilter) : Option DataTreeFilter :=
  match iter with
  | .mk _ cs => AddMatchingChildrenLoop cs list parent verbose s
/-- The loop `for (child = 0; child < numChildren; ++child)` of
`AddMatchingChildren`, over the children still to visit. -/
def AddMatchingChildrenLoop (cs : List TreeNode) (list : ItemListPtr) (parent : ItemPtr)
    (verbose : Bool) (s : DataTreeFilter) : Option DataTreeFilter :=
  match cs with
  | [] => some s
  | child :: rest =>
    match s.callFilter child.Get with
    | none => none
    | some true =>
      match list.Size s with
      | none => none
      | some newIndex =>
        match CreateElementAt list newIndex (Item.New child.Get newIndex parent s).1
                (Item.New child.Get newIndex parent s).2 with
        | none => none
        | some s2 =>
          match (if verbose then
                   match ItemListPtr.items.ElementAt newIndex s2 with
                   | some e => some (InvokeEvent (Event.TreeFilterItemAddedEvent e.self) s2)
                   | none => none
                 else some s2) with
          | none => none
          | some s3 =>
            match (if s3.m_HierarchyHandling = HierarchyHandling.PRESERVE_HIERARCHY then
                     match list.ElementAt newIndex s3 with
                     | some e =>
                       AddMatchingChildren child (ItemListPtr.childrenOf e.self) e.self verbose s3
                     | none => none
                   else AddMatchingChildren child list parent verbose s3) with
            | none => none
            | some s4 => AddMatchingChildrenLoop rest list parent verbose s4
    | some false =>
      match AddMatchingChildren child list parent verbose s with
      | none => none
      | some s1 => AddMatchingChildrenLoop rest list parent verbose s1
end

/-- Source function `DataTreeFilter::GenerateModelFromTree`. -/
def GenerateModelFromTree (s : DataTreeFilter) : Option DataTreeFilter :=
  let s0 := InvokeEvent Event.TreeFilterRemoveAllEvent s
  -- m_Items = ItemList::New()
  let s1 := release s0.m_Items { s0 with m_Items := [] }
  match s1.m_DataTree with
  | none => some (InvokeEvent Event.TreeFilterUpdateAllEvent s1)
  | some treeIter =>
    match s1.callFilter treeIter.Get with
    | none => none
    | some true =>
      match CreateElementAt ItemListPtr.items 0 (Item.New treeIter.Get 0 0 s1).1
              (Item.New treeIter.Get 0 0 s1).2 with
      | none => none
      | some s2 =>
        match ItemListPtr.items.ElementAt 0 s2 with
        | none => none
        | some e =>
          let s3 := InvokeEvent (Event.TreeFilterItemAddedEvent e.self) s2
          match (if s3.m_HierarchyHandling = HierarchyHandling.PRESERVE_HIERARCHY then
                   AddMatchingChildren treeIter (ItemListPtr.childrenOf e.self) e.self false s3
                 else AddMatchingChildren treeIter ItemListPtr.items 0 false s3) with
          | none => none
          | some s4 => some (InvokeEvent Event.TreeFilterUpdateAllEvent s4)
    | some false =>
      match AddMatchingChildren treeIter ItemListPtr.items 0 false s1 with
      | none => none
      | some s4 => some (InvokeEvent Event.TreeFilterUpdateAllEvent s4)

/-- Source function `DataTreeFilter::SetPropertiesLabels`. -/
def SetPropertiesLabels (labels : List String) (s : DataTreeFilter) : DataTreeFilter :=
  InvokeEvent Event.TreeFilterUpdateAllEvent { s with m_PropertyLabels := labels }

/-- Source function `DataTreeFilter::SetVisibleProperties`. -/
def SetVisibleProperties (keys : List String) (s : DataTreeFilter) : DataTreeFilter :=
  InvokeEvent Event.TreeFilterUpdateAllEvent { s with m_VisibleProperties := keys }

/-- Source function `DataTreeFilter::SetEditableProperties`. -/
def SetEditableProperties (keys : List String) (s : DataTreeFilter) : DataTreeFilter :=
  InvokeEvent Event.TreeFilterUpdateAllEvent { s with m_EditableProperties := keys }

/-- Source function `DataTreeFilter::SetRenderer`. -/
def SetRenderer (renderer : RendererPtr) (s : DataTreeFilter) : DataTreeFilter :=
  InvokeEvent Event.TreeFilterUpdateAllEvent { s with m_Renderer := renderer }

/-- Source function `DataTreeFilter::SetFilter`. -/
def SetFilter (filter : FilterFunctionPointer) (s : DataTreeFilter) : Option DataTreeFilter :=
  if s.m_Filter = filter then some s
  else
    GenerateModelFromTree
      (if filter ≠ FilterFunctionPointer.null then { s with m_Filter := filter }
       else { s with m_Filter := FilterFunctionPointer.addrIsDataTreeNode })

/-- Source function `DataTreeFilter::GetFilter`. -/
def GetFilter (s : DataTreeFilter) : FilterFunctionPointer := s.m_Filter

/-- Source function `DataTreeFilter::SetSelectionMode`. -/
def SetSelectionMode (selectionMode : SelectionMode) (s : DataTreeFilter) : DataTreeFilter :=
  if s.m_SelectionMode = selectionMode then s
  else { s with m_SelectionMode := selectionMode }

/-- Source function `DataTreeFilter::GetSelectionMode`. -/
def GetSelectionMode (s : DataTreeFilter) : SelectionMode := s.m_SelectionMode

/-- Source function `DataTreeFilter::SetHierarchyHandling`. -/
def SetHierarchyHandling (hierarchyHandling : HierarchyHandling) (s : DataTreeFilter) :
    Option DataTreeFilter :=
  if s.m_HierarchyHandling = hierarchyHandling then some s
  else GenerateModelFromTree { s with m_HierarchyHandling := hierarchyHandling }

/-- Source function `DataTreeFilter::GetHierarchyHandling`. -/
def GetHierarchyHandling (s : DataTreeFilter) : HierarchyHandling := s.m_HierarchyHandling

/-- Source function `DataTreeFilter::GetItems`. -/
def GetItems (s : DataTreeFilter) : List Item := s.m_Items

/-- Source function `DataTreeFilter::GetSelectedItems`. -/
def GetSelectedItems (s : DataTreeFilter) : List ItemPtr := s.m_SelectedItems

/-- Source function `Item::SetSelected(selected)` on the item at address `self`. -/
def Item.SetSelected (self : ItemPtr) (selected : Bool) (s : DataTreeFilter) :
    Option DataTreeFilter :=
  match s.deref self with
  | none => none
  | some it =>
    if selected != it.m_Selected then
      match modifyItem self (Item.setSelectedFlag selected) s.m_Items with
      | none => none
      | some f =>
        let s1 := { s with m_Items := f }
        if selected then
          let s2 :=
            if s1.m_SelectionMode = SelectionMode.SINGLE_SELECT then
              { s1 with m_SelectedItems := setErase s1.m_LastSelectedItem s1.m_SelectedItems }
            else s1
          let s3 :=
            if s2.m_LastSelectedItem ≠ 0 then { s2 with m_LastSelectedItem := self } else s2
          some { s3 with m_SelectedItems := setInsert self s3.m_SelectedItems }
        else
          some { s1 with m_SelectedItems := setErase self s1.m_SelectedItems }
    else some s

/-- Source function `DataTreeFilter::SelectItem`. -/
def SelectItem (item : ItemPtr) (selected : Bool) (s : DataTreeFilter) :
    Option DataTreeFilter :=
  match Item.SetSelected item selected s with
  | none => none
  | some s1 => some (InvokeEvent (Event.TreeFilterSelectionChangedEvent item selected) s1)

/-- Source function `DataTreeFilter::TreeNodeChange`. -/
def TreeNodeChange (e : TreeEvent) (s : DataTreeFilter) : Option DataTreeFilter :=
  if e.kind ≠ TreeEventKind.TreeNodeChangeEvent then some s
  else
    match s.m_DataTree with
    | none => none
    | some root =>
      match root.subtree e.position with
      | none => none
      | some treePosition =>
        if treePosition.Get = 0 then some s
        else GenerateModelFromTree s

/-- The sibling list of an item: `m_Items` if `item->IsRoot()`, else
`item->m_Parent->m_Children`. -/
def siblingList (it : Item) : ItemListPtr :=
  if it.IsRoot then ItemListPtr.items else ItemListPtr.childrenOf it.m_Parent

/-- The loop `while (treePosition->HasParent())` of `TreeAdd` over the
positions still to visit: the position, the parent item and its child list
at the first position that passes the filter. -/
def TreeAddWalk (root : TreeNode) :
    List TreePosition → DataTreeFilter →
      Option (Option (TreeNode × ItemPtr × ItemListPtr) × DataTreeFilter)
  | [], s => some (none, s)
  | up :: more, s =>
    match root.subtree up with
    | none => none
    | some treePosition =>
      match s.callFilter treePosition.Get with
      | none => none
      | some true =>
        -- parent = m_Item[treePosition->Get()]; list = parent->m_Children;
        match ({ s with m_Item := (mapIndex treePosition.Get s.m_Item).2 } : DataTreeFilter).deref
                (mapIndex treePosition.Get s.m_Item).1 with
        | none => none
        | some _ =>
          some (some (treePosition, (mapIndex treePosition.Get s.m_Item).1,
                      ItemListPtr.childrenOf (mapIndex treePosition.Get s.m_Item).1),
                { s with m_Item := (mapIndex treePosition.Get s.m_Item).2 })
      | some false => TreeAddWalk root more s

/-- Source function `DataTreeFilter::TreeAdd`. -/
def TreeAdd (e : TreeEvent) (s : DataTreeFilter) : Option DataTreeFilter :=
  match s.m_DataTree with
  | none => none
  | some root =>
    match root.subtree e.position with
    | none => none
    | some treePosition =>
      match s.callFilter treePosition.Get with
      | none => none
      | some false => some s
      | some true =>
        match (if s.m_HierarchyHandling = HierarchyHandling.PRESERVE_HIERARCHY then
                 TreeAddWalk root (ancestorPositions e.position) s
               else some (none, s)) with
        | none => none
        | some (some (upPosition, parent, list), s1) =>
          match clear list (InvokeEvent (Event.TreeFilterRemoveChildrenEvent parent) s1) with
          | none => none
          | some s2 => AddMatchingChildren upPosition list parent true s2
        | some (none, s1) => GenerateModelFromTree s1

/-- The local variables of `TreePrune`; an uninitialised iterator and a
null list pointer are `none`. -/
structure PruneLocals where
  item : ItemPtr
  list : Option ItemListPtr
  listFirstIter : Option Nat
  listLastIter : Option Nat
deriving DecidableEq, Repr

/-- Source expression `++it` on an iterator of `list`; undefined for an uninitialised
iterator and at the end of the list. -/
def incrementIter (list : Option ItemListPtr) (it : Option Nat) (s : DataTreeFilter) :
    Option Nat :=
  match list, it with
  | some l, some j =>
    match l.get s with
    | some xs => if j < xs.length then some (j + 1) else none
    | none => none
  | _, _ => none

/-- The loop `while (!treeIter.IsAtEnd())` of `TreePrune` over the nodes the
pre-order iterator still has to visit. -/
def TreePruneScan :
    List NodePtr → Bool → PruneLocals → DataTreeFilter → Option (PruneLocals × DataTreeFilter)
  | [], _, loc, s => some (loc, s)
  | node :: more, firstMatch, loc, s =>
    match s.callFilter node with
    | none => none
    | some true =>
      if firstMatch then
        -- item = m_Item[treeIter.Get()]
        match ({ s with m_Item := (mapIndex node s.m_Item).2 } : DataTreeFilter).deref
                (mapIndex node s.m_Item).1 with
        | none => none
        | some it =>
          match (siblingList it).get { s with m_Item := (mapIndex node s.m_Item).2 } with
          | none => none
          | some _ =>
            TreePruneScan more false
              { item := (mapIndex node s.m_Item).1, list := some (siblingList it),
                listFirstIter := some 0, listLastIter := some 0 }
              { s with m_Item := (mapIndex node s.m_Item).2 }
      else
        match incrementIter loc.list loc.listLastIter s with
        | none => none
        | some j => TreePruneScan more false { loc with listLastIter := some j } s
    | some false => TreePruneScan more firstMatch loc s

/-- Source function `DataTreeFilter::TreePrune`. -/
def TreePrune (e : TreeEvent) (s : DataTreeFilter) : Option DataTreeFilter :=
  match s.m_DataTree with
  | none => none
  | some root =>
    match root.subtree e.position with
    | none => none
    | some treePosition =>
      match (if s.m_HierarchyHandling = HierarchyHandling.PRESERVE_HIERARCHY then
               s.callFilter treePosition.Get
             else some false) with
      | none => none
      | some hit =>
        match (if hit then
                 -- item = m_Item[treePosition->Get()]
                 match ({ s with m_Item := (mapIndex treePosition.Get s.m_Item).2 } :
                          DataTreeFilter).deref (mapIndex treePosition.Get s.m_Item).1 with
                 | none => none
                 | some it =>
                   match (siblingList it).get
                           { s with m_Item := (mapIndex treePosition.Get s.m_Item).2 } with
                   | none => none
                   | some xs =>
                     some (({ item := (mapIndex treePosition.Get s.m_Item).1,
                              list := some (siblingList it),
                              listFirstIter :=
                                some (findPosition (mapIndex treePosition.Get s.m_Item).1 xs),
                              listLastIter :=
                                if findPosition (mapIndex treePosition.Get s.m_Item).1 xs
                                    < xs.length then
                                  some (findPosition (mapIndex treePosition.Get s.m_Item).1 xs)
                                else none } : PruneLocals),
                           { s with m_Item := (mapIndex treePosition.Get s.m_Item).2 })
               else
                 TreePruneScan treePosition.preOrder true
                   { item := 0, list := none, listFirstIter := none, listLastIter := none } s) with
        | none => none
        | some (loc, s1) =>
          -- ++listLastIter
          match incrementIter loc.list loc.listLastIter s1 with
          | none => none
          | some last =>
            match s1.deref loc.item, loc.list, loc.listFirstIter with
            | some it, some list, some first =>
              match eraseRange list first last
                      (InvokeEvent (Event.TreeFilterRemoveChildrenEvent it.m_Parent) s1) with
              | none => none
              | some s2 => renumberAndAnnounce list s2
            | _, _, _ => none

/-- Source function `DataTreeFilter::TreeRemove`. -/
def TreeRemove (e : TreeEvent) (s : DataTreeFilter) : Option DataTreeFilter :=
  if e.kind ≠ TreeEventKind.TreeRemoveEvent then some s
  else
    match s.m_DataTree with
    | none => none
    | some root =>
      match root.subtree e.position with
      | none => none
      | some treePosition =>
        match s.callFilter treePosition.Get with
        | none => none
        | some false => some s
        | some true =>
          -- item = m_Item[treePosition->Get()]
          match ({ s with m_Item := (mapIndex treePosition.Get s.m_Item).2 } :
                   DataTreeFilter).deref (mapIndex treePosition.Get s.m_Item).1 with
          | none => none
          | some it =>
            match (siblingList it).get
                    { s with m_Item := (mapIndex treePosition.Get s.m_Item).2 } with
            | none => none
            | some xs =>
              -- list->insert(listIter, item->m_Children->begin(), item->m_Children->end())
              match (siblingList it).set
                      (if it.m_Children.length > 0 then
                         xs.take (findPosition (mapIndex treePosition.Get s.m_Item).1 xs) ++ it.m_Children
                           ++ xs.drop (findPosition (mapIndex treePosition.Get s.m_Item).1 xs)
                       else xs)
                      { s with m_Item := (mapIndex treePosition.Get s.m_Item).2 } with
              | none => none
              | some s1 =>
                match (siblingList it).get s1 with
                | none => none
                | some ys =>
                  -- list->erase(listIter)
                  if findPosition (mapIndex treePosition.Get s.m_Item).1 ys < ys.length then
                    match eraseRange (siblingList it) (findPosition (mapIndex treePosition.Get s.m_Item).1 ys)
                            (findPosition (mapIndex treePosition.Get s.m_Item).1 ys + 1)
                            (InvokeEvent (Event.TreeFilterRemoveChildrenEvent it.m_Parent) s1) with
                    | none => none
                    | some s2 => renumberAndAnnounce (siblingList it) s2
                  else none

/-- The constructor `DataTreeFilter::DataTreeFilter(datatree)` on a tree
with the given content, in an environment of filter functions, node
properties and property factory. -/
def New (datatree : Option TreeNode) (filterCode : Nat → NodePtr → Bool)
    (nodeProperties : List ((NodePtr × String) × PropPtr))
    (hasDefaultProperty : String → Bool) : Option DataTreeFilter :=
  match SetFilter FilterFunctionPointer.addrIsDataTreeNode
          { m_Filter := FilterFunctionPointer.null,
            m_DataTree := datatree,
            m_HierarchyHandling := HierarchyHandling.PRESERVE_HIERARCHY,
            m_SelectionMode := SelectionMode.MULTI_SELECT,
            m_Renderer := 0,
            m_Items := [],
            m_Item := [],
            m_SelectedItems := [],
            m_LastSelectedItem := 0,
            m_PropertyLabels := [],
            m_VisibleProperties := [],
            m_EditableProperties := [],
            filterCode := filterCode,
            nodeProperties := nodeProperties,
            hasDefaultProperty := hasDefaultProperty,
            nextItem := 0,
            nextProperty := 0,
            events := [] } with
  | none => none
  | some s =>
    -- m_Items = ItemList::New(); // create an empty list
    some (release s.m_Items { s with m_Items := [] })

end DataTreeFilter

/-! ## Property access -/

inductive Exception where
  | NoPermissionException
deriving DecidableEq, Repr

/-- Source class `DataTreeFilter::BasePropertyAccessor`. -/
structure BasePropertyAccessor where
  m_Editable : Bool
  m_Property : PropPtr
deriving DecidableEq, Repr

namespace BasePropertyAccessor

/-- Source function `BasePropertyAccessor::IsEditable`. -/
def IsEditable (a : BasePropertyAccessor) : Bool := a.m_Editable

/-- Source expression `operator const mitk::BaseProperty*()`. -/
def toConstBaseProperty (a : BasePropertyAccessor) : Except Exception PropPtr :=
  Except.ok a.m_Property

/-- Source expression `operator mitk::BaseProperty*()`. -/
def toBaseProperty (a : BasePropertyAccessor) : Except Exception PropPtr :=
  if !a.m_Editable then Except.error Exception.NoPermissionException
  else Except.ok a.m_Property

/-- Source expression `operator const std::string()`; `GetValueAsString` is the property's own
method. -/
def toStdString (GetValueAsString : PropPtr → String) (a : BasePropertyAccessor) :
    Except Exception String :=
  if a.m_Property = 0 then Except.ok "[no value]"
  else Except.ok (GetValueAsString a.m_Property)

end BasePropertyAccessor

/-- Lookup in the property storage; a missing entry is a null property. -/
def propFind (k : NodePtr × String) : List ((NodePtr × String) × PropPtr) → PropPtr
  | [] => 0
  | (k2, v) :: rest => if k2 = k then v else propFind k rest

namespace DataTreeFilter

/-- Modelled from the spec: `DataTreeNode::GetProperty(key, renderer)` of the
external property storage: the property the node holds under the key, null
when there is none.  Calling it through a null node pointer is undefined. -/
def nodeGetProperty (node : NodePtr) (key : String) (_renderer : RendererPtr)
    (s : DataTreeFilter) : Option PropPtr :=
  if node = 0 then none else some (propFind (node, key) s.nodeProperties)

/-- Modelled from the spec: `DataTreeNode::SetProperty(key, property)` of the
external property storage: afterwards the node holds the property under
the key. -/
def nodeSetProperty (node : NodePtr) (key : String) (property : PropPtr)
    (s : DataTreeFilter) : Option DataTreeFilter :=
  if node = 0 then none
  else some { s with nodeProperties := ((node, key), property) :: s.nodeProperties }

/-- Modelled from the spec: `PropertyManager::CreateDefaultProperty(key)` of
the external property factory: a new property object when the factory
knows a default for the key, null otherwise. -/
def CreateDefaultProperty (key : String) (s : DataTreeFilter) : PropPtr × DataTreeFilter :=
  if s.hasDefaultProperty key then
    (s.nextProperty + 1, { s with nextProperty := s.nextProperty + 1 })
  else (0, s)

/-- Source function `Item::GetProperty(key)` on the item `it`: the accessor returned and the
state afterwards. -/
def Item.GetProperty (it : Item) (key : String) (s : DataTreeFilter) :
    Option (BasePropertyAccessor × DataTreeFilter) :=
  match nodeGetProperty it.m_Node key s.m_Renderer s with
  | none => none
  | some prop =>
    if key ∉ s.m_VisibleProperties then
      -- key not marked visible
      some ({ m_Editable := false, m_Property := 0 }, s)
    else if prop = 0 then
      if (CreateDefaultProperty key s).1 ≠ 0 then
        match nodeSetProperty it.m_Node key (CreateDefaultProperty key s).1
                (CreateDefaultProperty key s).2 with
        | none => none
        | some s2 =>
          some ({ m_Editable := decide (key ∈ s.m_EditableProperties),
                  m_Property := (CreateDefaultProperty key s).1 }, s2)
      else
        some ({ m_Editable := decide (key ∈ s.m_EditableProperties), m_Property := prop },
              (CreateDefaultProperty key s).2)
    else
      some ({ m_Editable := decide (key ∈ s.m_EditableProperties), m_Property := prop }, s)

end DataTreeFilter

end mitk

/-! ## Notions the properties are stated with -/

namespace mitk

/-- The addresses of an item and of the items it owns, in pre-order. -/
def Item.addrs (it : Item) : List ItemPtr := (Item.flatten it).map Item.self

/-- The addresses of all items of a forest, in pre-order. -/
def itemAddrs (forest : List Item) : List ItemPtr := (flattenItems forest).map Item.self

mutual
/-- Every child list below the item is numbered 0, 1, 2, ... -/
def Item.contiguous : Item → Bool
  | .mk _ _ _ ch _ _ => contiguousFrom 0 ch
/-- The items of the list carry the indices `i`, `i + 1`, ... in order, and
every child list below them is numbered from 0. -/
def contiguousFrom : Nat → List Item → Bool
  | _, [] => true
  | i, x :: xs => decide (x.m_Index = i) && Item.contiguous x && contiguousFrom (i + 1) xs
end

mutual
/-- Every item below the item has as `m_Parent` the address of the item
whose child list holds it. -/
def Item.parentLinks : Item → Bool
  | .mk a _ _ ch _ _ => parentLinksFrom a ch
/-- Every item of the list has `m_Parent = p`, and the parent links below
the items hold. -/
def parentLinksFrom : ItemPtr → List Item → Bool
  | _, [] => true
  | p, x :: xs => decide (x.m_Parent = p) && Item.parentLinks x && parentLinksFrom p xs
end

mutual
/-- The nodes of an item and of the items it owns, with their nesting. -/
def Item.shape : Item → TreeNode
  | .mk _ _ _ ch n _ => TreeNode.mk n (shapes ch)
/-- The nodes of a forest, with their nesting. -/
def shapes : List Item → List TreeNode
  | [] => []
  | x :: xs => Item.shape x :: shapes xs
end

/-- The nodes of the tree that pass the filter, in pre-order. -/
def matchingNodes (f : NodePtr → Bool) : Option TreeNode → List NodePtr
  | none => []
  | some t => t.preOrder.filter f

mutual
/-- The hierarchy-preserving projection of a tree as the spec words it: a
node that passes the filter stays, with the projections of its sub-trees as
children; a node that does not is transparent and hands the projections of
its sub-trees to the level above. -/
def TreeNode.project (f : NodePtr → Bool) : TreeNode → List TreeNode
  | .mk d cs => if f d then [TreeNode.mk d (projectList f cs)] else projectList f cs
/-- The projections of a list of sibling sub-trees, in order. -/
def projectList (f : NodePtr → Bool) : List TreeNode → List TreeNode
  | [] => []
  | c :: cs => TreeNode.project f c ++ projectList f cs
end

/-- The hierarchy-preserving projection of a possibly empty tree. -/
def projectTree (f : NodePtr → Bool) : Option TreeNode → List TreeNode
  | none => []
  | some t => t.project f

mutual
/-- The matching nodes of a tree in pre-order, each with its nearest
matching proper ancestor (`anc` is the one of the root of the sub-tree). -/
def TreeNode.withAncestor (f : NodePtr → Bool) (anc : Option NodePtr) :
    TreeNode → List (NodePtr × Option NodePtr)
  | .mk d cs =>
    if f d then (d, anc) :: withAncestorList f (some d) cs else withAncestorList f anc cs
/-- The same for a list of sibling sub-trees. -/
def withAncestorList (f : NodePtr → Bool) (anc : Option NodePtr) :
    List TreeNode → List (NodePtr × Option NodePtr)
  | [] => []
  | c :: cs => TreeNode.withAncestor f anc c ++ withAncestorList f anc cs
end

mutual
/-- The node of an item and of the items it owns in pre-order, each with the
node of the item whose child list holds it (`owner` for the item itself). -/
def Item.ownerPairs : Option NodePtr → Item → List (NodePtr × Option NodePtr)
  | owner, .mk _ _ _ ch n _ => (n, owner) :: ownerPairsList (some n) ch
/-- The same for the items of a list that `owner` holds. -/
def ownerPairsList : Option NodePtr → List Item → List (NodePtr × Option NodePtr)
  | _, [] => []
  | owner, x :: xs => Item.ownerPairs owner x ++ ownerPairsList owner xs
end

/-- The items of a list are numbered `i`, `i + 1`, ..., have `m_Parent = p`
and no children. -/
def flatFrom (p : ItemPtr) : Nat → List Item → Prop
  | _, [] => True
  | i, x :: xs => x.m_Index = i ∧ x.m_Parent = p ∧ x.m_Children = [] ∧ flatFrom p (i + 1) xs

/-- The filter as a function, for a state whose filter pointer is not null. -/
def DataTreeFilter.filterFun (s : DataTreeFilter) (node : NodePtr) : Bool :=
  match s.m_Filter with
  | .null => false
  | .addrIsDataTreeNode => IsDataTreeNode node
  | .other fn => s.filterCode fn node

mutual
/-- What `AddMatchingChildren` at a position appends to its list: the items
with index from `index` on and addresses after `next`, and the last address
used. -/
def buildChildren (mode : HierarchyHandling) (f : NodePtr → Bool) (t : TreeNode)
    (parent : ItemPtr) (index next : Nat) : List Item × Nat :=
  match t with
  | .mk _ cs => buildLoop mode f cs parent index next
/-- What the child loop of `AddMatchingChildren` appends to its list. -/
def buildLoop (mode : HierarchyHandling) (f : NodePtr → Bool) (cs : List TreeNode)
    (parent : ItemPtr) (index next : Nat) : List Item × Nat :=
  match cs with
  | [] => ([], next)
  | c :: rest =>
    if f c.Get then
      match mode with
      | .PRESERVE_HIERARCHY =>
        (Item.mk (next + 1) index parent
            (buildChildren mode f c (next + 1) 0 (next + 1)).1 c.Get false
          :: (buildLoop mode f rest parent (index + 1)
                (buildChildren mode f c (next + 1) 0 (next + 1)).2).1,
         (buildLoop mode f rest parent (index + 1)
            (buildChildren mode f c (next + 1) 0 (next + 1)).2).2)
      | .FLATTEN_HIERARCHY =>
        (Item.mk (next + 1) index parent [] c.Get false
          :: ((buildChildren mode f c parent (index + 1) (next + 1)).1
              ++ (buildLoop mode f rest parent
                    (index + 1 + (buildChildren mode f c parent (index + 1) (next + 1)).1.length)
                    (buildChildren mode f c parent (index + 1) (next + 1)).2).1),
         (buildLoop mode f rest parent
            (index + 1 + (buildChildren mode f c parent (index + 1) (next + 1)).1.length)
            (buildChildren mode f c parent (index + 1) (next + 1)).2).2)
    else
      ((buildChildren mode f c parent index next).1
        ++ (buildLoop mode f rest parent
              (index + (buildChildren mode f c parent index next).1.length)
              (buildChildren mode f c parent index next).2).1,
       (buildLoop mode f rest parent
          (index + (buildChildren mode f c parent index next).1.length)
          (buildChildren mode f c parent index next).2).2)
end

/-- The registry after `Item::New` has run for the items in order. -/
def registerAll (items : List Item) (m : List (NodePtr × ItemPtr)) : List (NodePtr × ItemPtr) :=
  items.foldl (fun acc it => mapAssign it.m_Node it.self acc) m

/-- The state after a walk that left the forest `forest`, used the addresses
up to `next` and created `items`. -/
def DataTreeFilter.afterBuild (s : DataTreeFilter) (forest : List Item) (next : Nat)
    (items : List Item) : DataTreeFilter :=
  { s with m_Items := forest, nextItem := next,
           m_Item := registerAll (flattenItems items) s.m_Item }

/-- The forest a full regeneration builds from a possibly empty tree, and
the last address used. -/
def buildTree (mode : HierarchyHandling) (f : NodePtr → Bool) (tree : Option TreeNode)
    (next : Nat) : List Item × Nat :=
  match tree with
  | none => ([], next)
  | some root => buildLoop mode f [root] 0 0 next

/-- The events a full regeneration sends between its first and its last one. -/
def rootEvents (f : NodePtr → Bool) (tree : Option TreeNode) (next : Nat) : List Event :=
  match tree with
  | none => []
  | some root => if f root.Get then [Event.TreeFilterItemAddedEvent (next + 1)] else []

/-- The operations that change the item forest. -/
inductive Operation where
  | GenerateModelFromTree
  | SetFilter (filter : FilterFunctionPointer)
  | SetHierarchyHandling (hierarchyHandling : HierarchyHandling)
  | TreeNodeChange (e : TreeEvent)
  | TreeAdd (e : TreeEvent)
  | TreePrune (e : TreeEvent)
  | TreeRemove (e : TreeEvent)

/-- Run an operation on the engine. -/
def Operation.run : Operation → DataTreeFilter → Option DataTreeFilter
  | .GenerateModelFromTree, s => DataTreeFilter.GenerateModelFromTree s
  | .SetFilter filter, s => DataTreeFilter.SetFilter filter s
  | .SetHierarchyHandling h, s => DataTreeFilter.SetHierarchyHandling h s
  | .TreeNodeChange e, s => DataTreeFilter.TreeNodeChange e s
  | .TreeAdd e, s => DataTreeFilter.TreeAdd e s
  | .TreePrune e, s => DataTreeFilter.TreePrune e s
  | .TreeRemove e, s => DataTreeFilter.TreeRemove e s

end mitk

/-! ## Example engines -/

namespace mitk

open DataTreeFilter

/-- A data tree with root node 1 and one child node 2. -/
def twoNodeTree : TreeNode := TreeNode.mk 1 [TreeNode.mk 2 []]

/-- The engine constructed on `twoNodeTree`, switched to the flat hierarchy
(which regenerates the items 3 and 4) and to single selection. -/
def singleSelectEngine : Option DataTreeFilter :=
  ((New (some twoNodeTree) (fun _ _ => false) [] (fun _ => false)).bind
      (SetHierarchyHandling HierarchyHandling.FLATTEN_HIERARCHY)).map
    (SetSelectionMode SelectionMode.SINGLE_SELECT)

/-- An engine state with one visible and editable key `name`, a node 7 that
holds property 5 under the key `color`, which is editable but not visible. -/
def propertyEngine : DataTreeFilter :=
  { m_Filter := FilterFunctionPointer.addrIsDataTreeNode,
    m_DataTree := none,
    m_HierarchyHandling := HierarchyHandling.PRESERVE_HIERARCHY,
    m_SelectionMode := SelectionMode.MULTI_SELECT,
    m_Renderer := 0,
    m_Items := [],
    m_Item := [],
    m_SelectedItems := [],
    m_LastSelectedItem := 0,
    m_PropertyLabels := [],
    m_VisibleProperties := ["name"],
    m_EditableProperties := ["name", "color"],
    filterCode := fun _ _ => false,
    nodeProperties := [((7, "color"), 5)],
    hasDefaultProperty := fun k => k == "name",
    nextItem := 0,
    nextProperty := 5,
    events := [] }

/-- Repeated `SetFilter` called with each pointer of a list in turn. -/
def setFilters : List FilterFunctionPointer → DataTreeFilter → Option DataTreeFilter
  | [], s => some s
  | filter :: rest, s =>
    match SetFilter filter s with
    | none => none
    | some s2 => setFilters rest s2

/-- The scenario tree of the spec: root 10 (R) with children 11 (A) and
12 (B), and 13 (C) below B. -/
def scenarioTree : TreeNode :=
  TreeNode.mk 10 [TreeNode.mk 11 [], TreeNode.mk 12 [TreeNode.mk 13 []]]

/-- An engine state on `scenarioTree` whose filter 0 accepts the nodes 11
and 13 (A and C), with one stale selected root item. -/
def scenarioEngine (mode : HierarchyHandling) : DataTreeFilter :=
  { m_Filter := FilterFunctionPointer.other 0,
    m_DataTree := some scenarioTree,
    m_HierarchyHandling := mode,
    m_SelectionMode := SelectionMode.MULTI_SELECT,
    m_Renderer := 0,
    m_Items := [Item.mk 1 0 0 [] 10 true],
    m_Item := [(10, 1)],
    m_SelectedItems := [1],
    m_LastSelectedItem := 0,
    m_PropertyLabels := [],
    m_VisibleProperties := [],
    m_EditableProperties := [],
    filterCode := fun _ n => n == 11 || n == 13,
    nodeProperties := [],
    hasDefaultProperty := fun _ => false,
    nextItem := 1,
    nextProperty := 0,
    events := [] }

/-- A forest that is contiguous except that the list `l` has been
overwritten with items that are contiguous below themselves. -/
def contiguousExcept (l : ItemListPtr) (forest : List Item) : Prop :=
  ∃ f0 xs ys, contiguousFrom 0 f0 = true ∧ l.getIn f0 = some xs
    ∧ l.setIn ys f0 = some forest ∧ ∀ y ∈ ys, y.contiguous = true

/-- Registry consistency: the registry maps the node of every live item to
that item, and every registry entry is the non-null address of a live item
with that node. -/
def registryConsistent (s : DataTreeFilter) : Bool :=
  (flattenItems s.m_Items).all (fun it => mapFind it.m_Node s.m_Item == some it.self)
  && s.m_Item.all (fun e => e.2 != 0
        && (flattenItems s.m_Items).any (fun it => it.self == e.2 && it.m_Node == e.1))

/-- An engine state in the preserved hierarchy on the tree 20 with children
11 and 14 and with 13 below 14; every node has its item (addresses 1 to 4). -/
def removeEngine : DataTreeFilter :=
  { m_Filter := FilterFunctionPointer.addrIsDataTreeNode,
    m_DataTree := some (TreeNode.mk 20 [TreeNode.mk 11 [], TreeNode.mk 14 [TreeNode.mk 13 []]]),
    m_HierarchyHandling := HierarchyHandling.PRESERVE_HIERARCHY,
    m_SelectionMode := SelectionMode.MULTI_SELECT,
    m_Renderer := 0,
    m_Items := [Item.mk 1 0 0
                  [Item.mk 2 0 1 [] 11 false,
                   Item.mk 3 1 1 [Item.mk 4 0 3 [] 13 false] 14 false] 20 false],
    m_Item := [(20, 1), (11, 2), (14, 3), (13, 4)],
    m_SelectedItems := [],
    m_LastSelectedItem := 0,
    m_PropertyLabels := [],
    m_VisibleProperties := [],
    m_EditableProperties := [],
    filterCode := fun _ _ => false,
    nodeProperties := [],
    hasDefaultProperty := fun _ => false,
    nextItem := 4,
    nextProperty := 0,
    events := [] }

/-- The tree 20 (R) with children 11 (A), 12 (B) and 14 (P), and 13 (C) below
B. -/
def pruneTree : TreeNode :=
  TreeNode.mk 20 [TreeNode.mk 11 [], TreeNode.mk 12 [TreeNode.mk 13 []], TreeNode.mk 14 []]

/-- The tree after B has been pruned from `pruneTree` and the node C has been
added again below P. -/
def readdedTree : TreeNode :=
  TreeNode.mk 20 [TreeNode.mk 11 [], TreeNode.mk 14 [TreeNode.mk 13 []]]

/-- The engine constructed on `pruneTree` with a filter that accepts R, A, C
and P but not B (preserved hierarchy). -/
def pruneEngine : Option DataTreeFilter :=
  (New (some pruneTree) (fun _ n => n == 11 || n == 13 || n == 14 || n == 20) []
      (fun _ => false)).bind
    (SetFilter (FilterFunctionPointer.other 0))

/-- State `pruneEngine` after the prune notification for B. -/
def prunedEngine : Option DataTreeFilter :=
  pruneEngine.bind (TreePrune { kind := TreeEventKind.TreePruneEvent, position := [1] })

/-- State `prunedEngine` after the tree has become `readdedTree` and the add
notification for C (below P) has been handled. -/
def readdedEngine : Option DataTreeFilter :=
  prunedEngine.bind
    (fun s => TreeAdd { kind := TreeEventKind.TreeAddEvent, position := [1, 0] }
                { s with m_DataTree := some readdedTree })

/-! ## Definitions for the notification handlers -/

/-- The range of iterator positions `[listFirstIter, listLastIter)` that
`TreePrune` erases from the sibling list `xs` of the item `item` of the first
matching node below the pruned position: the position of the item alone in
the first branch, and in the scanning branch as many positions as the
sub-tree has matching nodes, counted from `list->begin()`. -/
def pruneRange (s : DataTreeFilter) (treePosition : TreeNode) (item : ItemPtr)
    (xs : List Item) : Nat × Nat :=
  if s.m_HierarchyHandling = HierarchyHandling.PRESERVE_HIERARCHY
      ∧ s.filterFun treePosition.Get = true then
    (findPosition item xs, findPosition item xs + 1)
  else (0, (treePosition.preOrder.filter s.filterFun).length)

/-- An engine state in the flat hierarchy on the tree 10 with children 12
and 11 and with 13 below 12; the filter 0 accepts 11, 12 and 13, and each of
them has its item in the root list (addresses 1 to 3, in pre-order). -/
def flatRangeEngine : DataTreeFilter :=
  { m_Filter := FilterFunctionPointer.other 0,
    m_DataTree := some (TreeNode.mk 10 [TreeNode.mk 12 [TreeNode.mk 13 []], TreeNode.mk 11 []]),
    m_HierarchyHandling := HierarchyHandling.FLATTEN_HIERARCHY,
    m_SelectionMode := SelectionMode.MULTI_SELECT,
    m_Renderer := 0,
    m_Items := [Item.mk 1 0 0 [] 12 false, Item.mk 2 1 0 [] 13 false, Item.mk 3 2 0 [] 11 false],
    m_Item := [(12, 1), (13, 2), (11, 3)],
    m_SelectedItems := [],
    m_LastSelectedItem := 0,
    m_PropertyLabels := [],
    m_VisibleProperties := [],
    m_EditableProperties := [],
    filterCode := fun _ n => n == 11 || n == 12 || n == 13,
    nodeProperties := [],
    hasDefaultProperty := fun _ => false,
    nextItem := 3,
    nextProperty := 0,
    events := [] }

/-- What the walk sends between two states: only
`TreeFilterItemAddedEvent`s, as many as items were created when `verbose` is
set and none otherwise. -/
def walkEvents (verbose : Bool) (s s2 : DataTreeFilter) : Prop :=
  ∃ evs, s2.events = s.events ++ evs
    ∧ (∀ ev ∈ evs, ∃ a, ev = Event.TreeFilterItemAddedEvent a)
    ∧ s.nextItem ≤ s2.nextItem
    ∧ evs.length = if verbose = true then s2.nextItem - s.nextItem else 0

/-- The engine constructed on `twoNodeTree` (default filter, preserved
hierarchy, multiple selection) after a node-change notification for the root
position, which regenerates the items: item 3 for node 1 and its child item 4
for node 2. -/
def regeneratedEngine : Option DataTreeFilter :=
  (New (some twoNodeTree) (fun _ _ => false) [] (fun _ => false)).bind
    (TreeNodeChange { kind := TreeEventKind.TreeNodeChangeEvent, position := [] })

/-- The tree `twoNodeTree` after node 3 has been added as second child of
the root. -/
def grownTree : TreeNode := TreeNode.mk 1 [TreeNode.mk 2 [], TreeNode.mk 3 []]

/-- The tree R = 10 with the children A = 11 and B = 12. -/
def flatPruneTree : TreeNode := TreeNode.mk 10 [TreeNode.mk 11 [], TreeNode.mk 12 []]

/-- The engine constructed on `flatPruneTree` with a filter that accepts A
and B but not R, switched to the flat hierarchy: the root list holds the item
6 of A and the item 7 of B. -/
def flatPruneEngine : Option DataTreeFilter :=
  ((New (some flatPruneTree) (fun _ n => n == 11 || n == 12) [] (fun _ => false)).bind
      (SetFilter (FilterFunctionPointer.other 0))).bind
    (SetHierarchyHandling HierarchyHandling.FLATTEN_HIERARCHY)

/-- The tree 10 with the child 11 and the grandchild 12 below it. -/
def promoteTree : TreeNode := TreeNode.mk 10 [TreeNode.mk 11 [TreeNode.mk 12 []]]

/-- The engine constructed on `promoteTree` with a filter that accepts 11 and
12 but not 10 (preserved hierarchy): the root list holds the item 4 of node
11, which holds the item 5 of node 12. -/
def promoteEngine : Option DataTreeFilter :=
  (New (some promoteTree) (fun _ n => n == 11 || n == 12) [] (fun _ => false)).bind
    (SetFilter (FilterFunctionPointer.other 0))

/-- The state `removeEngine` before node 13 was added below node 14: the item
3 of node 14 has no children yet and node 13 is not registered. -/
def addEngine : DataTreeFilter :=
  { removeEngine with
    m_Items := [Item.mk 1 0 0
                  [Item.mk 2 0 1 [] 11 false, Item.mk 3 1 1 [] 14 false] 20 false],
    m_Item := [(20, 1), (11, 2), (14, 3)],
    nextItem := 3 }

/-- The tree 10 with the child 12, below it 13, and below that 14. -/
def nestedPruneTree : TreeNode :=
  TreeNode.mk 10 [TreeNode.mk 12 [TreeNode.mk 13 [TreeNode.mk 14 []]]]

/-- The engine constructed on `nestedPruneTree` with a filter that accepts 13
and 14 but not 10 and 12 (preserved hierarchy): the root list holds the item
5 of node 13, which holds the item 6 of node 14. -/
def nestedPruneEngine : Option DataTreeFilter :=
  (New (some nestedPruneTree) (fun _ n => n == 13 || n == 14) [] (fun _ => false)).bind
    (SetFilter (FilterFunctionPointer.other 0))

/-! ## Definitions for the selection invariant -/

/-- An engine state on the tree 10 with the children 11 and 12, whose filter
0 accepts the node 11 only; the item 1 of node 11 is the one root item in
either hierarchy mode. -/
def leafEngine (mode : HierarchyHandling) : DataTreeFilter :=
  { m_Filter := FilterFunctionPointer.other 0,
    m_DataTree := some (TreeNode.mk 10 [TreeNode.mk 11 [], TreeNode.mk 12 []]),
    m_HierarchyHandling := mode,
    m_SelectionMode := SelectionMode.MULTI_SELECT,
    m_Renderer := 0,
    m_Items := [Item.mk 1 0 0 [] 11 false],
    m_Item := [(11, 1)],
    m_SelectedItems := [],
    m_LastSelectedItem := 0,
    m_PropertyLabels := [],
    m_VisibleProperties := [],
    m_EditableProperties := [],
    filterCode := fun _ n => n == 11,
    nodeProperties := [],
    hasDefaultProperty := fun _ => false,
    nextItem := 1,
    nextProperty := 0,
    events := [] }

/-- The address and the selected flag of every item of a forest, in
pre-order. -/
def flagsOf (forest : List Item) : List (ItemPtr × Bool) :=
  (flattenItems forest).map (fun it => (it.self, it.m_Selected))

/-- The items listed in `flags` are distinct objects at non-null addresses
up to `next`, and `selected` holds exactly the addresses whose flag is
set. -/
def FlagsInvariant (flags : List (ItemPtr × Bool)) (selected : List ItemPtr) (next : Nat) :
    Prop :=
  (flags.map Prod.fst).Nodup
  ∧ (∀ a : Nat, a ∈ flags.map Prod.fst → 0 < a ∧ a ≤ next)
  ∧ (∀ a : Nat, a ∈ selected ↔ (a, true) ∈ flags)

/-- The invariant behind the selection set: `m_LastSelectedItem` is null, the
items of the forest are distinct objects at addresses that have been
allocated, and the selection set holds exactly the items whose selected flag
is set. -/
def SelectionInvariant (s : DataTreeFilter) : Prop :=
  s.m_LastSelectedItem = 0
  ∧ FlagsInvariant (flagsOf s.m_Items) s.m_SelectedItems s.nextItem

/-- What a client or the data tree can do to the engine: the selection
calls, the operations on the forest, and a change of the content of the data
tree (which the tree announces with a notification afterwards). -/
inductive Action where
  | SetSelected (item : ItemPtr) (selected : Bool)
  | SelectItem (item : ItemPtr) (selected : Bool)
  | SetSelectionMode (selectionMode : SelectionMode)
  | forest (op : Operation)
  | treeChanged (tree : Option TreeNode)

/-- Run an action on the engine. -/
def Action.run : Action → DataTreeFilter → Option DataTreeFilter
  | .SetSelected item selected, s => Item.SetSelected item selected s
  | .SelectItem item selected, s => DataTreeFilter.SelectItem item selected s
  | .SetSelectionMode selectionMode, s => some (DataTreeFilter.SetSelectionMode selectionMode s)
  | .forest op, s => op.run s
  | .treeChanged tree, s => some { s with m_DataTree := tree }

/-- Run a sequence of actions, one after the other. -/
def runActions : List Action → DataTreeFilter → Option DataTreeFilter
  | [], s => some s
  | a :: rest, s =>
    match a.run s with
    | none => none
    | some s2 => runActions rest s2

/-- A session on the engine of `twoNodeTree`: the items are regenerated
(item 3 for node 1 holding item 4 for node 2), single selection is switched
on, both items are selected through `SelectItem`, and the remove notification
for the root node arrives. -/
def selectionActions : List Action :=
  [Action.forest (Operation.TreeNodeChange
      { kind := TreeEventKind.TreeNodeChangeEvent, position := [] }),
   Action.SetSelectionMode SelectionMode.SINGLE_SELECT,
   Action.SelectItem 3 true,
   Action.SelectItem 4 true,
   Action.forest (Operation.TreeRemove
      { kind := TreeEventKind.TreeRemoveEvent, position := [] })]

/-! ## Forest lemmas -/

theorem flattenItems_append (xs ys : List Item) :
    flattenItems (xs ++ ys) = flattenItems xs ++ flattenItems ys := by
  induction xs with
  | nil => simp [flattenItems]
  | cons x xs ih => simp [flattenItems, ih]

@[simp] theorem itemAddrs_nil : itemAddrs [] = [] := by simp [itemAddrs, flattenItems]

@[simp] theorem itemAddrs_cons (x : Item) (xs : List Item) :
    itemAddrs (x :: xs) = Item.addrs x ++ itemAddrs xs := by
  simp [itemAddrs, Item.addrs, flattenItems]

@[simp] theorem itemAddrs_append (xs ys : List Item) :
    itemAddrs (xs ++ ys) = itemAddrs xs ++ itemAddrs ys := by
  simp [itemAddrs, flattenItems_append]

@[simp] theorem Item.addrs_mk (a i p : Nat) (ch : List Item) (n : Nat) (b : Bool) :
    Item.addrs (Item.mk a i p ch n b) = a :: itemAddrs ch := by
  simp [itemAddrs, Item.addrs, Item.flatten, Item.self]

@[simp] theorem Item.find_mk (q a i p : Nat) (ch : List Item) (n : Nat) (b : Bool) :
    Item.find q (Item.mk a i p ch n b)
      = if a = q then some (Item.mk a i p ch n b) else findItem q ch := by
  simp [Item.find]

@[simp] theorem findItem_nil (q : Nat) : findItem q [] = none := by simp [findItem]

theorem findItem_cons (q : Nat) (x : Item) (xs : List Item) :
    findItem q (x :: xs) = (Item.find q x).orElse (fun _ => findItem q xs) := by
  simp only [findItem]
  cases Item.find q x <;> rfl

@[simp] theorem Item.modify_mk (q : Nat) (f : Item → Item) (a i p : Nat) (ch : List Item)
    (n : Nat) (b : Bool) :
    Item.modify q f (Item.mk a i p ch n b)
      = if a = q then some (f (Item.mk a i p ch n b))
        else (modifyItem q f ch).map (fun ch2 => Item.mk a i p ch2 n b) := by
  simp only [Item.modify]
  split
  · rfl
  · cases modifyItem q f ch <;> rfl

@[simp] theorem modifyItem_nil (q : Nat) (f : Item → Item) : modifyItem q f [] = none := by
  simp [modifyItem]

theorem modifyItem_cons (q : Nat) (f : Item → Item) (x : Item) (xs : List Item) :
    modifyItem q f (x :: xs)
      = match Item.modify q f x with
        | some x2 => some (x2 :: xs)
        | none => (modifyItem q f xs).map (fun xs2 => x :: xs2) := by
  simp only [modifyItem]
  cases Item.modify q f x
  · cases modifyItem q f xs <;> rfl
  · rfl

mutual
theorem Item.find_eq_none (q : Nat) : ∀ (x : Item), q ∉ Item.addrs x → Item.find q x = none
  | .mk a i p ch n b => by
    intro h
    simp only [Item.addrs_mk, List.mem_cons, not_or] at h
    simp only [Item.find_mk]
    rw [if_neg (fun e => h.1 e.symm)]
    exact findItem_eq_none q ch h.2
theorem findItem_eq_none (q : Nat) : ∀ (xs : List Item), q ∉ itemAddrs xs → findItem q xs = none
  | [] => by intro _; simp
  | x :: xs => by
    intro h
    simp only [itemAddrs_cons, List.mem_append, not_or] at h
    rw [findItem_cons, Item.find_eq_none q x h.1]
    exact findItem_eq_none q xs h.2
end

mutual
theorem Item.modify_isSome (q : Nat) (f : Item → Item) :
    ∀ (x : Item), (Item.modify q f x).isSome = (Item.find q x).isSome
  | .mk a i p ch n b => by
    simp only [Item.find_mk, Item.modify_mk]
    split
    · rfl
    · simp [modifyItem_isSome q f ch]
theorem modifyItem_isSome (q : Nat) (f : Item → Item) :
    ∀ (xs : List Item), (modifyItem q f xs).isSome = (findItem q xs).isSome
  | [] => by simp
  | x :: xs => by
    rw [findItem_cons, modifyItem_cons]
    have h1 := Item.modify_isSome q f x
    have h2 := modifyItem_isSome q f xs
    cases hm : Item.modify q f x <;> cases hf : Item.find q x <;> simp_all
end

theorem modifyItem_eq_none (q : Nat) (f : Item → Item) (xs : List Item)
    (h : q ∉ itemAddrs xs) : modifyItem q f xs = none := by
  have := modifyItem_isSome q f xs
  rw [findItem_eq_none q xs h] at this
  simpa using this

theorem Item.modify_eq_none (q : Nat) (f : Item → Item) (x : Item)
    (h : q ∉ Item.addrs x) : Item.modify q f x = none := by
  have := Item.modify_isSome q f x
  rw [Item.find_eq_none q x h] at this
  simpa using this

theorem findItem_append (q : Nat) (xs ys : List Item) :
    findItem q (xs ++ ys) = (findItem q xs).orElse (fun _ => findItem q ys) := by
  induction xs with
  | nil => simp
  | cons x xs ih =>
    rw [List.cons_append, findItem_cons, findItem_cons, ih]
    cases Item.find q x <;> simp

theorem modifyItem_append (q : Nat) (f : Item → Item) (xs ys : List Item) :
    modifyItem q f (xs ++ ys)
      = match modifyItem q f xs with
        | some xs2 => some (xs2 ++ ys)
        | none => (modifyItem q f ys).map (fun ys2 => xs ++ ys2) := by
  induction xs with
  | nil => simp
  | cons x xs ih =>
    rw [List.cons_append, modifyItem_cons, modifyItem_cons, ih]
    cases Item.modify q f x
    · cases modifyItem q f xs
      · cases modifyItem q f ys <;> simp
      · simp
    · simp

mutual
theorem Item.find_self (q : Nat) : ∀ (x it : Item), Item.find q x = some it → it.self = q
  | .mk a i p ch n b, it => by
    simp only [Item.find_mk]
    split
    · rename_i h
      intro e
      cases e
      simpa [Item.self] using h
    · exact findItem_self q ch it
theorem findItem_self (q : Nat) : ∀ (xs : List Item) (it : Item), findItem q xs = some it → it.self = q
  | [], it => by simp
  | x :: xs, it => by
    rw [findItem_cons]
    cases h : Item.find q x
    · simpa using findItem_self q xs it
    · simp only [Option.orElse, Option.some.injEq]
      intro e
      exact Item.find_self q x it (e ▸ h)
end

mutual
theorem Item.find_mem (q : Nat) : ∀ (x it : Item), Item.find q x = some it → it ∈ Item.flatten x
  | .mk a i p ch n b, it => by
    simp only [Item.find_mk, Item.flatten]
    split
    · intro e
      cases e
      simp
    · intro h
      exact List.mem_cons_of_mem _ (findItem_mem q ch it h)
theorem findItem_mem (q : Nat) : ∀ (xs : List Item) (it : Item), findItem q xs = some it → it ∈ flattenItems xs
  | [], it => by simp
  | x :: xs, it => by
    rw [findItem_cons]
    simp only [flattenItems, List.mem_append]
    cases h : Item.find q x
    · intro h2
      exact Or.inr (findItem_mem q xs it (by simpa using h2))
    · simp only [Option.orElse, Option.some.injEq]
      intro e
      exact Or.inl (Item.find_mem q x it (e ▸ h))
end

theorem Item.find_of_self (q : Nat) (x : Item) (h : x.self = q) : Item.find q x = some x := by
  cases x with
  | mk a i p ch n b =>
    simp only [Item.self] at h
    simp [h]

@[simp] theorem Item.self_setChildren (ys : List Item) (x : Item) :
    (x.setChildren ys).self = x.self := by
  cases x; rfl

@[simp] theorem Item.self_setIndex (i : Nat) (x : Item) : (x.setIndex i).self = x.self := by
  cases x; rfl

@[simp] theorem Item.self_setSelectedFlag (b : Bool) (x : Item) :
    (x.setSelectedFlag b).self = x.self := by
  cases x; rfl

@[simp] theorem Item.m_Children_setChildren (ys : List Item) (x : Item) :
    (x.setChildren ys).m_Children = ys := by
  cases x; rfl

theorem Item.modify_of_self (q : Nat) (f : Item → Item) (x : Item) (h : x.self = q) :
    Item.modify q f x = some (f x) := by
  cases x with
  | mk a i p ch n b =>
    simp only [Item.self] at h
    simp [h]

mutual
theorem Item.modify_find (q : Nat) (g : Item → Item) (hg : ∀ x, (g x).self = x.self) :
    ∀ (x x1 : Item), Item.modify q g x = some x1 →
      ∃ it, Item.find q x = some it ∧ Item.find q x1 = some (g it)
  | .mk a i p ch n b, x1 => by
    simp only [Item.modify_mk, Item.find_mk]
    split
    · rename_i h
      intro e
      cases e
      refine ⟨_, rfl, ?_⟩
      apply Item.find_of_self
      rw [hg]
      exact h
    · rename_i h
      intro e
      cases hm : modifyItem q g ch with
      | none => simp [hm] at e
      | some ch1 =>
        simp only [hm, Option.map_some', Option.some.injEq] at e
        subst e
        obtain ⟨it, h1, h2⟩ := modifyItem_find q g hg ch ch1 hm
        exact ⟨it, h1, by simp [h, h2]⟩
theorem modifyItem_find (q : Nat) (g : Item → Item) (hg : ∀ x, (g x).self = x.self) :
    ∀ (xs xs1 : List Item), modifyItem q g xs = some xs1 →
      ∃ it, findItem q xs = some it ∧ findItem q xs1 = some (g it)
  | [], xs1 => by simp
  | x :: xs, xs1 => by
    rw [modifyItem_cons, findItem_cons]
    cases hm : Item.modify q g x with
    | some x1 =>
      simp only [Option.some.injEq]
      intro e
      subst e
      obtain ⟨it, h1, h2⟩ := Item.modify_find q g hg x x1 hm
      exact ⟨it, by simp [h1], by simp [findItem_cons, h2]⟩
    | none =>
      have hf : Item.find q x = none := by
        have := Item.modify_isSome q g x
        rw [hm] at this
        cases h : Item.find q x
        · rfl
        · rw [h] at this; simp at this
      cases hm2 : modifyItem q g xs with
      | none => simp
      | some xs2 =>
        simp only [Option.map_some', Option.some.injEq]
        intro e
        subst e
        obtain ⟨it, h1, h2⟩ := modifyItem_find q g hg xs xs2 hm2
        exact ⟨it, by simp [hf, h1], by simp [findItem_cons, hf, h2]⟩
end

mutual
theorem Item.modify_modify (q : Nat) (g h : Item → Item) (hg : ∀ x, (g x).self = x.self) :
    ∀ (x x1 : Item), Item.modify q g x = some x1 →
      Item.modify q h x1 = Item.modify q (h ∘ g) x
  | .mk a i p ch n b, x1 => by
    simp only [Item.modify_mk]
    split
    · rename_i ha
      intro e
      cases e
      have hs : (g (Item.mk a i p ch n b)).self = q := by rw [hg]; exact ha
      rw [Item.modify_of_self q h _ hs]
      rfl
    · rename_i ha
      intro e
      cases hm : modifyItem q g ch with
      | none => simp [hm] at e
      | some ch1 =>
        simp only [hm, Option.map_some', Option.some.injEq] at e
        subst e
        simp [ha, modifyItem_modify q g h hg ch ch1 hm]
theorem modifyItem_modify (q : Nat) (g h : Item → Item) (hg : ∀ x, (g x).self = x.self) :
    ∀ (xs xs1 : List Item), modifyItem q g xs = some xs1 →
      modifyItem q h xs1 = modifyItem q (h ∘ g) xs
  | [], xs1 => by simp
  | x :: xs, xs1 => by
    rw [modifyItem_cons]
    cases hm : Item.modify q g x with
    | some x1 =>
      simp only [Option.some.injEq]
      intro e
      subst e
      rw [modifyItem_cons, modifyItem_cons, Item.modify_modify q g h hg x x1 hm]
      have : (Item.modify q (h ∘ g) x).isSome = true := by
        rw [Item.modify_isSome, ← Item.modify_isSome q g x, hm]; rfl
      cases h2 : Item.modify q (h ∘ g) x with
      | none => rw [h2] at this; simp at this
      | some y => rfl
    | none =>
      have hn : ∀ k, Item.modify q k x = none := by
        intro k
        have := Item.modify_isSome q k x
        rw [← Item.modify_isSome q g x, hm] at this
        cases h2 : Item.modify q k x
        · rfl
        · rw [h2] at this; simp at this
      cases hm2 : modifyItem q g xs with
      | none => simp
      | some xs2 =>
        simp only [Option.map_some', Option.some.injEq]
        intro e
        subst e
        rw [modifyItem_cons, modifyItem_cons, hn h, hn (h ∘ g),
          modifyItem_modify q g h hg xs xs2 hm2]
end

mutual
theorem Item.modify_nested (p q : Nat) (item0 : Item) (h0 : item0.self = q) :
    ∀ (x it x1 : Item), q ∉ Item.addrs x → Item.find p x = some it →
      Item.modify p (Item.setChildren (it.m_Children ++ [item0])) x = some x1 →
      Item.find q x1 = some item0 ∧
      ∀ g : Item → Item, Item.modify q g x1
        = Item.modify p (Item.setChildren (it.m_Children ++ [g item0])) x
  | .mk a i par ch n b, it, x1 => by
    intro hq
    simp only [Item.addrs_mk, List.mem_cons, not_or] at hq
    have haq : ¬ a = q := fun e => hq.1 e.symm
    simp only [Item.find_mk, Item.modify_mk]
    split
    · rename_i hap
      intro e1 e2
      cases e1
      cases e2
      simp only [Item.setChildren, Item.m_Children, Item.find_mk, if_neg haq, Item.modify_mk,
        findItem_append, findItem_eq_none q ch hq.2, modifyItem_append,
        modifyItem_eq_none q _ ch hq.2]
      refine ⟨?_, ?_⟩
      · simp [findItem_cons, Item.find_of_self q item0 h0]
      · intro g
        cases item0 with
        | mk a0 i0 p0 ch0 n0 b0 =>
          simp only [Item.self] at h0
          simp [modifyItem_cons, h0]
    · rename_i hap
      intro e1 e2
      cases hm : modifyItem p (Item.setChildren (it.m_Children ++ [item0])) ch with
      | none => simp [hm] at e2
      | some ch1 =>
        simp only [hm, Option.map_some', Option.some.injEq] at e2
        subst e2
        obtain ⟨r1, r2⟩ := modifyItem_nested p q item0 h0 ch it ch1 hq.2 e1 hm
        refine ⟨by simp [haq, r1], ?_⟩
        intro g
        simp [haq, r2 g]
theorem modifyItem_nested (p q : Nat) (item0 : Item) (h0 : item0.self = q) :
    ∀ (xs : List Item) (it : Item) (xs1 : List Item), q ∉ itemAddrs xs → findItem p xs = some it →
      modifyItem p (Item.setChildren (it.m_Children ++ [item0])) xs = some xs1 →
      findItem q xs1 = some item0 ∧
      ∀ g : Item → Item, modifyItem q g xs1
        = modifyItem p (Item.setChildren (it.m_Children ++ [g item0])) xs
  | [], it, xs1 => by simp
  | x :: xs, it, xs1 => by
    intro hq
    simp only [itemAddrs_cons, List.mem_append, not_or] at hq
    rw [modifyItem_cons, findItem_cons]
    cases hf : Item.find p x with
    | some it2 =>
      simp only [Option.orElse, Option.some.injEq]
      intro e
      subst e
      cases hm : Item.modify p (Item.setChildren (it2.m_Children ++ [item0])) x with
      | none =>
        have := Item.modify_isSome p (Item.setChildren (it2.m_Children ++ [item0])) x
        rw [hm, hf] at this
        simp at this
      | some x1 =>
        simp only [Option.some.injEq]
        intro e
        subst e
        obtain ⟨r1, r2⟩ := Item.modify_nested p q item0 h0 x it2 x1 hq.1 hf hm
        refine ⟨by simp [findItem_cons, r1], ?_⟩
        intro g
        rw [modifyItem_cons, modifyItem_cons, r2 g]
        have : (Item.modify p (Item.setChildren (it2.m_Children ++ [g item0])) x).isSome = true := by
          rw [Item.modify_isSome, hf]; rfl
        cases h2 : Item.modify p (Item.setChildren (it2.m_Children ++ [g item0])) x with
        | none => rw [h2] at this; simp at this
        | some y => rfl
    | none =>
      have hn : ∀ k, Item.modify p k x = none := by
        intro k
        have := Item.modify_isSome p k x
        rw [hf] at this
        cases h2 : Item.modify p k x
        · rfl
        · rw [h2] at this; simp at this
      simp only [Option.orElse]
      intro e1
      rw [hn]
      cases hm2 : modifyItem p (Item.setChildren (it.m_Children ++ [item0])) xs with
      | none => simp
      | some xs2 =>
        simp only [Option.map_some', Option.some.injEq]
        intro e
        subst e
        obtain ⟨r1, r2⟩ := modifyItem_nested p q item0 h0 xs it xs2 hq.2 e1 hm2
        refine ⟨by simp [findItem_cons, Item.find_eq_none q x hq.1, r1], ?_⟩
        intro g
        rw [modifyItem_cons, modifyItem_cons, Item.modify_eq_none q g x hq.1, hn, r2 g]
end

mutual
theorem Item.modify_addrs (p : Nat) (ys : List Item) :
    ∀ (x x1 : Item), Item.modify p (Item.setChildren ys) x = some x1 →
      ∀ a ∈ Item.addrs x1, a ∈ Item.addrs x ∨ a ∈ itemAddrs ys
  | .mk a i par ch n b, x1 => by
    simp only [Item.modify_mk]
    split
    · intro e
      cases e
      intro c hc
      simp only [Item.setChildren, Item.addrs_mk, List.mem_cons] at hc ⊢
      rcases hc with hc | hc
      · exact Or.inl (Or.inl hc)
      · exact Or.inr hc
    · intro e
      cases hm : modifyItem p (Item.setChildren ys) ch with
      | none => simp [hm] at e
      | some ch1 =>
        simp only [hm, Option.map_some', Option.some.injEq] at e
        subst e
        intro c hc
        simp only [Item.addrs_mk, List.mem_cons] at hc ⊢
        rcases hc with hc | hc
        · exact Or.inl (Or.inl hc)
        · rcases modifyItem_addrs p ys ch ch1 hm c hc with h | h
          · exact Or.inl (Or.inr h)
          · exact Or.inr h
theorem modifyItem_addrs (p : Nat) (ys : List Item) :
    ∀ (xs xs1 : List Item), modifyItem p (Item.setChildren ys) xs = some xs1 →
      ∀ a ∈ itemAddrs xs1, a ∈ itemAddrs xs ∨ a ∈ itemAddrs ys
  | [], xs1 => by simp
  | x :: xs, xs1 => by
    rw [modifyItem_cons]
    cases hm : Item.modify p (Item.setChildren ys) x with
    | some x1 =>
      simp only [Option.some.injEq]
      intro e
      subst e
      intro c hc
      simp only [itemAddrs_cons, List.mem_append] at hc ⊢
      rcases hc with hc | hc
      · rcases Item.modify_addrs p ys x x1 hm c hc with h | h
        · exact Or.inl (Or.inl h)
        · exact Or.inr h
      · exact Or.inl (Or.inr hc)
    | none =>
      cases hm2 : modifyItem p (Item.setChildren ys) xs with
      | none => simp
      | some xs2 =>
        simp only [Option.map_some', Option.some.injEq]
        intro e
        subst e
        intro c hc
        simp only [itemAddrs_cons, List.mem_append] at hc ⊢
        rcases hc with hc | hc
        · exact Or.inl (Or.inl hc)
        · rcases modifyItem_addrs p ys xs xs2 hm2 c hc with h | h
          · exact Or.inl (Or.inr h)
          · exact Or.inr h
end

theorem Item.setChildren_comp (ys zs : List Item) :
    (Item.setChildren zs) ∘ (Item.setChildren ys) = Item.setChildren zs := by
  funext x
  cases x
  rfl

theorem derefIn_eq_some {p : Nat} {forest : List Item} {it : Item}
    (h : derefIn p forest = some it) : p ≠ 0 ∧ findItem p forest = some it := by
  unfold derefIn at h
  split at h
  · simp at h
  · exact ⟨by assumption, h⟩

mutual
theorem Item.flatten_addrs_sub : ∀ (x it : Item), it ∈ Item.flatten x →
    ∀ a ∈ itemAddrs it.m_Children, a ∈ Item.addrs x
  | .mk a0 i p ch n b, it => by
    simp only [Item.flatten, List.mem_cons, Item.addrs_mk]
    rintro (h | h) a ha
    · subst h
      exact Or.inr ha
    · exact Or.inr (flattenItems_addrs_sub ch it h a ha)
theorem flattenItems_addrs_sub : ∀ (xs : List Item) (it : Item), it ∈ flattenItems xs →
    ∀ a ∈ itemAddrs it.m_Children, a ∈ itemAddrs xs
  | [], it => by simp [flattenItems]
  | x :: xs, it => by
    simp only [flattenItems, List.mem_append, itemAddrs_cons]
    rintro (h | h) a ha
    · exact Or.inl (Item.flatten_addrs_sub x it h a ha)
    · exact Or.inr (flattenItems_addrs_sub xs it h a ha)
end

namespace ItemListPtr

/-- The elements of a list of the forest are items of the forest. -/
theorem getIn_addrs {l : ItemListPtr} {forest xs : List Item} (h : l.getIn forest = some xs) :
    ∀ a ∈ itemAddrs xs, a ∈ itemAddrs forest := by
  cases l with
  | items =>
    simp only [getIn, Option.some.injEq] at h
    subst h
    exact fun a ha => ha
  | childrenOf p =>
    simp only [getIn] at h
    cases hd : derefIn p forest with
    | none => simp [hd] at h
    | some it =>
      simp only [hd, Option.some.injEq] at h
      subst h
      have := derefIn_eq_some hd
      exact flattenItems_addrs_sub forest it (findItem_mem p forest it this.2)

/-- Writing a list that exists succeeds; afterwards the list reads as what was
written, a second write replaces the first, and no other address appears. -/
theorem setIn_of_getIn {l : ItemListPtr} {forest xs : List Item} (ys : List Item)
    (h : l.getIn forest = some xs) :
    ∃ f1, l.setIn ys forest = some f1 ∧ l.getIn f1 = some ys
      ∧ (∀ zs, l.setIn zs f1 = l.setIn zs forest)
      ∧ (∀ a ∈ itemAddrs f1, a ∈ itemAddrs forest ∨ a ∈ itemAddrs ys) := by
  cases l with
  | items =>
    exact ⟨ys, rfl, rfl, fun _ => rfl, fun a ha => Or.inr ha⟩
  | childrenOf p =>
    simp only [getIn] at h
    cases hd : derefIn p forest with
    | none => simp [hd] at h
    | some it =>
      obtain ⟨hp, hf⟩ := derefIn_eq_some hd
      have hsome : (modifyItem p (Item.setChildren ys) forest).isSome = true := by
        rw [modifyItem_isSome, hf]; rfl
      cases hm : modifyItem p (Item.setChildren ys) forest with
      | none => rw [hm] at hsome; simp at hsome
      | some f1 =>
        refine ⟨f1, by simp [setIn, hp, hm], ?_, ?_, ?_⟩
        · obtain ⟨it2, h1, h2⟩ :=
            modifyItem_find p (Item.setChildren ys) (Item.self_setChildren ys) forest f1 hm
          simp [getIn, derefIn, hp, h2]
        · intro zs
          simp only [setIn, if_neg hp]
          rw [modifyItem_modify p (Item.setChildren ys) (Item.setChildren zs)
            (Item.self_setChildren ys) forest f1 hm, Item.setChildren_comp]
        · exact modifyItem_addrs p ys forest f1 hm

/-- After a new item has been appended to a list, its own child list is
found under its address, and writing that child list is the same as
appending the item with the children already in place. -/
theorem setIn_nested {l : ItemListPtr} {forest xs f1 : List Item} (item0 : Item) (q : Nat)
    (h : l.getIn forest = some xs) (hq : q ∉ itemAddrs forest) (hq0 : q ≠ 0)
    (h0 : item0.self = q) (hs : l.setIn (xs ++ [item0]) forest = some f1) :
    (ItemListPtr.childrenOf q).getIn f1 = some item0.m_Children
    ∧ ∀ kids, (ItemListPtr.childrenOf q).setIn kids f1
        = l.setIn (xs ++ [item0.setChildren kids]) forest := by
  cases l with
  | items =>
    simp only [getIn, Option.some.injEq] at h
    subst h
    simp only [setIn, Option.some.injEq] at hs
    subst hs
    refine ⟨?_, ?_⟩
    · simp [getIn, derefIn, hq0, findItem_append, findItem_eq_none q _ hq, findItem_cons,
        Item.find_of_self q item0 h0]
    · intro kids
      simp [setIn, hq0, modifyItem_append, modifyItem_eq_none q _ _ hq, modifyItem_cons,
        Item.modify_of_self q _ item0 h0]
  | childrenOf p =>
    simp only [getIn] at h
    cases hd : derefIn p forest with
    | none => simp [hd] at h
    | some it =>
      simp only [hd, Option.some.injEq] at h
      subst h
      obtain ⟨hp, hf⟩ := derefIn_eq_some hd
      simp only [setIn, if_neg hp] at hs
      obtain ⟨r1, r2⟩ := modifyItem_nested p q item0 h0 forest it f1 hq hf hs
      refine ⟨by simp [getIn, derefIn, hq0, r1], ?_⟩
      intro kids
      simp [setIn, hq0, hp, r2]

end ItemListPtr

/-! ## The functional description of the recursive walk -/

@[simp] theorem buildChildren_mk (mode : HierarchyHandling) (f : NodePtr → Bool) (d : NodePtr)
    (cs : List TreeNode) (parent index next : Nat) :
    buildChildren mode f (TreeNode.mk d cs) parent index next
      = buildLoop mode f cs parent index next := by
  simp [buildChildren]

theorem buildChildren_eq (mode : HierarchyHandling) (f : NodePtr → Bool) (t : TreeNode)
    (parent index next : Nat) :
    buildChildren mode f t parent index next
      = buildLoop mode f t.children parent index next := by
  cases t
  simp [TreeNode.children]

@[simp] theorem buildLoop_nil (mode : HierarchyHandling) (f : NodePtr → Bool)
    (parent index next : Nat) :
    buildLoop mode f [] parent index next = ([], next) := by
  simp [buildLoop]

theorem buildLoop_cons_skip (mode : HierarchyHandling) (f : NodePtr → Bool) (c : TreeNode)
    (rest : List TreeNode) (parent index next : Nat) (h : f c.Get = false) :
    buildLoop mode f (c :: rest) parent index next
      = ((buildChildren mode f c parent index next).1
          ++ (buildLoop mode f rest parent
                (index + (buildChildren mode f c parent index next).1.length)
                (buildChildren mode f c parent index next).2).1,
         (buildLoop mode f rest parent
            (index + (buildChildren mode f c parent index next).1.length)
            (buildChildren mode f c parent index next).2).2) := by
  rw [buildLoop.eq_def]
  simp [h]

theorem buildLoop_cons_preserve (f : NodePtr → Bool) (c : TreeNode)
    (rest : List TreeNode) (parent index next : Nat) (h : f c.Get = true) :
    buildLoop HierarchyHandling.PRESERVE_HIERARCHY f (c :: rest) parent index next
      = (Item.mk (next + 1) index parent
            (buildChildren HierarchyHandling.PRESERVE_HIERARCHY f c (next + 1) 0 (next + 1)).1
            c.Get false
          :: (buildLoop HierarchyHandling.PRESERVE_HIERARCHY f rest parent (index + 1)
                (buildChildren HierarchyHandling.PRESERVE_HIERARCHY f c (next + 1) 0
                  (next + 1)).2).1,
         (buildLoop HierarchyHandling.PRESERVE_HIERARCHY f rest parent (index + 1)
            (buildChildren HierarchyHandling.PRESERVE_HIERARCHY f c (next + 1) 0
              (next + 1)).2).2) := by
  rw [buildLoop]
  simp [h]

theorem buildLoop_cons_flatten (f : NodePtr → Bool) (c : TreeNode)
    (rest : List TreeNode) (parent index next : Nat) (h : f c.Get = true) :
    buildLoop HierarchyHandling.FLATTEN_HIERARCHY f (c :: rest) parent index next
      = (Item.mk (next + 1) index parent [] c.Get false
          :: ((buildChildren HierarchyHandling.FLATTEN_HIERARCHY f c parent (index + 1)
                (next + 1)).1
              ++ (buildLoop HierarchyHandling.FLATTEN_HIERARCHY f rest parent
                    (index + 1 + (buildChildren HierarchyHandling.FLATTEN_HIERARCHY f c parent
                      (index + 1) (next + 1)).1.length)
                    (buildChildren HierarchyHandling.FLATTEN_HIERARCHY f c parent (index + 1)
                      (next + 1)).2).1),
         (buildLoop HierarchyHandling.FLATTEN_HIERARCHY f rest parent
            (index + 1 + (buildChildren HierarchyHandling.FLATTEN_HIERARCHY f c parent
              (index + 1) (next + 1)).1.length)
            (buildChildren HierarchyHandling.FLATTEN_HIERARCHY f c parent (index + 1)
              (next + 1)).2).2) := by
  rw [buildLoop]
  simp [h]

mutual
theorem buildChildren_addrs (mode : HierarchyHandling) (f : NodePtr → Bool) :
    ∀ (t : TreeNode) (parent index next : Nat),
      next ≤ (buildChildren mode f t parent index next).2
      ∧ ∀ a : Nat, a ∈ itemAddrs (buildChildren mode f t parent index next).1 →
          next < a ∧ a ≤ (buildChildren mode f t parent index next).2
  | .mk d cs, parent, index, next => by
    simp only [buildChildren_mk]
    exact buildLoop_addrs mode f cs parent index next
theorem buildLoop_addrs (mode : HierarchyHandling) (f : NodePtr → Bool) :
    ∀ (cs : List TreeNode) (parent index next : Nat),
      next ≤ (buildLoop mode f cs parent index next).2
      ∧ ∀ a : Nat, a ∈ itemAddrs (buildLoop mode f cs parent index next).1 →
          next < a ∧ a ≤ (buildLoop mode f cs parent index next).2
  | [], parent, index, next => by simp
  | c :: rest, parent, index, next => by
    cases hf : f c.Get with
    | false =>
      rw [buildLoop_cons_skip mode f c rest parent index next hf]
      dsimp only
      obtain ⟨k1, k2⟩ := buildChildren_addrs mode f c parent index next
      obtain ⟨m1, m2⟩ := buildLoop_addrs mode f rest parent
        (index + (buildChildren mode f c parent index next).1.length)
        (buildChildren mode f c parent index next).2
      refine ⟨le_trans k1 m1, ?_⟩
      intro a ha
      simp only [itemAddrs_append, List.mem_append] at ha
      rcases ha with ha | ha
      · exact ⟨(k2 a ha).1, le_trans (k2 a ha).2 m1⟩
      · exact ⟨lt_of_le_of_lt k1 (m2 a ha).1, (m2 a ha).2⟩
    | true =>
      cases mode with
      | PRESERVE_HIERARCHY =>
        rw [buildLoop_cons_preserve f c rest parent index next hf]
        dsimp only
        obtain ⟨k1, k2⟩ := buildChildren_addrs HierarchyHandling.PRESERVE_HIERARCHY f c
          (next + 1) 0 (next + 1)
        obtain ⟨m1, m2⟩ := buildLoop_addrs HierarchyHandling.PRESERVE_HIERARCHY f rest parent
          (index + 1)
          (buildChildren HierarchyHandling.PRESERVE_HIERARCHY f c (next + 1) 0 (next + 1)).2
        refine ⟨by omega, ?_⟩
        intro a ha
        simp only [itemAddrs_cons, Item.addrs_mk, List.mem_append, List.mem_cons] at ha
        rcases ha with (ha | ha) | ha
        · subst ha; exact ⟨by omega, by omega⟩
        · have := k2 a ha; exact ⟨by omega, by omega⟩
        · have := m2 a ha; exact ⟨by omega, by omega⟩
      | FLATTEN_HIERARCHY =>
        rw [buildLoop_cons_flatten f c rest parent index next hf]
        dsimp only
        obtain ⟨k1, k2⟩ := buildChildren_addrs HierarchyHandling.FLATTEN_HIERARCHY f c
          parent (index + 1) (next + 1)
        obtain ⟨m1, m2⟩ := buildLoop_addrs HierarchyHandling.FLATTEN_HIERARCHY f rest parent
          (index + 1 + (buildChildren HierarchyHandling.FLATTEN_HIERARCHY f c parent
            (index + 1) (next + 1)).1.length)
          (buildChildren HierarchyHandling.FLATTEN_HIERARCHY f c parent (index + 1) (next + 1)).2
        refine ⟨by omega, ?_⟩
        intro a ha
        simp only [itemAddrs_cons, Item.addrs_mk, itemAddrs_nil, itemAddrs_append,
          List.mem_append, List.mem_cons, List.not_mem_nil, or_false] at ha
        rcases ha with ha | ha | ha
        · subst ha; exact ⟨by omega, by omega⟩
        · have := k2 a ha; exact ⟨by omega, by omega⟩
        · have := m2 a ha; exact ⟨by omega, by omega⟩
end

theorem registerAll_append (xs ys : List Item) (m : List (NodePtr × ItemPtr)) :
    registerAll (xs ++ ys) m = registerAll ys (registerAll xs m) := by
  simp [registerAll]

@[simp] theorem registerAll_nil (m : List (NodePtr × ItemPtr)) : registerAll [] m = m := rfl

@[simp] theorem registerAll_cons (x : Item) (xs : List Item) (m : List (NodePtr × ItemPtr)) :
    registerAll (x :: xs) m = registerAll xs (mapAssign x.m_Node x.self m) := rfl

namespace ItemListPtr

/-- Appending to a list in two steps is appending once. -/
theorem setIn_append {l : ItemListPtr} {forest xs f1 : List Item} (ys : List Item)
    (h : l.getIn forest = some xs) (hs : l.setIn (xs ++ ys) forest = some f1) :
    l.getIn f1 = some (xs ++ ys)
    ∧ (∀ zs, l.setIn ((xs ++ ys) ++ zs) f1 = l.setIn (xs ++ (ys ++ zs)) forest)
    ∧ (∀ a : Nat, a ∈ itemAddrs f1 → a ∈ itemAddrs forest ∨ a ∈ itemAddrs ys) := by
  obtain ⟨f2, e1, e2, e3, e4⟩ := setIn_of_getIn (xs ++ ys) h
  rw [hs] at e1
  cases e1
  refine ⟨e2, ?_, ?_⟩
  · intro zs
    rw [e3, List.append_assoc]
  · intro a ha
    rcases e4 a ha with h1 | h1
    · exact Or.inl h1
    · simp only [itemAddrs_append, List.mem_append] at h1
      rcases h1 with h1 | h1
      · exact Or.inl (getIn_addrs h a h1)
      · exact Or.inr h1

end ItemListPtr

mutual
theorem Item.modify_same (p : Nat) :
    ∀ (x it : Item), Item.find p x = some it →
      Item.modify p (Item.setChildren it.m_Children) x = some x
  | .mk a i par ch n b, it => by
    simp only [Item.find_mk, Item.modify_mk]
    split
    · intro e
      cases e
      rfl
    · intro e
      rw [modifyItem_same p ch it e]
      rfl
theorem modifyItem_same (p : Nat) :
    ∀ (xs : List Item) (it : Item), findItem p xs = some it →
      modifyItem p (Item.setChildren it.m_Children) xs = some xs
  | [], it => by simp
  | x :: xs, it => by
    rw [findItem_cons, modifyItem_cons]
    cases hf : Item.find p x with
    | some it2 =>
      simp only [Option.orElse, Option.some.injEq]
      intro e
      subst e
      rw [Item.modify_same p x it2 hf]
    | none =>
      simp only [Option.orElse]
      intro e
      have hn : Item.modify p (Item.setChildren it.m_Children) x = none := by
        have := Item.modify_isSome p (Item.setChildren it.m_Children) x
        rw [hf] at this
        cases h2 : Item.modify p (Item.setChildren it.m_Children) x
        · rfl
        · rw [h2] at this; simp at this
      rw [hn, modifyItem_same p xs it e]
      rfl
end

namespace ItemListPtr

/-- Writing back what a list holds changes nothing. -/
theorem setIn_same {l : ItemListPtr} {forest xs : List Item} (h : l.getIn forest = some xs) :
    l.setIn xs forest = some forest := by
  cases l with
  | items =>
    simp only [getIn, Option.some.injEq] at h
    simp [setIn, h]
  | childrenOf p =>
    simp only [getIn] at h
    cases hd : derefIn p forest with
    | none => simp [hd] at h
    | some it =>
      simp only [hd, Option.some.injEq] at h
      subst h
      obtain ⟨hp, hf⟩ := derefIn_eq_some hd
      simp [setIn, hp, modifyItem_same p forest it hf]

end ItemListPtr

theorem afterBuild_afterBuild (s : DataTreeFilter) (f1 f2 : List Item) (n1 n2 : Nat)
    (xs ys : List Item) :
    (s.afterBuild f1 n1 xs).afterBuild f2 n2 ys = s.afterBuild f2 n2 (xs ++ ys) := by
  simp [afterBuild, flattenItems_append, registerAll_append]

theorem afterBuild_nil (s : DataTreeFilter) : s.afterBuild s.m_Items s.nextItem [] = s := by
  simp [afterBuild, flattenItems]

mutual
theorem AddMatchingChildren_eq (mode : HierarchyHandling) (f : NodePtr → Bool) :
    ∀ (t : TreeNode) (list : ItemListPtr) (parent : ItemPtr) (s : DataTreeFilter)
      (xs : List Item),
      (∀ n, s.callFilter n = some (f n)) → s.m_HierarchyHandling = mode →
      list.getIn s.m_Items = some xs →
      (∀ a : Nat, a ∈ itemAddrs s.m_Items → a ≤ s.nextItem) →
      ∃ f1, list.setIn (xs ++ (buildChildren mode f t parent xs.length s.nextItem).1) s.m_Items
              = some f1
        ∧ AddMatchingChildren t list parent false s
            = some (s.afterBuild f1 (buildChildren mode f t parent xs.length s.nextItem).2
                      (buildChildren mode f t parent xs.length s.nextItem).1)
  | .mk d cs, list, parent, s, xs => by
    intro hf hm hg hfresh
    rw [AddMatchingChildren, buildChildren_mk]
    exact AddMatchingChildrenLoop_eq mode f cs list parent s xs hf hm hg hfresh
theorem AddMatchingChildrenLoop_eq (mode : HierarchyHandling) (f : NodePtr → Bool) :
    ∀ (cs : List TreeNode) (list : ItemListPtr) (parent : ItemPtr) (s : DataTreeFilter)
      (xs : List Item),
      (∀ n, s.callFilter n = some (f n)) → s.m_HierarchyHandling = mode →
      list.getIn s.m_Items = some xs →
      (∀ a : Nat, a ∈ itemAddrs s.m_Items → a ≤ s.nextItem) →
      ∃ f1, list.setIn (xs ++ (buildLoop mode f cs parent xs.length s.nextItem).1) s.m_Items
              = some f1
        ∧ AddMatchingChildrenLoop cs list parent false s
            = some (s.afterBuild f1 (buildLoop mode f cs parent xs.length s.nextItem).2
                      (buildLoop mode f cs parent xs.length s.nextItem).1)
  | [], list, parent, s, xs => by
    intro hf hm hg hfresh
    refine ⟨s.m_Items, by simp [ItemListPtr.setIn_same hg], ?_⟩
    rw [AddMatchingChildrenLoop]
    simp [afterBuild_nil]
  | c :: rest, list, parent, s, xs => by
    intro hf hm hg hfresh
    rw [AddMatchingChildrenLoop]
    cases hfc : f c.Get with
    | false =>
      simp only [hf, hfc]
      obtain ⟨f1, s1, r1⟩ := AddMatchingChildren_eq mode f c list parent s xs hf hm hg hfresh
      obtain ⟨g1, g2, g3⟩ := ItemListPtr.setIn_append _ hg s1
      obtain ⟨b1, b2⟩ := buildChildren_addrs mode f c parent xs.length s.nextItem
      have hfresh1 : ∀ a : Nat, a ∈ itemAddrs f1 →
          a ≤ (buildChildren mode f c parent xs.length s.nextItem).2 := by
        intro a ha
        rcases g3 a ha with h1 | h1
        · exact le_trans (hfresh a h1) b1
        · exact (b2 a h1).2
      obtain ⟨f2, s2, r2⟩ := AddMatchingChildrenLoop_eq mode f rest list parent
        (s.afterBuild f1 (buildChildren mode f c parent xs.length s.nextItem).2
          (buildChildren mode f c parent xs.length s.nextItem).1)
        (xs ++ (buildChildren mode f c parent xs.length s.nextItem).1)
        hf hm g1 hfresh1
      rw [buildLoop_cons_skip mode f c rest parent xs.length s.nextItem hfc]
      refine ⟨f2, ?_, ?_⟩
      · rw [← g2]
        simpa [afterBuild] using s2
      · rw [r1]
        simp only [r2, afterBuild_afterBuild]
        simp [afterBuild]
    | true =>
      have hq : s.nextItem + 1 ∉ itemAddrs s.m_Items := fun h => by
        have := hfresh _ h
        omega
      obtain ⟨fa, a1, a2, a3, a4⟩ := ItemListPtr.setIn_of_getIn
        (xs ++ [Item.mk (s.nextItem + 1) xs.length parent [] c.Get false]) hg
      have hfresh3 : ∀ a : Nat, a ∈ itemAddrs fa → a ≤ s.nextItem + 1 := by
        intro a ha
        rcases a4 a ha with h1 | h1
        · exact le_trans (hfresh a h1) (by omega)
        · simp only [itemAddrs_append, itemAddrs_cons, Item.addrs_mk, itemAddrs_nil,
            List.mem_append, List.mem_cons, List.not_mem_nil, or_false] at h1
          rcases h1 with h1 | h1
          · exact le_trans (hfresh a (ItemListPtr.getIn_addrs hg a h1)) (by omega)
          · subst h1
            exact le_refl _
      have hstep : CreateElementAt list xs.length
            (Item.New c.Get xs.length parent s).1 (Item.New c.Get xs.length parent s).2
          = some { s with nextItem := s.nextItem + 1,
                          m_Item := mapAssign c.Get (s.nextItem + 1) s.m_Item,
                          m_Items := fa } := by
        simp [CreateElementAt, Item.New, ItemListPtr.get, ItemListPtr.set, hg, a1]
      simp only [hf, hfc, ItemListPtr.Size, ItemListPtr.get, hg, hstep, Bool.false_eq_true,
        if_false]
      cases mode with
      | PRESERVE_HIERARCHY =>
        obtain ⟨n1, n2⟩ := ItemListPtr.setIn_nested
          (Item.mk (s.nextItem + 1) xs.length parent [] c.Get false) (s.nextItem + 1)
          hg hq (by omega) rfl a1
        obtain ⟨fk, k1, k2⟩ := AddMatchingChildren_eq HierarchyHandling.PRESERVE_HIERARCHY f c
          (ItemListPtr.childrenOf (s.nextItem + 1)) (s.nextItem + 1)
          { s with nextItem := s.nextItem + 1,
                   m_Item := mapAssign c.Get (s.nextItem + 1) s.m_Item,
                   m_Items := fa } [] hf hm n1 hfresh3
        simp only [List.length_nil, List.nil_append] at k1 k2
        rw [n2] at k1
        simp only [Item.setChildren] at k1
        obtain ⟨g1, g2, g3⟩ := ItemListPtr.setIn_append _ hg k1
        obtain ⟨b1, b2⟩ := buildChildren_addrs HierarchyHandling.PRESERVE_HIERARCHY f c
          (s.nextItem + 1) 0 (s.nextItem + 1)
        have hfresh4 : ∀ a : Nat, a ∈ itemAddrs fk →
            a ≤ (buildChildren HierarchyHandling.PRESERVE_HIERARCHY f c
                  (s.nextItem + 1) 0 (s.nextItem + 1)).2 := by
          intro a ha
          rcases g3 a ha with h1 | h1
          · exact le_trans (hfresh a h1) (by omega)
          · simp only [itemAddrs_cons, Item.addrs_mk, itemAddrs_nil,
              List.append_nil, List.mem_cons] at h1
            rcases h1 with h1 | h1
            · subst h1
              exact b1
            · exact (b2 a h1).2
        obtain ⟨f2, m1, m2⟩ := AddMatchingChildrenLoop_eq HierarchyHandling.PRESERVE_HIERARCHY
          f rest list parent
          (DataTreeFilter.afterBuild
            { s with nextItem := s.nextItem + 1,
                     m_Item := mapAssign c.Get (s.nextItem + 1) s.m_Item,
                     m_Items := fa } fk
            (buildChildren HierarchyHandling.PRESERVE_HIERARCHY f c
              (s.nextItem + 1) 0 (s.nextItem + 1)).2
            (buildChildren HierarchyHandling.PRESERVE_HIERARCHY f c
              (s.nextItem + 1) 0 (s.nextItem + 1)).1)
          _ hf hm g1 hfresh4
        simp only [afterBuild, List.length_append, List.length_singleton] at m1 m2
        rw [g2] at m1
        rw [buildLoop_cons_preserve f c rest parent xs.length s.nextItem hfc]
        refine ⟨f2, m1, ?_⟩
        simp only [hm, if_true, ItemListPtr.ElementAt, ItemListPtr.get, a2]
        simp only [hm] at k2 m2
        simp only [List.getElem?_concat_length, List.get?_eq_getElem?, Item.self, k2, afterBuild,
          m2]
        simp [hm, flattenItems, Item.flatten, registerAll_append, Item.m_Node, Item.self]
      | FLATTEN_HIERARCHY =>
        obtain ⟨fk, k1, k2⟩ := AddMatchingChildren_eq HierarchyHandling.FLATTEN_HIERARCHY f c
          list parent
          { s with nextItem := s.nextItem + 1,
                   m_Item := mapAssign c.Get (s.nextItem + 1) s.m_Item,
                   m_Items := fa } _ hf hm a2 hfresh3
        simp only [List.length_append, List.length_singleton] at k1 k2
        rw [a3, List.append_assoc] at k1
        obtain ⟨g1, g2, g3⟩ := ItemListPtr.setIn_append _ hg k1
        obtain ⟨b1, b2⟩ := buildChildren_addrs HierarchyHandling.FLATTEN_HIERARCHY f c
          parent (xs.length + 1) (s.nextItem + 1)
        have hfresh4 : ∀ a : Nat, a ∈ itemAddrs fk →
            a ≤ (buildChildren HierarchyHandling.FLATTEN_HIERARCHY f c
                  parent (xs.length + 1) (s.nextItem + 1)).2 := by
          intro a ha
          rcases g3 a ha with h1 | h1
          · exact le_trans (hfresh a h1) (by omega)
          · simp only [itemAddrs_cons, Item.addrs_mk, itemAddrs_nil, itemAddrs_append,
              List.append_nil, List.mem_cons, List.mem_append, List.not_mem_nil, or_false] at h1
            rcases h1 with h1 | h1
            · subst h1
              exact b1
            · exact (b2 a h1).2
        obtain ⟨f2, m1, m2⟩ := AddMatchingChildrenLoop_eq HierarchyHandling.FLATTEN_HIERARCHY
          f rest list parent
          (DataTreeFilter.afterBuild
            { s with nextItem := s.nextItem + 1,
                     m_Item := mapAssign c.Get (s.nextItem + 1) s.m_Item,
                     m_Items := fa } fk
            (buildChildren HierarchyHandling.FLATTEN_HIERARCHY f c
              parent (xs.length + 1) (s.nextItem + 1)).2
            (buildChildren HierarchyHandling.FLATTEN_HIERARCHY f c
              parent (xs.length + 1) (s.nextItem + 1)).1)
          _ hf hm g1 hfresh4
        simp only [afterBuild, List.length_append, List.length_singleton, ← Nat.add_assoc]
          at m1 m2
        rw [g2] at m1
        rw [buildLoop_cons_flatten f c rest parent xs.length s.nextItem hfc]
        refine ⟨f2, by simpa using m1, ?_⟩
        simp only [hm] at k2 m2
        simp only [hm, k2, afterBuild, m2]
        simp [hm, flattenItems, Item.flatten, registerAll_append, Item.m_Node, Item.self,
          flattenItems_append]
        exact m2
end

/-! ## Destruction only touches the selection set and the registry -/

theorem release_fold_frame (l : List Item) (keep : Item → Bool) :
    ∀ (acc : DataTreeFilter),
      l.foldl (fun acc it => if keep it then acc else destroyItem it acc) acc
        = { acc with
            m_SelectedItems :=
              (l.foldl (fun acc it => if keep it then acc else destroyItem it acc)
                acc).m_SelectedItems,
            m_Item :=
              (l.foldl (fun acc it => if keep it then acc else destroyItem it acc)
                acc).m_Item } := by
  induction l with
  | nil => intro acc; rfl
  | cons x xs ih =>
    intro acc
    simp only [List.foldl_cons]
    rw [ih]
    cases keep x <;> simp [destroyItem]

theorem release_frame (gone : List Item) (s : DataTreeFilter) :
    release gone s
      = { s with m_SelectedItems := (release gone s).m_SelectedItems,
                 m_Item := (release gone s).m_Item } := by
  unfold release
  exact release_fold_frame (flattenItems gone)
    (fun it => (findItem it.self s.m_Items).isSome) s

theorem release_events (gone : List Item) (s : DataTreeFilter) (ev : List Event) :
    release gone { s with events := ev } = { release gone s with events := ev } := by
  unfold release
  generalize flattenItems gone = l
  simp only
  suffices h : ∀ (a : DataTreeFilter),
      l.foldl (fun acc it => if (findItem it.self s.m_Items).isSome = true then acc
                             else destroyItem it acc) { a with events := ev }
        = { l.foldl (fun acc it => if (findItem it.self s.m_Items).isSome = true then acc
                                   else destroyItem it acc) a with events := ev } from h s
  induction l with
  | nil => intro a; rfl
  | cons x xs ih =>
    intro a
    simp only [List.foldl_cons]
    split
    · exact ih a
    · exact ih (destroyItem x a)

theorem discard_eq (s : DataTreeFilter) :
    release (InvokeEvent Event.TreeFilterRemoveAllEvent s).m_Items
        { InvokeEvent Event.TreeFilterRemoveAllEvent s with m_Items := [] }
      = { s with m_Items := [],
                 m_SelectedItems := (release s.m_Items { s with m_Items := [] }).m_SelectedItems,
                 m_Item := (release s.m_Items { s with m_Items := [] }).m_Item,
                 events := s.events ++ [Event.TreeFilterRemoveAllEvent] } := by
  have h1 := release_events s.m_Items { s with m_Items := [] }
    (s.events ++ [Event.TreeFilterRemoveAllEvent])
  have h2 := release_frame s.m_Items { s with m_Items := [] }
  simp only [InvokeEvent]
  rw [h1, h2]

/-- The walk from the root on a state whose root list is empty, in closed
form. -/
theorem regenerate_core (s1 : DataTreeFilter) (f : NodePtr → Bool)
    (hf : ∀ n, s1.callFilter n = some (f n)) (h0 : s1.m_Items = [])
    (root : TreeNode) :
    (match s1.callFilter root.Get with
      | none => none
      | some true =>
        match CreateElementAt ItemListPtr.items 0 (Item.New root.Get 0 0 s1).1
                (Item.New root.Get 0 0 s1).2 with
        | none => none
        | some s2 =>
          match ItemListPtr.items.ElementAt 0 s2 with
          | none => none
          | some e =>
            match (if (InvokeEvent (Event.TreeFilterItemAddedEvent e.self) s2).m_HierarchyHandling
                        = HierarchyHandling.PRESERVE_HIERARCHY then
                     AddMatchingChildren root (ItemListPtr.childrenOf e.self) e.self false
                       (InvokeEvent (Event.TreeFilterItemAddedEvent e.self) s2)
                   else AddMatchingChildren root ItemListPtr.items 0 false
                       (InvokeEvent (Event.TreeFilterItemAddedEvent e.self) s2)) with
            | none => none
            | some s4 => some (InvokeEvent Event.TreeFilterUpdateAllEvent s4)
      | some false =>
        match AddMatchingChildren root ItemListPtr.items 0 false s1 with
        | none => none
        | some s4 => some (InvokeEvent Event.TreeFilterUpdateAllEvent s4))
      = some { s1 with
          m_Items := (buildLoop s1.m_HierarchyHandling f [root] 0 0 s1.nextItem).1,
          nextItem := (buildLoop s1.m_HierarchyHandling f [root] 0 0 s1.nextItem).2,
          m_Item := registerAll
            (flattenItems (buildLoop s1.m_HierarchyHandling f [root] 0 0 s1.nextItem).1)
            s1.m_Item,
          events := s1.events
            ++ (if f root.Get then [Event.TreeFilterItemAddedEvent (s1.nextItem + 1)] else [])
            ++ [Event.TreeFilterUpdateAllEvent] } := by
  rw [hf]
  cases hfr : f root.Get with
  | false =>
    obtain ⟨f1, k1, k2⟩ := AddMatchingChildren_eq s1.m_HierarchyHandling f root
      ItemListPtr.items 0 s1 [] hf rfl (by simp [ItemListPtr.getIn, h0]) (by simp [h0])
    simp only [List.length_nil, List.nil_append, ItemListPtr.setIn, Option.some.injEq] at k1
    subst k1
    simp only [List.length_nil] at k2
    rw [buildLoop_cons_skip _ f root [] 0 0 s1.nextItem hfr]
    simp [k2, afterBuild, InvokeEvent]
  | true =>
    have hstep : CreateElementAt ItemListPtr.items 0 (Item.New root.Get 0 0 s1).1
          (Item.New root.Get 0 0 s1).2
        = some { s1 with nextItem := s1.nextItem + 1,
                         m_Item := mapAssign root.Get (s1.nextItem + 1) s1.m_Item,
                         m_Items := [Item.mk (s1.nextItem + 1) 0 0 [] root.Get false] } := by
      simp [CreateElementAt, Item.New, ItemListPtr.get, ItemListPtr.set, ItemListPtr.getIn,
        ItemListPtr.setIn, h0]
    simp only [hstep, ItemListPtr.ElementAt, ItemListPtr.get, ItemListPtr.getIn,
      List.get?_cons_zero, InvokeEvent, Item.self]
    cases hm : s1.m_HierarchyHandling with
    | PRESERVE_HIERARCHY =>
      obtain ⟨f1, k1, k2⟩ := AddMatchingChildren_eq HierarchyHandling.PRESERVE_HIERARCHY f root
        (ItemListPtr.childrenOf (s1.nextItem + 1)) (s1.nextItem + 1)
        { s1 with nextItem := s1.nextItem + 1,
                  m_Item := mapAssign root.Get (s1.nextItem + 1) s1.m_Item,
                  m_Items := [Item.mk (s1.nextItem + 1) 0 0 [] root.Get false],
                  events := s1.events ++ [Event.TreeFilterItemAddedEvent (s1.nextItem + 1)] }
        [] hf hm (by simp [ItemListPtr.getIn, derefIn, findItem_cons, Item.m_Children])
        (by simp)
      simp only [List.length_nil, List.nil_append, ItemListPtr.setIn, modifyItem_cons,
        Item.modify_mk, if_true, Item.setChildren, Nat.add_one_ne_zero, if_false,
        Option.some.injEq] at k1
      subst k1
      simp only [List.length_nil, hm] at k2
      rw [buildLoop_cons_preserve f root [] 0 0 s1.nextItem hfr]
      simp [hm, k2, afterBuild, flattenItems, Item.flatten, registerAll_append, Item.m_Node,
        Item.self]
    | FLATTEN_HIERARCHY =>
      obtain ⟨f1, k1, k2⟩ := AddMatchingChildren_eq HierarchyHandling.FLATTEN_HIERARCHY f root
        ItemListPtr.items 0
        { s1 with nextItem := s1.nextItem + 1,
                  m_Item := mapAssign root.Get (s1.nextItem + 1) s1.m_Item,
                  m_Items := [Item.mk (s1.nextItem + 1) 0 0 [] root.Get false],
                  events := s1.events ++ [Event.TreeFilterItemAddedEvent (s1.nextItem + 1)] }
        [Item.mk (s1.nextItem + 1) 0 0 [] root.Get false] hf hm rfl (by simp)
      simp only [ItemListPtr.setIn, Option.some.injEq] at k1
      subst k1
      simp only [List.length_singleton, hm] at k2
      rw [buildLoop_cons_flatten f root [] 0 0 s1.nextItem hfr]
      simp [hm, k2, afterBuild, flattenItems, Item.flatten, registerAll_append, Item.m_Node,
        Item.self, flattenItems_append]

/-- Full regeneration, in closed form: every state with a callable filter is
taken to the state whose forest is `buildTree` of the tree. -/
theorem GenerateModelFromTree_eq (s : DataTreeFilter) (f : NodePtr → Bool)
    (hf : ∀ n, s.callFilter n = some (f n)) :
    GenerateModelFromTree s
      = some { s with
          m_Items := (buildTree s.m_HierarchyHandling f s.m_DataTree s.nextItem).1,
          nextItem := (buildTree s.m_HierarchyHandling f s.m_DataTree s.nextItem).2,
          m_Item := registerAll
            (flattenItems (buildTree s.m_HierarchyHandling f s.m_DataTree s.nextItem).1)
            (release s.m_Items { s with m_Items := [] }).m_Item,
          m_SelectedItems := (release s.m_Items { s with m_Items := [] }).m_SelectedItems,
          events := s.events ++ [Event.TreeFilterRemoveAllEvent]
            ++ rootEvents f s.m_DataTree s.nextItem ++ [Event.TreeFilterUpdateAllEvent] } := by
  simp only [GenerateModelFromTree]
  rw [discard_eq]
  cases ht : s.m_DataTree with
  | none =>
    simp [buildTree, rootEvents, InvokeEvent, flattenItems]
  | some root =>
    simp only [buildTree, rootEvents]
    have := regenerate_core
      { s with m_Items := [],
               m_SelectedItems := (release s.m_Items { s with m_Items := [] }).m_SelectedItems,
               m_Item := (release s.m_Items { s with m_Items := [] }).m_Item,
               events := s.events ++ [Event.TreeFilterRemoveAllEvent] } f hf rfl root
    simp only [ht] at this
    refine this.trans ?_
    simp

/-! ## What the walk builds -/

theorem callFilter_eq_filterFun (s : DataTreeFilter) (h : s.m_Filter ≠ FilterFunctionPointer.null)
    (n : NodePtr) : s.callFilter n = some (s.filterFun n) := by
  unfold callFilter filterFun
  cases hf : s.m_Filter with
  | null => exact absurd hf h
  | addrIsDataTreeNode => rfl
  | other fn => rfl

theorem flatFrom_append (p : ItemPtr) :
    ∀ (xs ys : List Item) (i : Nat), flatFrom p i xs → flatFrom p (i + xs.length) ys →
      flatFrom p i (xs ++ ys)
  | [], ys, i => by
    intro _ h
    simpa using h
  | x :: xs, ys, i => by
    intro h1 h2
    simp only [flatFrom, List.cons_append] at h1 ⊢
    refine ⟨h1.1, h1.2.1, h1.2.2.1, flatFrom_append p xs ys (i + 1) h1.2.2.2 ?_⟩
    have : i + 1 + xs.length = i + (x :: xs).length := by simp; omega
    rw [this]
    exact h2

theorem flatFrom_get (p : ItemPtr) :
    ∀ (xs : List Item) (i k : Nat) (it : Item), flatFrom p i xs → xs.get? k = some it →
      it.m_Index = i + k ∧ it.m_Parent = p ∧ it.m_Children = []
  | [], i, k, it => by simp
  | x :: xs, i, 0, it => by
    intro h e
    simp only [List.get?_cons_zero, Option.some.injEq] at e
    subst e
    exact ⟨h.1, h.2.1, h.2.2.1⟩
  | x :: xs, i, k + 1, it => by
    intro h e
    simp only [List.get?_cons_succ] at e
    have := flatFrom_get p xs (i + 1) k it h.2.2.2 e
    refine ⟨by omega, this.2⟩

@[simp] theorem preOrder_mk (d : NodePtr) (cs : List TreeNode) :
    (TreeNode.mk d cs).preOrder = d :: preOrderList cs := by
  simp [TreeNode.preOrder]

theorem preOrder_eq (t : TreeNode) : t.preOrder = t.Get :: preOrderList t.children := by
  cases t
  simp [TreeNode.Get, TreeNode.children]

@[simp] theorem preOrderList_nil : preOrderList [] = [] := by simp [preOrderList]

@[simp] theorem preOrderList_cons (c : TreeNode) (cs : List TreeNode) :
    preOrderList (c :: cs) = c.preOrder ++ preOrderList cs := by
  simp [preOrderList]

/-- In the flat hierarchy the walk appends one childless item per matching
node, in pre-order, numbered from the size the list had. -/
theorem buildLoop_flatten (f : NodePtr → Bool) :
    ∀ (cs : List TreeNode) (parent index next : Nat),
      (buildLoop HierarchyHandling.FLATTEN_HIERARCHY f cs parent index next).1.map Item.m_Node
          = (preOrderList cs).filter f
      ∧ flatFrom parent index
          (buildLoop HierarchyHandling.FLATTEN_HIERARCHY f cs parent index next).1
  | [], parent, index, next => by simp [flatFrom]
  | c :: rest, parent, index, next => by
    have hc := buildLoop_flatten f c.children
    cases hfc : f c.Get with
    | false =>
      rw [buildLoop_cons_skip _ f c rest parent index next hfc]
      obtain ⟨k1, k2⟩ := hc parent index next
      obtain ⟨m1, m2⟩ := buildLoop_flatten f rest parent
        (index + (buildChildren HierarchyHandling.FLATTEN_HIERARCHY f c parent index next).1.length)
        (buildChildren HierarchyHandling.FLATTEN_HIERARCHY f c parent index next).2
      rw [← buildChildren_eq] at k1 k2
      refine ⟨?_, flatFrom_append _ _ _ _ k2 m2⟩
      simp [k1, m1, preOrder_eq, hfc, List.filter_cons]
    | true =>
      rw [buildLoop_cons_flatten f c rest parent index next hfc]
      obtain ⟨k1, k2⟩ := hc parent (index + 1) (next + 1)
      obtain ⟨m1, m2⟩ := buildLoop_flatten f rest parent
        (index + 1 + (buildChildren HierarchyHandling.FLATTEN_HIERARCHY f c parent (index + 1)
          (next + 1)).1.length)
        (buildChildren HierarchyHandling.FLATTEN_HIERARCHY f c parent (index + 1) (next + 1)).2
      rw [← buildChildren_eq] at k1 k2
      refine ⟨?_, ?_⟩
      · simp [k1, m1, preOrder_eq, hfc, List.filter_cons, Item.m_Node]
      · exact ⟨rfl, rfl, rfl, flatFrom_append _ _ _ _ k2 m2⟩
termination_by cs => sizeOf cs
decreasing_by
  all_goals simp_wf
  all_goals cases c
  all_goals simp [TreeNode.children]
  all_goals omega

theorem project_eq (f : NodePtr → Bool) (t : TreeNode) :
    t.project f
      = if f t.Get then [TreeNode.mk t.Get (projectList f t.children)]
        else projectList f t.children := by
  cases t
  simp [TreeNode.project, TreeNode.Get, TreeNode.children]

@[simp] theorem projectList_nil (f : NodePtr → Bool) : projectList f [] = [] := by
  simp [projectList]

@[simp] theorem projectList_cons (f : NodePtr → Bool) (c : TreeNode) (cs : List TreeNode) :
    projectList f (c :: cs) = c.project f ++ projectList f cs := by
  simp [projectList]

theorem withAncestor_eq (f : NodePtr → Bool) (anc : Option NodePtr) (t : TreeNode) :
    t.withAncestor f anc
      = if f t.Get then (t.Get, anc) :: withAncestorList f (some t.Get) t.children
        else withAncestorList f anc t.children := by
  cases t
  simp [TreeNode.withAncestor, TreeNode.Get, TreeNode.children]

@[simp] theorem withAncestorList_nil (f : NodePtr → Bool) (anc : Option NodePtr) :
    withAncestorList f anc [] = [] := by
  simp [withAncestorList]

@[simp] theorem withAncestorList_cons (f : NodePtr → Bool) (anc : Option NodePtr)
    (c : TreeNode) (cs : List TreeNode) :
    withAncestorList f anc (c :: cs) = c.withAncestor f anc ++ withAncestorList f anc cs := by
  simp [withAncestorList]

@[simp] theorem shapes_nil : shapes [] = [] := by simp [shapes]

@[simp] theorem shapes_cons (x : Item) (xs : List Item) :
    shapes (x :: xs) = x.shape :: shapes xs := by
  simp [shapes]

theorem shapes_append (xs ys : List Item) : shapes (xs ++ ys) = shapes xs ++ shapes ys := by
  induction xs with
  | nil => simp
  | cons x xs ih => simp [ih]

@[simp] theorem ownerPairsList_nil (o : Option NodePtr) : ownerPairsList o [] = [] := by
  simp [ownerPairsList]

@[simp] theorem ownerPairsList_cons (o : Option NodePtr) (x : Item) (xs : List Item) :
    ownerPairsList o (x :: xs) = x.ownerPairs o ++ ownerPairsList o xs := by
  simp [ownerPairsList]

theorem ownerPairsList_append (o : Option NodePtr) (xs ys : List Item) :
    ownerPairsList o (xs ++ ys) = ownerPairsList o xs ++ ownerPairsList o ys := by
  induction xs with
  | nil => simp
  | cons x xs ih => simp [ih]

@[simp] theorem parentLinksFrom_nil (p : ItemPtr) : parentLinksFrom p [] = true := by
  simp [parentLinksFrom]

@[simp] theorem parentLinksFrom_cons (p : ItemPtr) (x : Item) (xs : List Item) :
    parentLinksFrom p (x :: xs)
      = (decide (x.m_Parent = p) && x.parentLinks && parentLinksFrom p xs) := by
  simp [parentLinksFrom]

theorem parentLinksFrom_append (p : ItemPtr) (xs ys : List Item) :
    parentLinksFrom p (xs ++ ys) = (parentLinksFrom p xs && parentLinksFrom p ys) := by
  induction xs with
  | nil => simp
  | cons x xs ih => simp [ih, Bool.and_assoc]

/-- In the preserved hierarchy the walk appends the projection of the
sub-trees: the shape is the spec projection, every item hangs under the
item of its nearest matching proper ancestor, parent pointers name the
owner, and the addresses increase in pre-order. -/
theorem buildLoop_preserve (f : NodePtr → Bool) :
    ∀ (cs : List TreeNode) (parent index next : Nat) (anc : Option NodePtr),
      shapes (buildLoop HierarchyHandling.PRESERVE_HIERARCHY f cs parent index next).1
          = projectList f cs
      ∧ ownerPairsList anc
          (buildLoop HierarchyHandling.PRESERVE_HIERARCHY f cs parent index next).1
          = withAncestorList f anc cs
      ∧ parentLinksFrom parent
          (buildLoop HierarchyHandling.PRESERVE_HIERARCHY f cs parent index next).1 = true
  | [], parent, index, next, anc => by simp
  | c :: rest, parent, index, next, anc => by
    have hc := buildLoop_preserve f c.children
    cases hfc : f c.Get with
    | false =>
      rw [buildLoop_cons_skip _ f c rest parent index next hfc]
      obtain ⟨k1, k2, k3⟩ := hc parent index next anc
      obtain ⟨m1, m2, m3⟩ := buildLoop_preserve f rest parent
        (index + (buildChildren HierarchyHandling.PRESERVE_HIERARCHY f c parent index next).1.length)
        (buildChildren HierarchyHandling.PRESERVE_HIERARCHY f c parent index next).2 anc
      rw [← buildChildren_eq] at k1 k2 k3
      simp [shapes_append, ownerPairsList_append, parentLinksFrom_append, k1, k2, k3, m1, m2, m3,
        project_eq, withAncestor_eq, hfc]
    | true =>
      rw [buildLoop_cons_preserve f c rest parent index next hfc]
      obtain ⟨k1, k2, k3⟩ := hc (next + 1) 0 (next + 1) (some c.Get)
      obtain ⟨m1, m2, m3⟩ := buildLoop_preserve f rest parent (index + 1)
        (buildChildren HierarchyHandling.PRESERVE_HIERARCHY f c (next + 1) 0 (next + 1)).2 anc
      rw [← buildChildren_eq] at k1 k2 k3
      simp [Item.shape, Item.ownerPairs, Item.parentLinks, Item.m_Parent, k1, k2, k3, m1, m2, m3,
        project_eq, withAncestor_eq, hfc]
termination_by cs => sizeOf cs
decreasing_by
  all_goals simp_wf
  all_goals cases c
  all_goals simp [TreeNode.children]
  all_goals omega

/-- The addresses the walk hands out increase along the pre-order of the
items it builds. -/
theorem buildLoop_sorted (mode : HierarchyHandling) (f : NodePtr → Bool) :
    ∀ (cs : List TreeNode) (parent index next : Nat),
      List.Pairwise (fun a b : Nat => a < b)
        (itemAddrs (buildLoop mode f cs parent index next).1)
  | [], parent, index, next => by simp
  | c :: rest, parent, index, next => by
    have hc := buildLoop_sorted mode f c.children
    cases hfc : f c.Get with
    | false =>
      rw [buildLoop_cons_skip _ f c rest parent index next hfc]
      have k := hc parent index next
      have m := buildLoop_sorted mode f rest parent
        (index + (buildChildren mode f c parent index next).1.length)
        (buildChildren mode f c parent index next).2
      rw [← buildChildren_eq] at k
      obtain ⟨b1, b2⟩ := buildChildren_addrs mode f c parent index next
      obtain ⟨d1, d2⟩ := buildLoop_addrs mode f rest parent
        (index + (buildChildren mode f c parent index next).1.length)
        (buildChildren mode f c parent index next).2
      simp only [itemAddrs_append, List.pairwise_append]
      refine ⟨k, m, ?_⟩
      intro a ha b hb
      exact lt_of_le_of_lt (b2 a ha).2 (d2 b hb).1
    | true =>
      cases mode with
      | PRESERVE_HIERARCHY =>
        rw [buildLoop_cons_preserve f c rest parent index next hfc]
        have k := hc (next + 1) 0 (next + 1)
        have m := buildLoop_sorted HierarchyHandling.PRESERVE_HIERARCHY f rest parent (index + 1)
          (buildChildren HierarchyHandling.PRESERVE_HIERARCHY f c (next + 1) 0 (next + 1)).2
        rw [← buildChildren_eq] at k
        obtain ⟨b1, b2⟩ := buildChildren_addrs HierarchyHandling.PRESERVE_HIERARCHY f c
          (next + 1) 0 (next + 1)
        obtain ⟨d1, d2⟩ := buildLoop_addrs HierarchyHandling.PRESERVE_HIERARCHY f rest parent
          (index + 1)
          (buildChildren HierarchyHandling.PRESERVE_HIERARCHY f c (next + 1) 0 (next + 1)).2
        simp only [itemAddrs_cons, Item.addrs_mk, List.cons_append, List.pairwise_cons,
          List.pairwise_append, List.mem_append]
        refine ⟨?_, k, m, ?_⟩
        · rintro a (ha | ha)
          · exact (b2 a ha).1
          · exact lt_of_le_of_lt b1 (d2 a ha).1
        · intro a ha b hb
          exact lt_of_le_of_lt (b2 a ha).2 (d2 b hb).1
      | FLATTEN_HIERARCHY =>
        rw [buildLoop_cons_flatten f c rest parent index next hfc]
        have k := hc parent (index + 1) (next + 1)
        have m := buildLoop_sorted HierarchyHandling.FLATTEN_HIERARCHY f rest parent
          (index + 1 + (buildChildren HierarchyHandling.FLATTEN_HIERARCHY f c parent (index + 1)
            (next + 1)).1.length)
          (buildChildren HierarchyHandling.FLATTEN_HIERARCHY f c parent (index + 1) (next + 1)).2
        rw [← buildChildren_eq] at k
        obtain ⟨b1, b2⟩ := buildChildren_addrs HierarchyHandling.FLATTEN_HIERARCHY f c
          parent (index + 1) (next + 1)
        obtain ⟨d1, d2⟩ := buildLoop_addrs HierarchyHandling.FLATTEN_HIERARCHY f rest parent
          (index + 1 + (buildChildren HierarchyHandling.FLATTEN_HIERARCHY f c parent (index + 1)
            (next + 1)).1.length)
          (buildChildren HierarchyHandling.FLATTEN_HIERARCHY f c parent (index + 1) (next + 1)).2
        simp only [itemAddrs_cons, Item.addrs_mk, itemAddrs_nil, List.cons_append,
          List.nil_append, itemAddrs_append, List.pairwise_cons, List.pairwise_append,
          List.mem_append]
        refine ⟨?_, k, m, ?_⟩
        · rintro a (ha | ha)
          · exact (b2 a ha).1
          · exact lt_of_le_of_lt b1 (d2 a ha).1
        · intro a ha b hb
          exact lt_of_le_of_lt (b2 a ha).2 (d2 b hb).1
termination_by cs => sizeOf cs
decreasing_by
  all_goals simp_wf
  all_goals cases c
  all_goals simp [TreeNode.children]
  all_goals omega

theorem flatFrom_addrs (p : ItemPtr) :
    ∀ (xs : List Item) (i : Nat), flatFrom p i xs → itemAddrs xs = xs.map Item.self
  | [], i => by simp
  | x :: xs, i => by
    intro h
    cases x with
    | mk a j par ch n b =>
      have hch : ch = [] := h.2.2.1
      subst hch
      simp [Item.self, flatFrom_addrs p xs (i + 1) h.2.2.2]

/-- C2: in the flat hierarchy, regeneration (for any tree, any callable
filter and any previous forest) succeeds and leaves a root list with exactly
one item per matching node of the tree, in pre-order; the items are distinct
objects, and the item at position `i` is a root item without children whose
index is `i`. -/
theorem GenerateModelFromTree_flatten (s : DataTreeFilter)
    (hfilter : s.m_Filter ≠ FilterFunctionPointer.null)
    (hmode : s.m_HierarchyHandling = HierarchyHandling.FLATTEN_HIERARCHY) :
    ∃ s2, GenerateModelFromTree s = some s2
      ∧ s2.m_Items.map Item.m_Node = matchingNodes s.filterFun s.m_DataTree
      ∧ (s2.m_Items.map Item.self).Nodup
      ∧ ∀ (i : Nat) (it : Item), s2.m_Items.get? i = some it →
          it.IsRoot = true ∧ it.HasChildren = false ∧ it.GetIndex = i := by
  refine ⟨_, GenerateModelFromTree_eq s s.filterFun (callFilter_eq_filterFun s hfilter), ?_⟩
  simp only [hmode]
  cases ht : s.m_DataTree with
  | none => simp [buildTree, matchingNodes]
  | some root =>
    obtain ⟨h1, h2⟩ := buildLoop_flatten s.filterFun [root] 0 0 s.nextItem
    have h3 := buildLoop_sorted HierarchyHandling.FLATTEN_HIERARCHY s.filterFun [root] 0 0
      s.nextItem
    rw [flatFrom_addrs 0 _ 0 h2] at h3
    refine ⟨by simpa [buildTree, matchingNodes] using h1, ?_, ?_⟩
    · exact h3.imp (fun h => Nat.ne_of_lt h)
    · intro i it hi
      obtain ⟨e1, e2, e3⟩ := flatFrom_get 0 _ 0 i it h2 hi
      simp [Item.IsRoot, Item.HasChildren, Item.GetIndex, e1, e2, e3]

/-- C2 on the scenario tree: from R (non-matching) with children A
(matching) and B (non-matching) and C (matching) below B, the flat
regeneration leaves the root list A, C with indices 0 and 1, no parents and
no children. -/
theorem GenerateModelFromTree_flatten_witness :
    (∃ s2, GenerateModelFromTree (scenarioEngine HierarchyHandling.FLATTEN_HIERARCHY) = some s2
      ∧ s2.m_Items.map Item.m_Node
          = matchingNodes (scenarioEngine HierarchyHandling.FLATTEN_HIERARCHY).filterFun
              (scenarioEngine HierarchyHandling.FLATTEN_HIERARCHY).m_DataTree
      ∧ (s2.m_Items.map Item.self).Nodup
      ∧ ∀ (i : Nat) (it : Item), s2.m_Items.get? i = some it →
          it.IsRoot = true ∧ it.HasChildren = false ∧ it.GetIndex = i)
    ∧ (GenerateModelFromTree (scenarioEngine HierarchyHandling.FLATTEN_HIERARCHY)).map
        (fun s2 => s2.m_Items.map
          (fun it => (it.m_Node, it.GetIndex, it.GetParent, it.HasChildren)))
        = some [(11, 0, 0, false), (13, 1, 0, false)] :=
  ⟨GenerateModelFromTree_flatten (scenarioEngine HierarchyHandling.FLATTEN_HIERARCHY)
      (by decide) (by decide),
   by decide!⟩

/-- C3: in the preserved hierarchy, regeneration (for any tree, any callable
filter and any previous forest) succeeds and leaves the forest whose nesting
is the spec projection of the tree: one item per matching node, in every
sibling list in pre-order; each item is held by the item of its nearest
matching proper ancestor, or by the root list when there is none; `m_Parent`
is the address of the holder (null in the root list); and the items are
distinct objects at non-null addresses. -/
theorem GenerateModelFromTree_preserve (s : DataTreeFilter)
    (hfilter : s.m_Filter ≠ FilterFunctionPointer.null)
    (hmode : s.m_HierarchyHandling = HierarchyHandling.PRESERVE_HIERARCHY) :
    ∃ s2, GenerateModelFromTree s = some s2
      ∧ shapes s2.m_Items = projectTree s.filterFun s.m_DataTree
      ∧ ownerPairsList none s2.m_Items
          = (match s.m_DataTree with
             | none => []
             | some root => root.withAncestor s.filterFun none)
      ∧ parentLinksFrom 0 s2.m_Items = true
      ∧ (itemAddrs s2.m_Items).Nodup
      ∧ 0 ∉ itemAddrs s2.m_Items := by
  refine ⟨_, GenerateModelFromTree_eq s s.filterFun (callFilter_eq_filterFun s hfilter), ?_⟩
  simp only [hmode]
  cases ht : s.m_DataTree with
  | none => simp [buildTree, projectTree]
  | some root =>
    obtain ⟨h1, h2, h3⟩ := buildLoop_preserve s.filterFun [root] 0 0 s.nextItem none
    have h4 := buildLoop_sorted HierarchyHandling.PRESERVE_HIERARCHY s.filterFun [root] 0 0
      s.nextItem
    obtain ⟨h5, h6⟩ := buildLoop_addrs HierarchyHandling.PRESERVE_HIERARCHY s.filterFun [root]
      0 0 s.nextItem
    refine ⟨by simpa [buildTree, projectTree] using h1, by simpa [buildTree] using h2,
      by simpa [buildTree] using h3, ?_, ?_⟩
    · exact h4.imp (fun h => Nat.ne_of_lt h)
    · intro h0
      have := (h6 0 h0).1
      omega

/-- C3 on the scenario tree: from R (non-matching) with children A
(matching) and B (non-matching) and C (matching) below B, the
hierarchy-preserving regeneration leaves the root list A, C, both without
parent and without children. -/
theorem GenerateModelFromTree_preserve_witness :
    (∃ s2, GenerateModelFromTree (scenarioEngine HierarchyHandling.PRESERVE_HIERARCHY) = some s2
      ∧ shapes s2.m_Items
          = projectTree (scenarioEngine HierarchyHandling.PRESERVE_HIERARCHY).filterFun
              (scenarioEngine HierarchyHandling.PRESERVE_HIERARCHY).m_DataTree
      ∧ ownerPairsList none s2.m_Items
          = (match (scenarioEngine HierarchyHandling.PRESERVE_HIERARCHY).m_DataTree with
             | none => []
             | some root =>
               root.withAncestor (scenarioEngine HierarchyHandling.PRESERVE_HIERARCHY).filterFun
                 none)
      ∧ parentLinksFrom 0 s2.m_Items = true
      ∧ (itemAddrs s2.m_Items).Nodup
      ∧ 0 ∉ itemAddrs s2.m_Items)
    ∧ (GenerateModelFromTree (scenarioEngine HierarchyHandling.PRESERVE_HIERARCHY)).map
        (fun s2 => s2.m_Items.map
          (fun it => (it.m_Node, it.GetIndex, it.GetParent, it.HasChildren)))
        = some [(11, 0, 0, false), (13, 1, 0, false)] :=
  ⟨GenerateModelFromTree_preserve (scenarioEngine HierarchyHandling.PRESERVE_HIERARCHY)
      (by decide) (by decide),
   by decide!⟩

theorem GenerateModelFromTree_filter (s : DataTreeFilter)
    (h : s.m_Filter ≠ FilterFunctionPointer.null) :
    ∃ s2, GenerateModelFromTree s = some s2 ∧ s2.m_Filter = s.m_Filter :=
  ⟨_, GenerateModelFromTree_eq s s.filterFun (callFilter_eq_filterFun s h), rfl⟩

theorem SetFilter_filter (filter : FilterFunctionPointer) (s : DataTreeFilter)
    (h : s.m_Filter ≠ FilterFunctionPointer.null) :
    ∃ s2, SetFilter filter s = some s2
      ∧ s2.m_Filter = (if filter = FilterFunctionPointer.null then
                         FilterFunctionPointer.addrIsDataTreeNode else filter) := by
  unfold SetFilter
  by_cases h1 : s.m_Filter = filter
  · refine ⟨s, by simp [h1], ?_⟩
    rw [if_neg (fun e => h (h1.trans e))]
    exact h1
  · rw [if_neg h1]
    by_cases h2 : filter = FilterFunctionPointer.null
    · simp only [h2, ne_eq, not_true_eq_false, if_false, if_true]
      obtain ⟨s2, e1, e2⟩ := GenerateModelFromTree_filter
        { s with m_Filter := FilterFunctionPointer.addrIsDataTreeNode } (by simp)
      exact ⟨s2, e1, e2⟩
    · simp only [ne_eq, h2, not_false_eq_true, if_true, if_false]
      obtain ⟨s2, e1, e2⟩ := GenerateModelFromTree_filter { s with m_Filter := filter } h2
      exact ⟨s2, e1, e2⟩

theorem setFilters_filter :
    ∀ (filters : List FilterFunctionPointer) (s : DataTreeFilter),
      s.m_Filter ≠ FilterFunctionPointer.null →
      ∃ s2, setFilters filters s = some s2 ∧ s2.m_Filter ≠ FilterFunctionPointer.null
  | [], s, h => ⟨s, rfl, h⟩
  | filter :: rest, s, h => by
    obtain ⟨s1, e1, e2⟩ := SetFilter_filter filter s h
    have h1 : s1.m_Filter ≠ FilterFunctionPointer.null := by
      rw [e2]
      split
      · simp
      · assumption
    obtain ⟨s2, e3, e4⟩ := setFilters_filter rest s1 h1
    exact ⟨s2, by simp [setFilters, e1, e3], e4⟩

theorem New_filter (datatree : Option TreeNode) (filterCode : Nat → NodePtr → Bool)
    (nodeProperties : List ((NodePtr × String) × PropPtr))
    (hasDefaultProperty : String → Bool) :
    ∃ s, New datatree filterCode nodeProperties hasDefaultProperty = some s
      ∧ s.m_Filter = FilterFunctionPointer.addrIsDataTreeNode := by
  unfold New SetFilter
  simp only [reduceCtorEq, if_false, ne_eq, not_false_eq_true, if_true]
  obtain ⟨s2, e1, e2⟩ := GenerateModelFromTree_filter
    { m_Filter := FilterFunctionPointer.addrIsDataTreeNode,
      m_DataTree := datatree,
      m_HierarchyHandling := HierarchyHandling.PRESERVE_HIERARCHY,
      m_SelectionMode := SelectionMode.MULTI_SELECT,
      m_Renderer := 0,
      m_Items := [],
      m_Item := [],
      m_SelectedItems := [],
      m_LastSelectedItem := 0,
      m_PropertyLabels := [],
      m_VisibleProperties := [],
      m_EditableProperties := [],
      filterCode := filterCode,
      nodeProperties := nodeProperties,
      hasDefaultProperty := hasDefaultProperty,
      nextItem := 0,
      nextProperty := 0,
      events := [] } (by simp)
  rw [e1]
  refine ⟨_, rfl, ?_⟩
  rw [release_frame]
  exact e2

/-- C10: the filter pointer is never null. The constructor followed by any
sequence of `SetFilter` calls succeeds and leaves a non-null `GetFilter()`;
on the state reached, `SetFilter(NULL)` succeeds and installs
`&IsDataTreeNode`, and that filter accepts a node exactly when the node
pointer is not null. -/
theorem filter_never_null (datatree : Option TreeNode) (filterCode : Nat → NodePtr → Bool)
    (nodeProperties : List ((NodePtr × String) × PropPtr))
    (hasDefaultProperty : String → Bool) (filters : List FilterFunctionPointer) :
    ∃ s, (New datatree filterCode nodeProperties hasDefaultProperty).bind (setFilters filters)
          = some s
      ∧ s.GetFilter ≠ FilterFunctionPointer.null
      ∧ ∃ s2, SetFilter FilterFunctionPointer.null s = some s2
          ∧ s2.GetFilter = FilterFunctionPointer.addrIsDataTreeNode
          ∧ ∀ node : NodePtr, s2.callFilter node = some (decide (node ≠ 0)) := by
  obtain ⟨s0, e0, h0⟩ := New_filter datatree filterCode nodeProperties hasDefaultProperty
  obtain ⟨s, e1, h1⟩ := setFilters_filter filters s0 (by rw [h0]; simp)
  obtain ⟨s2, e2, h2⟩ := SetFilter_filter FilterFunctionPointer.null s h1
  refine ⟨s, by simp [e0, e1], h1, s2, e2, by simpa [GetFilter] using h2, ?_⟩
  intro node
  simp only [if_true] at h2
  simp only [callFilter, h2, IsDataTreeNode, Option.some.injEq]
  by_cases hn : node = 0 <;> simp [hn]

/-! ## Index contiguity -/

@[simp] theorem Item.contiguous_mk (a i p : Nat) (ch : List Item) (n : Nat) (b : Bool) :
    (Item.mk a i p ch n b).contiguous = contiguousFrom 0 ch := by
  simp [Item.contiguous]

@[simp] theorem contiguousFrom_nil (i : Nat) : contiguousFrom i [] = true := by
  simp [contiguousFrom]

@[simp] theorem contiguousFrom_cons (i : Nat) (x : Item) (xs : List Item) :
    contiguousFrom i (x :: xs)
      = (decide (x.m_Index = i) && x.contiguous && contiguousFrom (i + 1) xs) := by
  simp [contiguousFrom]

theorem contiguousFrom_append :
    ∀ (xs ys : List Item) (i : Nat),
      contiguousFrom i (xs ++ ys)
        = (contiguousFrom i xs && contiguousFrom (i + xs.length) ys)
  | [], ys, i => by simp
  | x :: xs, ys, i => by
    simp only [List.cons_append, contiguousFrom_cons, contiguousFrom_append xs ys (i + 1),
      List.length_cons, Bool.and_assoc]
    have : i + 1 + xs.length = i + (xs.length + 1) := by omega
    rw [this]

theorem contiguousFrom_mem :
    ∀ (xs : List Item) (i : Nat), contiguousFrom i xs = true → ∀ x ∈ xs, x.contiguous = true
  | [], i => by simp
  | y :: ys, i => by
    intro h x hx
    simp only [contiguousFrom_cons, Bool.and_eq_true, decide_eq_true_eq] at h
    rcases List.mem_cons.1 hx with e | e
    · rw [e]; exact h.1.2
    · exact contiguousFrom_mem ys (i + 1) h.2 x e

theorem contiguousFrom_renumber :
    ∀ (xs : List Item) (i : Nat), (∀ x ∈ xs, x.contiguous = true) →
      contiguousFrom i (renumber i xs) = true
  | [], i => by simp [renumber]
  | x :: xs, i => by
    intro h
    simp only [renumber, contiguousFrom_cons, Bool.and_eq_true, decide_eq_true_eq]
    refine ⟨⟨?_, ?_⟩, contiguousFrom_renumber xs (i + 1) (fun y hy => h y (List.mem_cons_of_mem _ hy))⟩
    · cases x; rfl
    · have := h x (List.mem_cons_self _ _)
      cases x
      simpa [Item.setIndex] using this

@[simp] theorem Item.m_Index_setChildren (ys : List Item) (x : Item) :
    (x.setChildren ys).m_Index = x.m_Index := by
  cases x; rfl

@[simp] theorem Item.contiguous_setChildren (ys : List Item) (x : Item) :
    (x.setChildren ys).contiguous = contiguousFrom 0 ys := by
  cases x; simp [Item.setChildren]

mutual
theorem Item.find_contiguous (p : Nat) :
    ∀ (x it : Item), Item.find p x = some it → x.contiguous = true → it.contiguous = true
  | .mk a i par ch n b, it => by
    simp only [Item.find_mk]
    split
    · intro e h
      cases e
      exact h
    · intro e h
      simp only [Item.contiguous_mk] at h
      exact findItem_contiguous p ch it 0 e h
theorem findItem_contiguous (p : Nat) :
    ∀ (xs : List Item) (it : Item) (i : Nat), findItem p xs = some it →
      contiguousFrom i xs = true → it.contiguous = true
  | [], it, i => by simp
  | x :: xs, it, i => by
    rw [findItem_cons]
    intro e h
    simp only [contiguousFrom_cons, Bool.and_eq_true, decide_eq_true_eq] at h
    cases hf : Item.find p x with
    | some it2 =>
      rw [hf] at e
      simp only [Option.orElse, Option.some.injEq] at e
      subst e
      exact Item.find_contiguous p x it2 hf h.1.2
    | none =>
      rw [hf] at e
      exact findItem_contiguous p xs it (i + 1) (by simpa using e) h.2
end

mutual
theorem Item.modify_contiguous (p : Nat) (g : Item → Item)
    (hg : ∀ x, (g x).m_Index = x.m_Index) (hc : ∀ x, (g x).contiguous = true) :
    ∀ (x x1 : Item), Item.modify p g x = some x1 → x.contiguous = true →
      x1.contiguous = true ∧ x1.m_Index = x.m_Index
  | .mk a i par ch n b, x1 => by
    simp only [Item.modify_mk]
    split
    · intro e h
      cases e
      exact ⟨hc _, hg _⟩
    · intro e h
      cases hm : modifyItem p g ch with
      | none => simp [hm] at e
      | some ch1 =>
        simp only [hm, Option.map_some', Option.some.injEq] at e
        subst e
        simp only [Item.contiguous_mk] at h ⊢
        exact ⟨modifyItem_contiguous p g hg hc ch ch1 0 hm h, rfl⟩
theorem modifyItem_contiguous (p : Nat) (g : Item → Item)
    (hg : ∀ x, (g x).m_Index = x.m_Index) (hc : ∀ x, (g x).contiguous = true) :
    ∀ (xs xs1 : List Item) (i : Nat), modifyItem p g xs = some xs1 →
      contiguousFrom i xs = true → contiguousFrom i xs1 = true
  | [], xs1, i => by simp
  | x :: xs, xs1, i => by
    rw [modifyItem_cons]
    intro e h
    simp only [contiguousFrom_cons, Bool.and_eq_true, decide_eq_true_eq] at h
    cases hm : Item.modify p g x with
    | some x1 =>
      rw [hm] at e
      simp only [Option.some.injEq] at e
      subst e
      obtain ⟨r1, r2⟩ := Item.modify_contiguous p g hg hc x x1 hm h.1.2
      simp only [contiguousFrom_cons, Bool.and_eq_true, decide_eq_true_eq]
      exact ⟨⟨r2.trans h.1.1, r1⟩, h.2⟩
    | none =>
      rw [hm] at e
      cases hm2 : modifyItem p g xs with
      | none => simp [hm2] at e
      | some xs2 =>
        simp only [hm2, Option.map_some', Option.some.injEq] at e
        subst e
        simp only [contiguousFrom_cons, Bool.and_eq_true, decide_eq_true_eq]
        exact ⟨h.1, modifyItem_contiguous p g hg hc xs xs2 (i + 1) hm2 h.2⟩
end

namespace ItemListPtr

/-- The lists of a contiguous forest are contiguous. -/
theorem getIn_contiguous {l : ItemListPtr} {forest xs : List Item}
    (h : l.getIn forest = some xs) (hc : contiguousFrom 0 forest = true) :
    contiguousFrom 0 xs = true := by
  cases l with
  | items =>
    simp only [getIn, Option.some.injEq] at h
    subst h
    exact hc
  | childrenOf p =>
    simp only [getIn] at h
    cases hd : derefIn p forest with
    | none => simp [hd] at h
    | some it =>
      simp only [hd, Option.some.injEq] at h
      subst h
      have := findItem_contiguous p forest it 0 (derefIn_eq_some hd).2 hc
      cases it
      simpa using this

/-- Overwriting a list of a contiguous forest with a contiguous list leaves
the forest contiguous. -/
theorem setIn_contiguous {l : ItemListPtr} {forest ys f1 : List Item}
    (h : l.setIn ys forest = some f1) (hc : contiguousFrom 0 forest = true)
    (hy : contiguousFrom 0 ys = true) : contiguousFrom 0 f1 = true := by
  cases l with
  | items =>
    simp only [setIn, Option.some.injEq] at h
    subst h
    exact hy
  | childrenOf p =>
    simp only [setIn] at h
    split at h
    · simp at h
    · exact modifyItem_contiguous p (Item.setChildren ys) (Item.m_Index_setChildren ys)
        (fun x => by simp [hy]) forest f1 0 h hc

end ItemListPtr

theorem contiguousExcept_of_contiguous {l : ItemListPtr} {forest xs : List Item}
    (h : l.getIn forest = some xs) (hc : contiguousFrom 0 forest = true) :
    contiguousExcept l forest :=
  ⟨forest, xs, xs, hc, h, ItemListPtr.setIn_same h,
    contiguousFrom_mem xs 0 (ItemListPtr.getIn_contiguous h hc)⟩

theorem contiguousExcept_getIn {l : ItemListPtr} {forest : List Item}
    (h : contiguousExcept l forest) :
    ∃ ys, l.getIn forest = some ys ∧ ∀ y ∈ ys, y.contiguous = true := by
  obtain ⟨f0, xs, ys, h1, h2, h3, h4⟩ := h
  obtain ⟨f1, e1, e2, _, _⟩ := ItemListPtr.setIn_of_getIn ys h2
  rw [h3] at e1
  cases e1
  exact ⟨ys, e2, h4⟩

theorem contiguousExcept_setIn {l : ItemListPtr} {forest zs f2 : List Item}
    (h : contiguousExcept l forest) (hs : l.setIn zs forest = some f2)
    (hz : ∀ z ∈ zs, z.contiguous = true) : contiguousExcept l f2 := by
  obtain ⟨f0, xs, ys, h1, h2, h3, h4⟩ := h
  obtain ⟨f1, e1, e2, e3, _⟩ := ItemListPtr.setIn_of_getIn ys h2
  rw [h3] at e1
  cases e1
  exact ⟨f0, xs, zs, h1, h2, by rw [← e3, hs], hz⟩

theorem contiguousExcept_renumber {l : ItemListPtr} {forest zs f2 : List Item}
    (h : contiguousExcept l forest) (hs : l.setIn (renumber 0 zs) forest = some f2)
    (hz : ∀ z ∈ zs, z.contiguous = true) : contiguousFrom 0 f2 = true := by
  obtain ⟨f0, xs, ys, h1, h2, h3, h4⟩ := h
  obtain ⟨f1, e1, e2, e3, _⟩ := ItemListPtr.setIn_of_getIn ys h2
  rw [h3] at e1
  cases e1
  rw [e3] at hs
  exact ItemListPtr.setIn_contiguous hs h1 (contiguousFrom_renumber zs 0 hz)

theorem release_m_Items (gone : List Item) (s : DataTreeFilter) :
    (release gone s).m_Items = s.m_Items := by
  rw [release_frame]

theorem AddMatchingChildren_eq_loop (t : TreeNode) (list : ItemListPtr) (parent : ItemPtr)
    (verbose : Bool) (s : DataTreeFilter) :
    AddMatchingChildren t list parent verbose s
      = AddMatchingChildrenLoop t.children list parent verbose s := by
  cases t
  rw [AddMatchingChildren]
  rfl

theorem ItemListPtr.set_m_Items {l : ItemListPtr} {ys : List Item} {s s2 : DataTreeFilter}
    (h : l.set ys s = some s2) : l.setIn ys s.m_Items = some s2.m_Items := by
  unfold ItemListPtr.set at h
  cases hs : l.setIn ys s.m_Items with
  | none => simp [hs] at h
  | some f =>
    simp only [hs, Option.some.injEq] at h
    subst h
    rfl

/-- Appending a new childless item whose index is the size of the list keeps
the forest contiguous. -/
theorem CreateElementAt_contiguous (list : ItemListPtr) (node : NodePtr) (parent : ItemPtr)
    (s s2 : DataTreeFilter) (newIndex : Nat) (hsize : list.Size s = some newIndex)
    (h : CreateElementAt list newIndex (Item.New node newIndex parent s).1
          (Item.New node newIndex parent s).2 = some s2)
    (hc : contiguousFrom 0 s.m_Items = true) : contiguousFrom 0 s2.m_Items = true := by
  unfold ItemListPtr.Size ItemListPtr.get at hsize
  cases hg : list.getIn s.m_Items with
  | none => simp [hg] at hsize
  | some xs =>
    simp only [hg, Option.some.injEq] at hsize
    subst hsize
    have hg2 : list.get (Item.New node xs.length parent s).2 = some xs := hg
    simp only [CreateElementAt, hg2, if_true] at h
    have hs := ItemListPtr.set_m_Items h
    refine ItemListPtr.setIn_contiguous hs hc ?_
    rw [contiguousFrom_append, ItemListPtr.getIn_contiguous hg hc]
    simp [Item.New, Item.m_Index]

/-- The recursive walk keeps the forest contiguous, with or without
notifications. -/
theorem AddMatchingChildrenLoop_contiguous :
    ∀ (cs : List TreeNode) (list : ItemListPtr) (parent : ItemPtr) (verbose : Bool)
      (s s2 : DataTreeFilter),
      AddMatchingChildrenLoop cs list parent verbose s = some s2 →
      contiguousFrom 0 s.m_Items = true → contiguousFrom 0 s2.m_Items = true
  | [], list, parent, verbose, s, s2 => by
    intro h hc
    rw [AddMatchingChildrenLoop] at h
    cases h
    exact hc
  | child :: rest, list, parent, verbose, s, s2 => by
    intro h hc
    have ihc := AddMatchingChildrenLoop_contiguous child.children
    have ihr := AddMatchingChildrenLoop_contiguous rest
    rw [AddMatchingChildrenLoop] at h
    cases hf : s.callFilter child.Get with
    | none => simp [hf] at h
    | some b =>
      cases b with
      | false =>
        simp only [hf] at h
        cases h1 : AddMatchingChildren child list parent verbose s with
        | none => simp [h1] at h
        | some s1 =>
          simp only [h1] at h
          rw [AddMatchingChildren_eq_loop] at h1
          exact ihr list parent verbose s1 s2 h (ihc list parent verbose s s1 h1 hc)
      | true =>
        simp only [hf] at h
        cases hsz : list.Size s with
        | none => simp [hsz] at h
        | some newIndex =>
          simp only [hsz] at h
          cases hce : CreateElementAt list newIndex (Item.New child.Get newIndex parent s).1
              (Item.New child.Get newIndex parent s).2 with
          | none => simp [hce] at h
          | some sa =>
            simp only [hce] at h
            have hca := CreateElementAt_contiguous list child.Get parent s sa newIndex hsz hce hc
            split at h
            · cases h
            · rename_i sb hv
              have hcb : contiguousFrom 0 sb.m_Items = true := by
                split at hv
                · split at hv
                  · cases hv
                    exact hca
                  · cases hv
                · cases hv
                  exact hca
              split at h
              · cases h
              · rename_i sc hr
                have hcc : contiguousFrom 0 sc.m_Items = true := by
                  split at hr
                  · split at hr
                    · rw [AddMatchingChildren_eq_loop] at hr
                      exact ihc _ _ verbose sb sc hr hcb
                    · cases hr
                  · rw [AddMatchingChildren_eq_loop] at hr
                    exact ihc _ _ verbose sb sc hr hcb
                exact ihr list parent verbose sc s2 h hcc
termination_by cs => sizeOf cs
decreasing_by
  all_goals simp_wf
  all_goals cases child
  all_goals simp [TreeNode.children]
  all_goals omega

theorem AddMatchingChildren_contiguous (t : TreeNode) (list : ItemListPtr) (parent : ItemPtr)
    (verbose : Bool) (s s2 : DataTreeFilter)
    (h : AddMatchingChildren t list parent verbose s = some s2)
    (hc : contiguousFrom 0 s.m_Items = true) : contiguousFrom 0 s2.m_Items = true := by
  rw [AddMatchingChildren_eq_loop] at h
  exact AddMatchingChildrenLoop_contiguous _ _ _ _ _ _ h hc

theorem eraseRange_m_Items {list : ItemListPtr} {first last : Nat} {s s2 : DataTreeFilter}
    (h : eraseRange list first last s = some s2) :
    ∃ xs, list.getIn s.m_Items = some xs
      ∧ list.setIn (xs.take first ++ xs.drop last) s.m_Items = some s2.m_Items := by
  unfold eraseRange ItemListPtr.get at h
  cases hg : list.getIn s.m_Items with
  | none => simp [hg] at h
  | some xs =>
    simp only [hg] at h
    split at h
    · split at h
      · rename_i sa hs
        cases h
        exact ⟨xs, rfl, by rw [release_m_Items]; exact ItemListPtr.set_m_Items hs⟩
      · cases h
    · cases h

theorem renumberAndAnnounce_m_Items {list : ItemListPtr} {s s2 : DataTreeFilter}
    (h : renumberAndAnnounce list s = some s2) :
    ∃ xs, list.getIn s.m_Items = some xs
      ∧ list.setIn (renumber 0 xs) s.m_Items = some s2.m_Items := by
  unfold renumberAndAnnounce ItemListPtr.get at h
  cases hg : list.getIn s.m_Items with
  | none => simp [hg] at h
  | some xs =>
    simp only [hg] at h
    split at h
    · rename_i sa hs
      cases h
      have hs2 := ItemListPtr.set_m_Items hs
      exact ⟨xs, rfl, hs2⟩
    · cases h

theorem clear_m_Items {list : ItemListPtr} {s s2 : DataTreeFilter}
    (h : clear list s = some s2) :
    list.setIn [] s.m_Items = some s2.m_Items := by
  unfold clear at h
  split at h
  · cases h
  · split at h
    · rename_i sa hs
      cases h
      rw [release_m_Items]
      exact ItemListPtr.set_m_Items hs
    · cases h

/-- Erasing a range from a list and renumbering the list restores
contiguity. -/
theorem erase_renumber_contiguous {list : ItemListPtr} {first last : Nat}
    {s s2 s3 : DataTreeFilter} (hc : contiguousExcept list s.m_Items)
    (h1 : eraseRange list first last s = some s2)
    (h2 : renumberAndAnnounce list s2 = some s3) :
    contiguousFrom 0 s3.m_Items = true := by
  obtain ⟨xs, g1, e1⟩ := eraseRange_m_Items h1
  obtain ⟨ys, g2, e2⟩ := renumberAndAnnounce_m_Items h2
  obtain ⟨xs2, g3, hx⟩ := contiguousExcept_getIn hc
  rw [g1] at g3
  cases g3
  have hmem : ∀ z ∈ xs.take first ++ xs.drop last, z.contiguous = true := by
    intro z hz
    rcases List.mem_append.1 hz with hz | hz
    · exact hx z (List.mem_of_mem_take hz)
    · exact hx z (List.mem_of_mem_drop hz)
  have hc2 := contiguousExcept_setIn hc e1 hmem
  obtain ⟨ys2, g4, hy⟩ := contiguousExcept_getIn hc2
  rw [g2] at g4
  cases g4
  exact contiguousExcept_renumber hc2 e2 hy

theorem GenerateModelFromTree_contiguous (s s2 : DataTreeFilter)
    (h : GenerateModelFromTree s = some s2) : contiguousFrom 0 s2.m_Items = true := by
  simp only [GenerateModelFromTree] at h
  rw [discard_eq] at h
  split at h
  · cases h
    simp [InvokeEvent]
  · rename_i treeIter ht
    split at h
    · cases h
    · split at h
      · cases h
      · rename_i sa hce
        have hca := CreateElementAt_contiguous ItemListPtr.items treeIter.Get 0 _ sa 0
          (by simp [ItemListPtr.Size, ItemListPtr.get, ItemListPtr.getIn]) hce (by simp)
        split at h
        · cases h
        · rename_i e he
          split at h
          · cases h
          · rename_i sc hr
            cases h
            simp only [InvokeEvent]
            split at hr
            · exact AddMatchingChildren_contiguous _ _ _ _ _ _ hr hca
            · exact AddMatchingChildren_contiguous _ _ _ _ _ _ hr hca
    · split at h
      · cases h
      · rename_i sc hr
        cases h
        simp only [InvokeEvent]
        exact AddMatchingChildren_contiguous _ _ _ _ _ _ hr (by simp)

theorem TreeAddWalk_m_Items (root : TreeNode) :
    ∀ (ups : List TreePosition) (s : DataTreeFilter)
      (r : Option (TreeNode × ItemPtr × ItemListPtr)) (s2 : DataTreeFilter),
      TreeAddWalk root ups s = some (r, s2) → s2.m_Items = s.m_Items
  | [], s, r, s2 => by
    intro h
    simp only [TreeAddWalk, Option.some.injEq, Prod.mk.injEq] at h
    rw [← h.2]
  | up :: more, s, r, s2 => by
    intro h
    rw [TreeAddWalk] at h
    split at h
    · cases h
    · split at h
      · cases h
      · split at h
        · cases h
        · simp only [Option.some.injEq, Prod.mk.injEq] at h
          rw [← h.2]
      · exact TreeAddWalk_m_Items root more s r s2 h

theorem TreePruneScan_m_Items :
    ∀ (nodes : List NodePtr) (firstMatch : Bool) (loc : PruneLocals) (s : DataTreeFilter)
      (loc2 : PruneLocals) (s2 : DataTreeFilter),
      TreePruneScan nodes firstMatch loc s = some (loc2, s2) → s2.m_Items = s.m_Items
  | [], firstMatch, loc, s, loc2, s2 => by
    intro h
    simp only [TreePruneScan, Option.some.injEq, Prod.mk.injEq] at h
    rw [← h.2]
  | node :: more, firstMatch, loc, s, loc2, s2 => by
    intro h
    rw [TreePruneScan] at h
    split at h
    · cases h
    · split at h
      · split at h
        · cases h
        · split at h
          · cases h
          · have hh := TreePruneScan_m_Items more _ _ _ loc2 s2 h
            exact hh
      · split at h
        · cases h
        · exact TreePruneScan_m_Items more _ _ _ loc2 s2 h
    · exact TreePruneScan_m_Items more _ _ _ loc2 s2 h

theorem SetFilter_contiguous (filter : FilterFunctionPointer) (s s2 : DataTreeFilter)
    (h : SetFilter filter s = some s2) (hc : contiguousFrom 0 s.m_Items = true) :
    contiguousFrom 0 s2.m_Items = true := by
  unfold SetFilter at h
  split at h
  · cases h
    exact hc
  · exact GenerateModelFromTree_contiguous _ _ h

theorem SetHierarchyHandling_contiguous (hh : HierarchyHandling) (s s2 : DataTreeFilter)
    (h : SetHierarchyHandling hh s = some s2) (hc : contiguousFrom 0 s.m_Items = true) :
    contiguousFrom 0 s2.m_Items = true := by
  unfold SetHierarchyHandling at h
  split at h
  · cases h
    exact hc
  · exact GenerateModelFromTree_contiguous _ _ h

theorem TreeNodeChange_contiguous (e : TreeEvent) (s s2 : DataTreeFilter)
    (h : TreeNodeChange e s = some s2) (hc : contiguousFrom 0 s.m_Items = true) :
    contiguousFrom 0 s2.m_Items = true := by
  unfold TreeNodeChange at h
  split at h
  · cases h
    exact hc
  · split at h
    · cases h
    · split at h
      · cases h
      · split at h
        · cases h
          exact hc
        · exact GenerateModelFromTree_contiguous _ _ h

theorem TreeAdd_contiguous (e : TreeEvent) (s s2 : DataTreeFilter)
    (h : TreeAdd e s = some s2) (hc : contiguousFrom 0 s.m_Items = true) :
    contiguousFrom 0 s2.m_Items = true := by
  unfold TreeAdd at h
  split at h
  · cases h
  · split at h
    · cases h
    · split at h
      · cases h
      · cases h
        exact hc
      · split at h
        · cases h
        · rename_i upPosition parent list s1 hw
          have hs1 : s1.m_Items = s.m_Items := by
            split at hw
            · exact TreeAddWalk_m_Items _ _ _ _ _ hw
            · cases hw
          split at h
          · cases h
          · rename_i sa hcl
            have hsa := clear_m_Items hcl
            have hca : contiguousFrom 0 sa.m_Items = true :=
              ItemListPtr.setIn_contiguous hsa (by simpa [InvokeEvent, hs1] using hc) (by simp)
            exact AddMatchingChildren_contiguous _ _ _ _ _ _ h hca
        · exact GenerateModelFromTree_contiguous _ _ h

theorem TreePrune_contiguous (e : TreeEvent) (s s2 : DataTreeFilter)
    (h : TreePrune e s = some s2) (hc : contiguousFrom 0 s.m_Items = true) :
    contiguousFrom 0 s2.m_Items = true := by
  unfold TreePrune at h
  split at h
  · cases h
  · split at h
    · cases h
    · split at h
      · cases h
      · split at h
        · cases h
        · rename_i loc s1 hl
          have hs1 : s1.m_Items = s.m_Items := by
            split at hl
            · split at hl
              · cases hl
              · split at hl
                · cases hl
                · cases hl
                  rfl
            · exact TreePruneScan_m_Items _ _ _ _ _ _ hl
          split at h
          · cases h
          · split at h
            · rename_i it list first _ _ _
              split at h
              · cases h
              · rename_i sa he
                obtain ⟨xs, g1, _⟩ := eraseRange_m_Items he
                have hc1 : contiguousFrom 0
                    (InvokeEvent (Event.TreeFilterRemoveChildrenEvent it.m_Parent) s1).m_Items
                      = true := by
                  simpa [InvokeEvent, hs1] using hc
                exact erase_renumber_contiguous (contiguousExcept_of_contiguous g1 hc1) he h
            · cases h

theorem TreeRemove_contiguous (e : TreeEvent) (s s2 : DataTreeFilter)
    (h : TreeRemove e s = some s2) (hc : contiguousFrom 0 s.m_Items = true) :
    contiguousFrom 0 s2.m_Items = true := by
  unfold TreeRemove at h
  split at h
  · cases h
    exact hc
  · split at h
    · cases h
    · split at h
      · cases h
      · split at h
        · cases h
        · cases h
          exact hc
        · split at h
          · cases h
          · rename_i it hit
            split at h
            · cases h
            · rename_i xs hxs
              split at h
              · cases h
              · rename_i s1 hset
                split at h
                · cases h
                · rename_i ys hys
                  split at h
                  · split at h
                    · cases h
                    · rename_i sa he
                      have hg : (siblingList it).getIn s.m_Items = some xs := hxs
                      have hitc : it.contiguous = true :=
                        findItem_contiguous _ _ it 0 (derefIn_eq_some hit).2 hc
                      have hchild : ∀ y ∈ it.m_Children, y.contiguous = true := by
                        cases it
                        exact contiguousFrom_mem _ 0 (by simpa using hitc)
                      have hxsc := contiguousFrom_mem xs 0 (ItemListPtr.getIn_contiguous hg hc)
                      have hs1 := ItemListPtr.set_m_Items hset
                      have hex : contiguousExcept (siblingList it) s1.m_Items := by
                        refine contiguousExcept_setIn (contiguousExcept_of_contiguous hg hc) hs1 ?_
                        intro z hz
                        split at hz
                        · rcases List.mem_append.1 hz with hz | hz
                          · rcases List.mem_append.1 hz with hz | hz
                            · exact hxsc z (List.mem_of_mem_take hz)
                            · exact hchild z hz
                          · exact hxsc z (List.mem_of_mem_drop hz)
                        · exact hxsc z hz
                      have hex2 : contiguousExcept (siblingList it)
                          (InvokeEvent (Event.TreeFilterRemoveChildrenEvent it.m_Parent)
                            s1).m_Items := hex
                      exact erase_renumber_contiguous hex2 he h
                  · cases h

/-- C4: every operation that changes the forest preserves index contiguity.
If every sibling list of the forest (the root list and the child list of
every item) is numbered 0, 1, 2, ... before the operation and the operation
completes, every sibling list is numbered 0, 1, 2, ... afterwards. -/
theorem index_contiguity_preserved (op : Operation) (s s2 : DataTreeFilter)
    (hc : contiguousFrom 0 s.m_Items = true) (h : op.run s = some s2) :
    contiguousFrom 0 s2.m_Items = true := by
  cases op with
  | GenerateModelFromTree => exact GenerateModelFromTree_contiguous s s2 h
  | SetFilter filter => exact SetFilter_contiguous filter s s2 h hc
  | SetHierarchyHandling hh => exact SetHierarchyHandling_contiguous hh s s2 h hc
  | TreeNodeChange e => exact TreeNodeChange_contiguous e s s2 h hc
  | TreeAdd e => exact TreeAdd_contiguous e s s2 h hc
  | TreePrune e => exact TreePrune_contiguous e s s2 h hc
  | TreeRemove e => exact TreeRemove_contiguous e s s2 h hc

/-! ## Selection -/

/-- C1 (the code at the failing input): on the single-selection engine with
items 3 and 4, selecting 3 and then 4 leaves both in the selection set, both
with their selected flag set, and `m_LastSelectedItem` still null. -/
theorem single_select_keeps_both :
    ((singleSelectEngine.bind (SelectItem 3 true)).bind (SelectItem 4 true)).map
        (fun s => (s.m_SelectionMode, s.m_SelectedItems, s.m_LastSelectedItem,
                   s.m_Items.map (fun it => (it.self, it.IsSelected))))
      = some (SelectionMode.SINGLE_SELECT, [3, 4], 0, [(3, true), (4, true)]) := by
  decide!

/-! ## SetFilter -/

/-- C6: `SetFilter` with the filter that is already installed returns the
state it was called on: no member changes and no event is sent. -/
theorem SetFilter_same_filter (s : DataTreeFilter) : SetFilter s.m_Filter s = some s := by
  simp [SetFilter]

/-! ## Property accessors -/

/-- C7: the conversion to a mutable property throws `NoPermissionException`
exactly when the accessor is not editable and otherwise returns the wrapped
property; the conversion to a const property always returns the wrapped
property. -/
theorem accessor_permission (a : BasePropertyAccessor) :
    (a.toBaseProperty = Except.error Exception.NoPermissionException ↔ a.m_Editable = false)
    ∧ a.toBaseProperty
        = (if a.m_Editable = true then Except.ok a.m_Property
           else Except.error Exception.NoPermissionException)
    ∧ a.toConstBaseProperty = Except.ok a.m_Property := by
  cases h : a.m_Editable <;>
    simp [BasePropertyAccessor.toBaseProperty, BasePropertyAccessor.toConstBaseProperty, h]

/-- C8: for an item with a node and a key that is not in `m_VisibleProperties`,
`GetProperty` returns the accessor with a null property and editable false
and leaves the state, the node properties included, as it was. -/
theorem GetProperty_not_visible (s : DataTreeFilter) (it : Item) (key : String)
    (hnode : it.m_Node ≠ 0) (hvis : key ∉ s.m_VisibleProperties) :
    Item.GetProperty it key s = some ({ m_Editable := false, m_Property := 0 }, s) := by
  simp [Item.GetProperty, nodeGetProperty, hnode, hvis]

/-- C8 at the key `color` of node 7, which the node holds and which is
editable but not visible. -/
theorem GetProperty_not_visible_witness :
    (propFind (7, "color") propertyEngine.nodeProperties = 5
      ∧ "color" ∈ propertyEngine.m_EditableProperties)
    ∧ Item.GetProperty (Item.mk 1 0 0 [] 7 false) "color" propertyEngine
        = some ({ m_Editable := false, m_Property := 0 }, propertyEngine) :=
  ⟨⟨by decide, by decide⟩,
   GetProperty_not_visible propertyEngine (Item.mk 1 0 0 [] 7 false) "color"
     (by decide) (by decide)⟩

/-- C9: for an item with a node, a visible key under which the node holds no
property and for which the factory has a default, `GetProperty` creates one
property, stores it in the node under the key and returns it, editable
exactly when the key is in `m_EditableProperties`; the same call on the
resulting state returns the same property and leaves that state unchanged. -/
theorem GetProperty_creates_default (s : DataTreeFilter) (it : Item) (key : String)
    (hnode : it.m_Node ≠ 0) (hvis : key ∈ s.m_VisibleProperties)
    (hnone : propFind (it.m_Node, key) s.nodeProperties = 0)
    (hdef : s.hasDefaultProperty key = true) :
    Item.GetProperty it key s
        = some ({ m_Editable := decide (key ∈ s.m_EditableProperties),
                  m_Property := s.nextProperty + 1 },
                { s with nodeProperties := ((it.m_Node, key), s.nextProperty + 1) :: s.nodeProperties,
                         nextProperty := s.nextProperty + 1 })
    ∧ propFind (it.m_Node, key)
          (((it.m_Node, key), s.nextProperty + 1) :: s.nodeProperties) = s.nextProperty + 1
    ∧ Item.GetProperty it key
          { s with nodeProperties := ((it.m_Node, key), s.nextProperty + 1) :: s.nodeProperties,
                   nextProperty := s.nextProperty + 1 }
        = some ({ m_Editable := decide (key ∈ s.m_EditableProperties),
                  m_Property := s.nextProperty + 1 },
                { s with nodeProperties := ((it.m_Node, key), s.nextProperty + 1) :: s.nodeProperties,
                         nextProperty := s.nextProperty + 1 }) := by
  refine ⟨?_, ?_, ?_⟩
  · simp [Item.GetProperty, nodeGetProperty, nodeSetProperty, CreateDefaultProperty,
      hnode, hvis, hnone, hdef]
  · simp [propFind]
  · simp [Item.GetProperty, nodeGetProperty, hnode, hvis, propFind]

/-- C9 at the key `name` of node 7 in `propertyEngine`: property 6 is
created and returned editable. -/
theorem GetProperty_creates_default_witness :
    Item.GetProperty (Item.mk 1 0 0 [] 7 false) "name" propertyEngine
        = some ({ m_Editable := true, m_Property := 6 },
                { propertyEngine with nodeProperties := [((7, "name"), 6), ((7, "color"), 5)],
                                      nextProperty := 6 }) :=
  (GetProperty_creates_default propertyEngine (Item.mk 1 0 0 [] 7 false) "name"
    (by decide) (by decide) (by decide) (by decide)).1


/-! ## Registry -/

/-- C5 (the code at the failing input): the nodes of both trees are pairwise
distinct and the registry is consistent after construction and after the
prune of B, where the handler has erased the item of A in place of the item
of C; after C is added again below P, the stale item 8 of node C is still
in the forest while the registry maps node C to the new item 10. -/
theorem registry_inconsistent_after_prune_and_add :
    pruneTree.preOrder.Nodup ∧ readdedTree.preOrder.Nodup
    ∧ pruneEngine.map registryConsistent = some true
    ∧ prunedEngine.map
        (fun s => (registryConsistent s,
                   (flattenItems s.m_Items).map (fun it => (it.self, it.m_Node))))
        = some (true, [(6, 20), (8, 13), (9, 14)])
    ∧ readdedEngine.map
        (fun s => (registryConsistent s, s.m_Item,
                   (flattenItems s.m_Items).map (fun it => (it.self, it.m_Node))))
        = some (false, [(20, 6), (14, 9), (13, 10)],
                [(6, 20), (8, 13), (9, 14), (10, 13)]) := by
  decide!

/-! ## Index contiguity of the handlers, an instance -/

theorem removeEngine_runs :
    ((Operation.TreeRemove { kind := TreeEventKind.TreeRemoveEvent, position := [1] }).run
      removeEngine).isSome = true := by
  decide!

/-- C4 on `removeEngine`: the remove notification for node 14 promotes the
item of 13 into the child list of the item of 20, and every sibling list is
numbered from 0 afterwards. -/
theorem index_contiguity_preserved_witness :
    contiguousFrom 0 removeEngine.m_Items = true
    ∧ ∃ s2,
        (Operation.TreeRemove { kind := TreeEventKind.TreeRemoveEvent, position := [1] }).run
            removeEngine = some s2
        ∧ contiguousFrom 0 s2.m_Items = true :=
  ⟨by decide,
   _, (Option.some_get removeEngine_runs).symm,
   index_contiguity_preserved
     (Operation.TreeRemove { kind := TreeEventKind.TreeRemoveEvent, position := [1] })
     removeEngine _ (by decide) (Option.some_get removeEngine_runs).symm⟩

/-! ## SelectItem -/

theorem SetSelected_events (self : ItemPtr) (selected : Bool) (s s2 : DataTreeFilter)
    (h : Item.SetSelected self selected s = some s2) : s2.events = s.events := by
  unfold Item.SetSelected at h
  split at h
  · cases h
  · split at h
    · split at h
      · cases h
      · dsimp only at h
        split_ifs at h <;> (cases h; rfl)
    · cases h
      rfl

theorem SetSelected_isSome (self : ItemPtr) (selected : Bool) (s : DataTreeFilter) (it : Item)
    (h : s.deref self = some it) : (Item.SetSelected self selected s).isSome = true := by
  unfold Item.SetSelected
  rw [h]
  simp only
  have hf := (derefIn_eq_some h).2
  have hm : (modifyItem self (Item.setSelectedFlag selected) s.m_Items).isSome = true := by
    rw [modifyItem_isSome, hf]
    rfl
  cases hmod : modifyItem self (Item.setSelectedFlag selected) s.m_Items with
  | none => rw [hmod] at hm; simp at hm
  | some f =>
    dsimp only
    split_ifs <;> rfl

/-- C11: for a live item, `SelectItem(item, selected)` succeeds in either
selection mode, whether or not the selection state changes; its result is
the state after `SetSelected` with one more event, and the events sent are
exactly one `TreeFilterSelectionChangedEvent(item, selected)`. -/
theorem SelectItem_notifies (s : DataTreeFilter) (item : ItemPtr) (selected : Bool) (it : Item)
    (hlive : s.deref item = some it) :
    ∃ s1, Item.SetSelected item selected s = some s1
      ∧ SelectItem item selected s
          = some (InvokeEvent (Event.TreeFilterSelectionChangedEvent item selected) s1)
      ∧ (InvokeEvent (Event.TreeFilterSelectionChangedEvent item selected) s1).events
          = s.events ++ [Event.TreeFilterSelectionChangedEvent item selected] := by
  have h := SetSelected_isSome item selected s it hlive
  cases hs : Item.SetSelected item selected s with
  | none => rw [hs] at h; simp at h
  | some s1 =>
    refine ⟨s1, rfl, by simp [SelectItem, hs], ?_⟩
    simp [InvokeEvent, SetSelected_events item selected s s1 hs]

/-! ## Flatten contiguity -/

theorem preOrderList_append (xs ys : List TreeNode) :
    preOrderList (xs ++ ys) = preOrderList xs ++ preOrderList ys := by
  induction xs with
  | nil => simp
  | cons x xs ih => simp [ih]

theorem preOrderList_split :
    ∀ (cs : List TreeNode) (i : Nat) (c : TreeNode), cs.get? i = some c →
      preOrderList cs
        = preOrderList (cs.take i) ++ c.preOrder ++ preOrderList (cs.drop (i + 1))
  | [], i, c => by simp
  | x :: xs, 0, c => by
    intro h
    simp only [List.get?_cons_zero, Option.some.injEq] at h
    subst h
    simp
  | x :: xs, i + 1, c => by
    intro h
    simp only [List.get?_cons_succ] at h
    simp [preOrderList_split xs i c h]

/-- The pre-order of a sub-tree is a contiguous part of the pre-order of the
tree. -/
theorem subtree_preOrder :
    ∀ (pos : TreePosition) (root t : TreeNode), root.subtree pos = some t →
      ∃ before after, root.preOrder = before ++ t.preOrder ++ after
  | [], root, t => by
    intro h
    simp only [TreeNode.subtree, Option.some.injEq] at h
    subst h
    exact ⟨[], [], by simp⟩
  | i :: rest, .mk d cs, t => by
    intro h
    rw [TreeNode.subtree] at h
    cases hc : cs[i]? with
    | none => simp [hc] at h
    | some c =>
      rw [← List.get?_eq_getElem?] at hc
      simp only [hc] at h
      obtain ⟨b, a, e⟩ := subtree_preOrder rest c t h
      refine ⟨d :: (preOrderList (cs.take i) ++ b), a ++ preOrderList (cs.drop (i + 1)), ?_⟩
      rw [preOrder_mk, preOrderList_split cs i c hc, e]
      simp

/-- C12: in the flat hierarchy, for every position of the tree, the items
that regeneration creates for the matching nodes of the sub-tree at that
position fill one contiguous range of the root list (from some position `k`
on), in the pre-order of that sub-tree. -/
theorem flatten_contiguity (s : DataTreeFilter)
    (hfilter : s.m_Filter ≠ FilterFunctionPointer.null)
    (hmode : s.m_HierarchyHandling = HierarchyHandling.FLATTEN_HIERARCHY)
    (root : TreeNode) (htree : s.m_DataTree = some root)
    (pos : TreePosition) (t : TreeNode) (hpos : root.subtree pos = some t) :
    ∃ s2, GenerateModelFromTree s = some s2
      ∧ ∃ k, ((s2.m_Items.drop k).take (t.preOrder.filter s.filterFun).length).map Item.m_Node
              = t.preOrder.filter s.filterFun := by
  refine ⟨_, GenerateModelFromTree_eq s s.filterFun (callFilter_eq_filterFun s hfilter), ?_⟩
  simp only [hmode, htree]
  obtain ⟨h1, _⟩ := buildLoop_flatten s.filterFun [root] 0 0 s.nextItem
  obtain ⟨b, a, e⟩ := subtree_preOrder pos root t hpos
  refine ⟨(b.filter s.filterFun).length, ?_⟩
  simp only [buildTree, List.map_take, List.map_drop, h1, preOrderList_cons, preOrderList_nil,
    List.append_nil, e, List.filter_append, List.append_assoc, List.drop_left, List.take_left]

/-- Witness for C12 on `scenarioTree` (10 → [11, 12 → [13]], filter
accepting 11 and 13), at the position of node 12: its sub-tree has the one
matching node 13, whose item is the range of length 1 at position 1 of the
root list. -/
theorem flatten_contiguity_witness :
    (scenarioEngine HierarchyHandling.FLATTEN_HIERARCHY).m_Filter ≠ FilterFunctionPointer.null
    ∧ scenarioTree.subtree [1] = some (TreeNode.mk 12 [TreeNode.mk 13 []])
    ∧ (∃ s2, GenerateModelFromTree (scenarioEngine HierarchyHandling.FLATTEN_HIERARCHY) = some s2
      ∧ ∃ k, ((s2.m_Items.drop k).take
                (((TreeNode.mk 12 [TreeNode.mk 13 []]).preOrder.filter
                  (scenarioEngine HierarchyHandling.FLATTEN_HIERARCHY).filterFun).length)).map
                Item.m_Node
              = (TreeNode.mk 12 [TreeNode.mk 13 []]).preOrder.filter
                  (scenarioEngine HierarchyHandling.FLATTEN_HIERARCHY).filterFun)
    ∧ (GenerateModelFromTree (scenarioEngine HierarchyHandling.FLATTEN_HIERARCHY)).map
        (fun s2 => ((s2.m_Items.drop 1).take 1).map Item.m_Node) = some [13] :=
  ⟨by decide, rfl,
   flatten_contiguity (scenarioEngine HierarchyHandling.FLATTEN_HIERARCHY) (by decide) rfl
     scenarioTree rfl [1] (TreeNode.mk 12 [TreeNode.mk 13 []]) rfl,
   by decide!⟩

/-- Witness for C11 on `removeEngine`: selecting the live item 2 succeeds and
sends exactly the one selection-changed event. -/
theorem SelectItem_notifies_witness :
    removeEngine.deref 2 = some (Item.mk 2 0 1 [] 11 false)
    ∧ (∃ s1, Item.SetSelected 2 true removeEngine = some s1
      ∧ SelectItem 2 true removeEngine
          = some (InvokeEvent (Event.TreeFilterSelectionChangedEvent 2 true) s1)
      ∧ (InvokeEvent (Event.TreeFilterSelectionChangedEvent 2 true) s1).events
          = removeEngine.events ++ [Event.TreeFilterSelectionChangedEvent 2 true])
    ∧ (SelectItem 2 true removeEngine).map (fun s2 => s2.events)
        = some [Event.TreeFilterSelectionChangedEvent 2 true] :=
  ⟨rfl, SelectItem_notifies removeEngine 2 true (Item.mk 2 0 1 [] 11 false) rfl, by decide!⟩

/-! ## The prune and remove handlers -/

theorem mapIndex_of_find {k : NodePtr} {m : List (NodePtr × ItemPtr)} {v : ItemPtr}
    (h : mapFind k m = some v) : mapIndex k m = (v, m) := by
  simp [mapIndex, h]

theorem release_events_eq (gone : List Item) (s : DataTreeFilter) :
    (release gone s).events = s.events := by
  rw [release_frame]

/-- Erasing a valid range of a list that exists succeeds; it rewrites that
list only and sends no event. -/
theorem eraseRange_run {list : ItemListPtr} {s : DataTreeFilter} {xs : List Item}
    (first last : Nat) (hg : list.getIn s.m_Items = some xs)
    (h1 : first ≤ last) (h2 : last ≤ xs.length) :
    ∃ s2, eraseRange list first last s = some s2
      ∧ list.setIn (xs.take first ++ xs.drop last) s.m_Items = some s2.m_Items
      ∧ list.getIn s2.m_Items = some (xs.take first ++ xs.drop last)
      ∧ (∀ zs, list.setIn zs s2.m_Items = list.setIn zs s.m_Items)
      ∧ s2.events = s.events := by
  obtain ⟨f1, e1, e2, e3, _⟩ := ItemListPtr.setIn_of_getIn (xs.take first ++ xs.drop last) hg
  refine ⟨release ((xs.drop first).take (last - first)) { s with m_Items := f1 }, ?_, ?_, ?_, ?_, ?_⟩
  · simp [eraseRange, ItemListPtr.get, ItemListPtr.set, hg, h1, h2, e1]
  · rw [release_m_Items]; exact e1
  · rw [release_m_Items]; exact e2
  · rw [release_m_Items]; exact e3
  · rw [release_events_eq]

/-- Renumbering a list that exists succeeds; it rewrites that list only and
sends one `TreeFilterItemAddedEvent` per element, in list order. -/
theorem renumberAndAnnounce_run {list : ItemListPtr} {s : DataTreeFilter} {xs : List Item}
    (hg : list.getIn s.m_Items = some xs) :
    ∃ s2, renumberAndAnnounce list s = some s2
      ∧ list.setIn (renumber 0 xs) s.m_Items = some s2.m_Items
      ∧ list.getIn s2.m_Items = some (renumber 0 xs)
      ∧ s2.events = s.events ++ xs.map (fun x => Event.TreeFilterItemAddedEvent x.self) := by
  obtain ⟨f1, e1, e2, _, _⟩ := ItemListPtr.setIn_of_getIn (renumber 0 xs) hg
  refine ⟨{ s with m_Items := f1,
                   events := s.events ++ xs.map (fun x => Event.TreeFilterItemAddedEvent x.self) },
    ?_, e1, e2, rfl⟩
  simp [renumberAndAnnounce, ItemListPtr.get, ItemListPtr.set, hg, e1]

/-- The tail of the prune and remove handlers: the erase of a valid range
followed by the renumbering loop. -/
theorem erase_renumber_run {list : ItemListPtr} {s : DataTreeFilter} {xs : List Item}
    (first last : Nat) (hg : list.getIn s.m_Items = some xs)
    (h1 : first ≤ last) (h2 : last ≤ xs.length) :
    ∃ s3, (eraseRange list first last s).bind (renumberAndAnnounce list) = some s3
      ∧ list.setIn (renumber 0 (xs.take first ++ xs.drop last)) s.m_Items = some s3.m_Items
      ∧ list.getIn s3.m_Items = some (renumber 0 (xs.take first ++ xs.drop last))
      ∧ s3.events = s.events
          ++ (xs.take first ++ xs.drop last).map (fun x => Event.TreeFilterItemAddedEvent x.self) := by
  obtain ⟨s2, a1, _, a3, a4, a5⟩ := eraseRange_run first last hg h1 h2
  obtain ⟨s3, b1, b2, b3, b4⟩ := renumberAndAnnounce_run a3
  refine ⟨s3, by simp [a1, b1], ?_, b3, ?_⟩
  · rw [← a4]; exact b2
  · rw [b4, a5]

theorem renumber_get? :
    ∀ (xs : List Item) (start i : Nat),
      (renumber start xs).get? i = (xs.get? i).map (Item.setIndex (start + i))
  | [], start, i => by simp [renumber]
  | x :: xs, start, 0 => by simp [renumber]
  | x :: xs, start, i + 1 => by
    have e : start + 1 + i = start + (i + 1) := by omega
    simp only [renumber, List.get?_cons_succ, renumber_get? xs (start + 1) i, e]

theorem Item.GetIndex_setIndex (i : Nat) (x : Item) : (x.setIndex i).GetIndex = i := by
  cases x; rfl

/-- The later matches of the scan of `TreePrune` advance `listLastIter` by
one position each. -/
theorem TreePruneScan_later (f : NodePtr → Bool) :
    ∀ (nodes : List NodePtr) (loc : PruneLocals) (s : DataTreeFilter) (l : ItemListPtr)
      (j : Nat) (xs : List Item),
      (∀ n, s.callFilter n = some (f n)) →
      loc.list = some l → loc.listLastIter = some j → l.getIn s.m_Items = some xs →
      j + (nodes.filter f).length ≤ xs.length →
      TreePruneScan nodes false loc s
        = some ({ loc with listLastIter := some (j + (nodes.filter f).length) }, s)
  | [], loc, s, l, j, xs => by
    intro _ _ h2 _ _
    simp [TreePruneScan, ← h2]
  | node :: more, ⟨item0, list0, first0, last0⟩, s, l, j, xs => by
    intro hf h1 h2 h3 h4
    simp only at h1 h2
    subst h1 h2
    rw [TreePruneScan, hf node]
    cases hn : f node with
    | false =>
      simp only [hn, List.filter_cons_of_neg, Bool.false_eq_true, not_false_eq_true] at h4 ⊢
      exact TreePruneScan_later f more _ s l j xs hf rfl rfl h3 h4
    | true =>
      simp only [hn, List.filter_cons_of_pos, List.length_cons] at h4 ⊢
      have hj : j < xs.length := by omega
      simp only [incrementIter, ItemListPtr.get, h3, hj, if_true, Bool.false_eq_true,
        if_false]
      rw [TreePruneScan_later f more _ s l (j + 1) xs hf rfl rfl h3 (by omega)]
      simp only [Option.some.injEq, Prod.mk.injEq, and_true]
      congr 2
      omega

/-- The scan of `TreePrune`: at the first matching node the item is read from
the registry, the list is its sibling list and both iterators are set to
`list->begin()`. -/
theorem TreePruneScan_first (f : NodePtr → Bool) (m : NodePtr) (rest : List NodePtr)
    (p : ItemPtr) (it : Item) (xs : List Item) :
    ∀ (nodes : List NodePtr) (loc : PruneLocals) (s : DataTreeFilter),
      (∀ n, s.callFilter n = some (f n)) →
      nodes.filter f = m :: rest → mapFind m s.m_Item = some p → s.deref p = some it →
      (siblingList it).getIn s.m_Items = some xs → rest.length ≤ xs.length →
      TreePruneScan nodes true loc s
        = some ({ item := p, list := some (siblingList it), listFirstIter := some 0,
                  listLastIter := some rest.length }, s)
  | [], loc, s => by
    intro _ h
    simp at h
  | node :: more, loc, s => by
    intro hf h1 h2 h3 h4 h5
    rw [TreePruneScan, hf node]
    cases hn : f node with
    | false =>
      simp only [hn, List.filter_cons_of_neg, Bool.false_eq_true, not_false_eq_true] at h1 ⊢
      exact TreePruneScan_first f m rest p it xs more loc s hf h1 h2 h3 h4 h5
    | true =>
      simp only [hn, List.filter_cons_of_pos, List.cons.injEq] at h1
      obtain ⟨e1, e2⟩ := h1
      subst e1
      have hs : ({ s with m_Item := s.m_Item } : DataTreeFilter) = s := rfl
      simp only [if_true, mapIndex_of_find h2, hs, h3, ItemListPtr.get, h4]
      rw [TreePruneScan_later f more _ s (siblingList it) 0 xs hf rfl rfl h4
        (by rw [e2]; omega)]
      simp [e2]

theorem preOrder_head (t : TreeNode) : ∃ tl, t.preOrder = t.Get :: tl := by
  cases t with
  | mk d cs => exact ⟨preOrderList cs, by rw [preOrder_mk]; rfl⟩

/-- Closed form of `TreePrune` when the sub-tree at the pruned position has a
matching node whose item is registered and live: the handler sends the
remove-children event, erases `pruneRange` from the sibling list of that item
and renumbers the list. -/
theorem TreePrune_run (s : DataTreeFilter) (e : TreeEvent) (root treePosition : TreeNode)
    (m : NodePtr) (rest : List NodePtr) (p : ItemPtr) (it : Item) (xs : List Item)
    (hfilter : s.m_Filter ≠ FilterFunctionPointer.null)
    (htree : s.m_DataTree = some root)
    (hpos : root.subtree e.position = some treePosition)
    (hmatch : treePosition.preOrder.filter s.filterFun = m :: rest)
    (hreg : mapFind m s.m_Item = some p) (hlive : s.deref p = some it)
    (hlist : (siblingList it).getIn s.m_Items = some xs)
    (hrange : (pruneRange s treePosition p xs).2 ≤ xs.length) :
    TreePrune e s
      = (eraseRange (siblingList it) (pruneRange s treePosition p xs).1
            (pruneRange s treePosition p xs).2
            (InvokeEvent (Event.TreeFilterRemoveChildrenEvent it.m_Parent) s)).bind
          (renumberAndAnnounce (siblingList it)) := by
  have hf := callFilter_eq_filterFun s hfilter
  have hs : ({ s with m_Item := s.m_Item } : DataTreeFilter) = s := rfl
  unfold TreePrune
  split
  · rename_i h; rw [htree] at h; cases h
  rename_i root2 h
  rw [htree] at h
  cases h
  split
  · rename_i h; rw [hpos] at h; cases h
  rename_i tp2 h
  rw [hpos] at h
  cases h
  by_cases hc : s.m_HierarchyHandling = HierarchyHandling.PRESERVE_HIERARCHY
      ∧ s.filterFun treePosition.Get = true
  · obtain ⟨hm, ht⟩ := hc
    obtain ⟨tl, etl⟩ := preOrder_head treePosition
    rw [etl, List.filter_cons_of_pos ht] at hmatch
    simp only [List.cons.injEq] at hmatch
    obtain ⟨e1, _⟩ := hmatch
    subst e1
    have hpr : pruneRange s treePosition p xs = (findPosition p xs, findPosition p xs + 1) := by
      simp [pruneRange, hm, ht]
    rw [hpr] at hrange ⊢
    dsimp only at hrange ⊢
    have hk : findPosition p xs < xs.length := by omega
    rw [if_pos hm]
    simp only [hf, ht, if_true, mapIndex_of_find hreg, hs, hlive, ItemListPtr.get, hlist, hk,
      incrementIter]
    cases eraseRange (siblingList it) (findPosition p xs) (findPosition p xs + 1)
        (InvokeEvent (Event.TreeFilterRemoveChildrenEvent it.m_Parent) s) <;> rfl
  · have hhit : (if s.m_HierarchyHandling = HierarchyHandling.PRESERVE_HIERARCHY then
                   s.callFilter treePosition.Get else some false) = some false := by
      by_cases hm : s.m_HierarchyHandling = HierarchyHandling.PRESERVE_HIERARCHY
      · rw [if_pos hm, hf]
        cases ht : s.filterFun treePosition.Get with
        | false => rfl
        | true => exact absurd ⟨hm, ht⟩ hc
      · rw [if_neg hm]
    have hpr : pruneRange s treePosition p xs = (0, rest.length + 1) := by
      simp [pruneRange, hc, hmatch]
    rw [hpr] at hrange ⊢
    dsimp only at hrange ⊢
    rw [hhit]
    simp only [Bool.false_eq_true, if_false]
    rw [TreePruneScan_first s.filterFun m rest p it xs treePosition.preOrder _ s hf hmatch hreg
      hlive hlist (by omega)]
    have hk : rest.length < xs.length := by omega
    simp only [incrementIter, ItemListPtr.get, hlist, hk, if_true, hlive]
    cases eraseRange (siblingList it) 0 (rest.length + 1)
        (InvokeEvent (Event.TreeFilterRemoveChildrenEvent it.m_Parent) s) <;> rfl

theorem pruneRange_le (s : DataTreeFilter) (treePosition : TreeNode) (item : ItemPtr)
    (xs : List Item) : (pruneRange s treePosition item xs).1 ≤ (pruneRange s treePosition item xs).2 := by
  unfold pruneRange
  split_ifs
  · exact Nat.le_succ _
  · exact Nat.zero_le _

theorem callFilter_some_ne_null {s : DataTreeFilter} {n : NodePtr} {b : Bool}
    (h : s.callFilter n = some b) : s.m_Filter ≠ FilterFunctionPointer.null := by
  intro hn
  simp [callFilter, hn] at h

theorem findPosition_get? (p : ItemPtr) (xs : List Item) (h : findPosition p xs < xs.length) :
    ∃ x, xs.get? (findPosition p xs) = some x ∧ x.self = p := by
  refine ⟨xs.get ⟨findPosition p xs, h⟩, List.get?_eq_get h, ?_⟩
  have := List.findIdx_getElem (w := h)
  simpa using this

/-- C15: in the preserved hierarchy, when the node at the pruned position
passes the filter, its item `p` is registered and live, and `p` sits in its
sibling list `xs` (the children of its parent, or the root list for a root
item) at position `k`, then `TreePrune` succeeds; the element at position `k`
is the item at `p`, and the forest afterwards is the forest before with that
one list replaced by `xs` without the element at position `k` (which goes
with the children it owns), renumbered from 0: the other elements keep their
order and no other list changes. -/
theorem TreePrune_preserve_matching (s : DataTreeFilter) (e : TreeEvent)
    (root treePosition : TreeNode) (p : ItemPtr) (it : Item) (xs : List Item)
    (hmode : s.m_HierarchyHandling = HierarchyHandling.PRESERVE_HIERARCHY)
    (htree : s.m_DataTree = some root)
    (hpos : root.subtree e.position = some treePosition)
    (hmatch : s.callFilter treePosition.Get = some true)
    (hreg : mapFind treePosition.Get s.m_Item = some p) (hlive : s.deref p = some it)
    (hlist : (siblingList it).getIn s.m_Items = some xs)
    (hk : findPosition p xs < xs.length) :
    ∃ s2 x, TreePrune e s = some s2
      ∧ xs.get? (findPosition p xs) = some x ∧ x.self = p
      ∧ (siblingList it).setIn
            (renumber 0 (xs.take (findPosition p xs) ++ xs.drop (findPosition p xs + 1)))
            s.m_Items = some s2.m_Items
      ∧ (siblingList it).getIn s2.m_Items
          = some (renumber 0 (xs.take (findPosition p xs) ++ xs.drop (findPosition p xs + 1))) := by
  have hfilter := callFilter_some_ne_null hmatch
  have ht : s.filterFun treePosition.Get = true := by
    have := callFilter_eq_filterFun s hfilter treePosition.Get
    rw [hmatch] at this
    exact (Option.some.inj this).symm
  obtain ⟨tl, etl⟩ := preOrder_head treePosition
  have hm : treePosition.preOrder.filter s.filterFun
      = treePosition.Get :: tl.filter s.filterFun := by
    rw [etl, List.filter_cons_of_pos ht]
  have hpr : pruneRange s treePosition p xs = (findPosition p xs, findPosition p xs + 1) := by
    simp [pruneRange, hmode, ht]
  have hrun := TreePrune_run s e root treePosition _ _ p it xs hfilter htree hpos hm hreg hlive
    hlist (by rw [hpr]; exact hk)
  rw [hpr] at hrun
  have hlist2 : (siblingList it).getIn
      (InvokeEvent (Event.TreeFilterRemoveChildrenEvent it.m_Parent) s).m_Items = some xs := hlist
  obtain ⟨s3, a1, a2, a3, _⟩ :=
    erase_renumber_run (findPosition p xs) (findPosition p xs + 1) hlist2 (Nat.le_succ _) hk
  obtain ⟨x, x1, x2⟩ := findPosition_get? p xs hk
  exact ⟨s3, x, hrun.trans a1, x1, x2, a2, a3⟩

/-- Witness for C15 on `removeEngine`: the prune notification for node 14
removes the item 3 (with its child 4) from the children of the item 1 and
leaves the item 2 there. -/
theorem TreePrune_preserve_matching_witness :
    removeEngine.callFilter 14 = some true
    ∧ mapFind 14 removeEngine.m_Item = some 3
    ∧ (∃ s2 x, TreePrune { kind := TreeEventKind.TreePruneEvent, position := [1] } removeEngine
          = some s2
      ∧ [Item.mk 2 0 1 [] 11 false, Item.mk 3 1 1 [Item.mk 4 0 3 [] 13 false] 14 false].get?
            (findPosition 3
              [Item.mk 2 0 1 [] 11 false, Item.mk 3 1 1 [Item.mk 4 0 3 [] 13 false] 14 false])
          = some x
      ∧ x.self = 3
      ∧ (siblingList (Item.mk 3 1 1 [Item.mk 4 0 3 [] 13 false] 14 false)).setIn
            (renumber 0
              ([Item.mk 2 0 1 [] 11 false,
                Item.mk 3 1 1 [Item.mk 4 0 3 [] 13 false] 14 false].take
                  (findPosition 3
                    [Item.mk 2 0 1 [] 11 false,
                     Item.mk 3 1 1 [Item.mk 4 0 3 [] 13 false] 14 false])
               ++ [Item.mk 2 0 1 [] 11 false,
                   Item.mk 3 1 1 [Item.mk 4 0 3 [] 13 false] 14 false].drop
                  (findPosition 3
                    [Item.mk 2 0 1 [] 11 false,
                     Item.mk 3 1 1 [Item.mk 4 0 3 [] 13 false] 14 false] + 1)))
            removeEngine.m_Items = some s2.m_Items
      ∧ (siblingList (Item.mk 3 1 1 [Item.mk 4 0 3 [] 13 false] 14 false)).getIn s2.m_Items
          = some (renumber 0
              ([Item.mk 2 0 1 [] 11 false,
                Item.mk 3 1 1 [Item.mk 4 0 3 [] 13 false] 14 false].take
                  (findPosition 3
                    [Item.mk 2 0 1 [] 11 false,
                     Item.mk 3 1 1 [Item.mk 4 0 3 [] 13 false] 14 false])
               ++ [Item.mk 2 0 1 [] 11 false,
                   Item.mk 3 1 1 [Item.mk 4 0 3 [] 13 false] 14 false].drop
                  (findPosition 3
                    [Item.mk 2 0 1 [] 11 false,
                     Item.mk 3 1 1 [Item.mk 4 0 3 [] 13 false] 14 false] + 1))))
    ∧ (TreePrune { kind := TreeEventKind.TreePruneEvent, position := [1] } removeEngine).map
        (fun s2 => flattenItems s2.m_Items |>.map
          (fun x => (x.self, x.GetIndex, x.GetParent, x.m_Node)))
        = some [(1, 0, 0, 20), (2, 0, 1, 11)] :=
  ⟨rfl, rfl,
   TreePrune_preserve_matching removeEngine
     { kind := TreeEventKind.TreePruneEvent, position := [1] }
     (TreeNode.mk 20 [TreeNode.mk 11 [], TreeNode.mk 14 [TreeNode.mk 13 []]])
     (TreeNode.mk 14 [TreeNode.mk 13 []]) 3
     (Item.mk 3 1 1 [Item.mk 4 0 3 [] 13 false] 14 false)
     [Item.mk 2 0 1 [] 11 false, Item.mk 3 1 1 [Item.mk 4 0 3 [] 13 false] 14 false]
     rfl rfl rfl rfl rfl rfl rfl (by decide),
   by decide!⟩

theorem siblingList_eq (it : Item) :
    siblingList it
      = if it.m_Parent = 0 then ItemListPtr.items else ItemListPtr.childrenOf it.m_Parent := by
  unfold siblingList Item.IsRoot
  by_cases h : it.m_Parent = 0 <;> simp [h]

theorem renumber_map_self :
    ∀ (xs : List Item) (i : Nat), (renumber i xs).map Item.self = xs.map Item.self
  | [], _ => rfl
  | x :: xs, i => by simp [renumber, renumber_map_self xs (i + 1)]

/-- Notifications of a prune whose range lies inside the list: when the
sub-tree at the pruned position has a matching node (`m`
the first one in pre-order) whose item `p` is registered and live, with
sibling list `xs` (the list owned by `m_Parent` of the item, the root list
when that is null), and the range `pruneRange` that the handler computes lies
inside `xs`, then `TreePrune` succeeds as: the remove-children event for
`m_Parent` of the item, sent on the state before the erase; then the erase of
the range; then the renumbering loop. The events sent are exactly that one
`TreeFilterRemoveChildrenEvent` followed by one `TreeFilterItemAddedEvent` per
surviving element of the list, in list order, and the item each of them
carries has its position in the list as index afterwards. -/
theorem TreePrune_notifications (s : DataTreeFilter) (e : TreeEvent)
    (root treePosition : TreeNode) (m : NodePtr) (rest : List NodePtr)
    (p : ItemPtr) (it : Item) (xs : List Item)
    (hfilter : s.m_Filter ≠ FilterFunctionPointer.null)
    (htree : s.m_DataTree = some root)
    (hpos : root.subtree e.position = some treePosition)
    (hmatch : treePosition.preOrder.filter s.filterFun = m :: rest)
    (hreg : mapFind m s.m_Item = some p) (hlive : s.deref p = some it)
    (hlist : (siblingList it).getIn s.m_Items = some xs)
    (hrange : (pruneRange s treePosition p xs).2 ≤ xs.length) :
    ∃ s2, TreePrune e s = some s2
      ∧ TreePrune e s
          = (eraseRange (siblingList it) (pruneRange s treePosition p xs).1
                (pruneRange s treePosition p xs).2
                (InvokeEvent (Event.TreeFilterRemoveChildrenEvent it.m_Parent) s)).bind
              (renumberAndAnnounce (siblingList it))
      ∧ siblingList it
          = (if it.m_Parent = 0 then ItemListPtr.items else ItemListPtr.childrenOf it.m_Parent)
      ∧ s2.events
          = s.events ++ Event.TreeFilterRemoveChildrenEvent it.m_Parent
              :: (xs.take (pruneRange s treePosition p xs).1
                    ++ xs.drop (pruneRange s treePosition p xs).2).map
                  (fun x => Event.TreeFilterItemAddedEvent x.self)
      ∧ ∃ survivors, (siblingList it).getIn s2.m_Items = some survivors
          ∧ survivors.map Item.self
              = (xs.take (pruneRange s treePosition p xs).1
                  ++ xs.drop (pruneRange s treePosition p xs).2).map Item.self
          ∧ ∀ (i : Nat) (x : Item), survivors.get? i = some x → x.GetIndex = i := by
  have hrun := TreePrune_run s e root treePosition m rest p it xs hfilter htree hpos hmatch hreg
    hlive hlist hrange
  have hlist2 : (siblingList it).getIn
      (InvokeEvent (Event.TreeFilterRemoveChildrenEvent it.m_Parent) s).m_Items = some xs := hlist
  obtain ⟨s3, a1, _, a3, a4⟩ :=
    erase_renumber_run (pruneRange s treePosition p xs).1 (pruneRange s treePosition p xs).2
      hlist2 (pruneRange_le s treePosition p xs) hrange
  refine ⟨s3, hrun.trans a1, hrun, siblingList_eq it, ?_, _, a3, ?_, ?_⟩
  · rw [a4]
    simp [InvokeEvent]
  · exact renumber_map_self _ 0
  · intro i x hx
    rw [renumber_get?] at hx
    cases hl : (xs.take (pruneRange s treePosition p xs).1
        ++ xs.drop (pruneRange s treePosition p xs).2).get? i with
    | none => rw [hl] at hx; cases hx
    | some y =>
      rw [hl] at hx
      simp only [Option.map_some', Option.some.injEq, Nat.zero_add] at hx
      subst hx
      exact Item.GetIndex_setIndex i y

/-- Instance on `flatRangeEngine` (flat hierarchy, root list with the
items of 12, 13 and 11): the prune notification for node 12, whose sub-tree
has the two matching nodes 12 and 13, sends the remove-children event for the
root list, erases the two-item range and announces the surviving item 3 with
index 0. -/
theorem TreePrune_notifications_witness :
    flatRangeEngine.m_Filter ≠ FilterFunctionPointer.null
    ∧ (TreeNode.mk 12 [TreeNode.mk 13 []]).preOrder.filter flatRangeEngine.filterFun = [12, 13]
    ∧ pruneRange flatRangeEngine (TreeNode.mk 12 [TreeNode.mk 13 []]) 1
        flatRangeEngine.m_Items = (0, 2)
    ∧ (∃ s2, TreePrune { kind := TreeEventKind.TreePruneEvent, position := [0] } flatRangeEngine
          = some s2
      ∧ TreePrune { kind := TreeEventKind.TreePruneEvent, position := [0] } flatRangeEngine
          = (eraseRange (siblingList (Item.mk 1 0 0 [] 12 false))
                (pruneRange flatRangeEngine (TreeNode.mk 12 [TreeNode.mk 13 []]) 1
                  flatRangeEngine.m_Items).1
                (pruneRange flatRangeEngine (TreeNode.mk 12 [TreeNode.mk 13 []]) 1
                  flatRangeEngine.m_Items).2
                (InvokeEvent
                  (Event.TreeFilterRemoveChildrenEvent (Item.mk 1 0 0 [] 12 false).m_Parent)
                  flatRangeEngine)).bind
              (renumberAndAnnounce (siblingList (Item.mk 1 0 0 [] 12 false)))
      ∧ siblingList (Item.mk 1 0 0 [] 12 false)
          = (if (Item.mk 1 0 0 [] 12 false).m_Parent = 0 then ItemListPtr.items
             else ItemListPtr.childrenOf (Item.mk 1 0 0 [] 12 false).m_Parent)
      ∧ s2.events
          = flatRangeEngine.events
              ++ Event.TreeFilterRemoveChildrenEvent (Item.mk 1 0 0 [] 12 false).m_Parent
              :: (flatRangeEngine.m_Items.take
                    (pruneRange flatRangeEngine (TreeNode.mk 12 [TreeNode.mk 13 []]) 1
                      flatRangeEngine.m_Items).1
                    ++ flatRangeEngine.m_Items.drop
                        (pruneRange flatRangeEngine (TreeNode.mk 12 [TreeNode.mk 13 []]) 1
                          flatRangeEngine.m_Items).2).map
                  (fun x => Event.TreeFilterItemAddedEvent x.self)
      ∧ ∃ survivors,
          (siblingList (Item.mk 1 0 0 [] 12 false)).getIn s2.m_Items = some survivors
          ∧ survivors.map Item.self
              = (flatRangeEngine.m_Items.take
                    (pruneRange flatRangeEngine (TreeNode.mk 12 [TreeNode.mk 13 []]) 1
                      flatRangeEngine.m_Items).1
                  ++ flatRangeEngine.m_Items.drop
                      (pruneRange flatRangeEngine (TreeNode.mk 12 [TreeNode.mk 13 []]) 1
                        flatRangeEngine.m_Items).2).map Item.self
          ∧ ∀ (i : Nat) (x : Item), survivors.get? i = some x → x.GetIndex = i)
    ∧ (TreePrune { kind := TreeEventKind.TreePruneEvent, position := [0] } flatRangeEngine).map
        (fun s2 => (s2.events, s2.m_Items.map (fun x => (x.self, x.GetIndex, x.m_Node))))
        = some ([Event.TreeFilterRemoveChildrenEvent 0, Event.TreeFilterItemAddedEvent 3],
                [(3, 0, 11)]) :=
  ⟨by decide, by decide, by decide,
   TreePrune_notifications flatRangeEngine
     { kind := TreeEventKind.TreePruneEvent, position := [0] }
     (TreeNode.mk 10 [TreeNode.mk 12 [TreeNode.mk 13 []], TreeNode.mk 11 []])
     (TreeNode.mk 12 [TreeNode.mk 13 []]) 12 [13] 1 (Item.mk 1 0 0 [] 12 false)
     flatRangeEngine.m_Items (by decide) rfl rfl (by decide) rfl rfl rfl (by decide),
   by decide!⟩

theorem findIdx_append_of_none {α : Type} (q : α → Bool) :
    ∀ (a b : List α), (∀ x ∈ a, q x = false) → (a ++ b).findIdx q = a.length + b.findIdx q
  | [], b, _ => by simp
  | x :: a, b, h => by
    have hx : q x = false := h x (List.mem_cons_self _ _)
    have ih := findIdx_append_of_none q a b (fun y hy => h y (List.mem_cons_of_mem _ hy))
    simp only [List.cons_append, List.findIdx_cons, hx, cond_false, ih, List.length_cons]
    omega

/-- After the children of the item at position `k` have been inserted before
it, the item is found behind them. -/
theorem findPosition_splice (p : ItemPtr) (xs ch : List Item)
    (hk : findPosition p xs < xs.length) (hd : ∀ c ∈ ch, c.self ≠ p) :
    findPosition p (xs.take (findPosition p xs) ++ ch ++ xs.drop (findPosition p xs))
      = findPosition p xs + ch.length := by
  unfold findPosition at hk ⊢
  have h1 : ∀ x ∈ xs.take (xs.findIdx (fun x : Item => x.self == p)) ++ ch,
      (fun x : Item => x.self == p) x = false := by
    intro x hx
    rcases List.mem_append.1 hx with h | h
    · obtain ⟨i, hi, rfl⟩ := List.mem_iff_getElem.1 h
      have hi2 : i < xs.findIdx (fun x : Item => x.self == p) := by
        rw [List.length_take] at hi
        omega
      have := List.not_of_lt_findIdx hi2
      rw [List.getElem_take]
      simpa using this
    · simpa using hd x h
  have h2 : (xs.drop (xs.findIdx (fun x : Item => x.self == p))).findIdx
      (fun x : Item => x.self == p) = 0 := by
    rw [List.drop_eq_getElem_cons hk, List.findIdx_cons]
    have := List.findIdx_getElem (w := hk)
    simp only at this
    rw [this]
    rfl
  rw [findIdx_append_of_none _ _ _ h1, h2, List.length_append, List.length_take]
  omega

theorem splice_erase (xs ch : List Item) (k : Nat) (hk : k < xs.length) :
    (xs.take k ++ ch ++ xs.drop k).take (k + ch.length)
        ++ (xs.take k ++ ch ++ xs.drop k).drop (k + ch.length + 1)
      = xs.take k ++ ch ++ xs.drop (k + 1) := by
  have hl : (xs.take k ++ ch).length = k + ch.length := by
    rw [List.length_append, List.length_take]
    omega
  rw [← hl, List.take_left, ← List.drop_drop, List.drop_left, List.drop_drop]

/-- C17: let a `TreeRemoveEvent` arrive for a valid tree position. If the
node there does not pass the filter, `TreeRemove` returns the state it was
called on (nothing changes, no event). If it passes, its item `p` is
registered and live (`it`), sits at position `k` of its sibling list `xs`,
and its children are other objects than the item itself, then `TreeRemove`
succeeds and the forest afterwards is the forest before with that one list
replaced by: the elements of `xs` before position `k`, then the children of
the item in their order, then the elements of `xs` after position `k`,
renumbered from 0; the element at position `k` of `xs`, which is the item at
`p`, is left out. -/
theorem TreeRemove_splices (s : DataTreeFilter) (e : TreeEvent)
    (root treePosition : TreeNode) (hit : Bool)
    (hkind : e.kind = TreeEventKind.TreeRemoveEvent)
    (htree : s.m_DataTree = some root)
    (hpos : root.subtree e.position = some treePosition)
    (hmatch : s.callFilter treePosition.Get = some hit) :
    (hit = false → TreeRemove e s = some s)
    ∧ (hit = true → ∀ (p : ItemPtr) (it : Item) (xs : List Item),
        mapFind treePosition.Get s.m_Item = some p → s.deref p = some it →
        (siblingList it).getIn s.m_Items = some xs →
        findPosition p xs < xs.length →
        (∀ c ∈ it.m_Children, c.self ≠ p) →
        ∃ s2 x, TreeRemove e s = some s2
          ∧ xs.get? (findPosition p xs) = some x ∧ x.self = p
          ∧ (siblingList it).setIn
                (renumber 0 (xs.take (findPosition p xs) ++ it.m_Children
                  ++ xs.drop (findPosition p xs + 1)))
                s.m_Items = some s2.m_Items
          ∧ (siblingList it).getIn s2.m_Items
              = some (renumber 0 (xs.take (findPosition p xs) ++ it.m_Children
                  ++ xs.drop (findPosition p xs + 1)))) := by
  have hs : ({ s with m_Item := s.m_Item } : DataTreeFilter) = s := rfl
  have hunfold : TreeRemove e s
      = match s.callFilter treePosition.Get with
        | none => none
        | some false => some s
        | some true =>
          match ({ s with m_Item := (mapIndex treePosition.Get s.m_Item).2 } :
                   DataTreeFilter).deref (mapIndex treePosition.Get s.m_Item).1 with
          | none => none
          | some it =>
            match (siblingList it).get
                    { s with m_Item := (mapIndex treePosition.Get s.m_Item).2 } with
            | none => none
            | some xs =>
              match (siblingList it).set
                      (if it.m_Children.length > 0 then
                         xs.take (findPosition (mapIndex treePosition.Get s.m_Item).1 xs)
                           ++ it.m_Children
                           ++ xs.drop (findPosition (mapIndex treePosition.Get s.m_Item).1 xs)
                       else xs)
                      { s with m_Item := (mapIndex treePosition.Get s.m_Item).2 } with
              | none => none
              | some s1 =>
                match (siblingList it).get s1 with
                | none => none
                | some ys =>
                  if findPosition (mapIndex treePosition.Get s.m_Item).1 ys < ys.length then
                    match eraseRange (siblingList it)
                            (findPosition (mapIndex treePosition.Get s.m_Item).1 ys)
                            (findPosition (mapIndex treePosition.Get s.m_Item).1 ys + 1)
                            (InvokeEvent (Event.TreeFilterRemoveChildrenEvent it.m_Parent) s1) with
                    | none => none
                    | some s2 => renumberAndAnnounce (siblingList it) s2
                  else none := by
    unfold TreeRemove
    rw [if_neg (by simp [hkind])]
    split
    · rename_i h; rw [htree] at h; cases h
    rename_i root2 h
    rw [htree] at h
    cases h
    split
    · rename_i h; rw [hpos] at h; cases h
    rename_i tp2 h
    rw [hpos] at h
    cases h
    rfl
  rw [hunfold, hmatch]
  refine ⟨?_, ?_⟩
  · intro hb
    subst hb
    rfl
  · intro hb p it xs hreg hlive hlist hk hd
    subst hb
    have hL : (if it.m_Children.length > 0 then
                 xs.take (findPosition p xs) ++ it.m_Children ++ xs.drop (findPosition p xs)
               else xs)
        = xs.take (findPosition p xs) ++ it.m_Children ++ xs.drop (findPosition p xs) := by
      split_ifs with hc
      · rfl
      · have : it.m_Children = [] := List.eq_nil_of_length_eq_zero (by omega)
        simp [this]
    obtain ⟨f1, e1, e2, e3, _⟩ := ItemListPtr.setIn_of_getIn
      (xs.take (findPosition p xs) ++ it.m_Children ++ xs.drop (findPosition p xs)) hlist
    have hfp := findPosition_splice p xs it.m_Children hk hd
    have hlen : findPosition p xs + it.m_Children.length
        < (xs.take (findPosition p xs) ++ it.m_Children ++ xs.drop (findPosition p xs)).length := by
      simp only [List.length_append, List.length_take, List.length_drop]
      omega
    have e2b : (siblingList it).getIn
        (InvokeEvent (Event.TreeFilterRemoveChildrenEvent it.m_Parent)
          { s with m_Items := f1 }).m_Items
        = some (xs.take (findPosition p xs) ++ it.m_Children ++ xs.drop (findPosition p xs)) := e2
    obtain ⟨s3, a1, a2, a3, _⟩ :=
      erase_renumber_run (findPosition p xs + it.m_Children.length)
        (findPosition p xs + it.m_Children.length + 1) e2b (Nat.le_succ _) hlen
    rw [splice_erase xs it.m_Children (findPosition p xs) hk] at a2 a3
    obtain ⟨x, x1, x2⟩ := findPosition_get? p xs hk
    refine ⟨s3, x, ?_, x1, x2, ?_, a3⟩
    · simp only [mapIndex_of_find hreg, hs, hlive, ItemListPtr.get, hlist, hL,
        ItemListPtr.set, e1, e2, hfp, hlen, if_true]
      rw [← a1]
      cases eraseRange (siblingList it) (findPosition p xs + it.m_Children.length)
        (findPosition p xs + it.m_Children.length + 1)
        (InvokeEvent (Event.TreeFilterRemoveChildrenEvent it.m_Parent)
          { s with m_Items := f1 }) <;> rfl
    · rw [← e3]
      exact a2

/-- Witness for C17. On `removeEngine` the remove notification for node 14
(item 3, at position 1 of the children of item 1, with the one child 4)
leaves the children of item 1 as the items 2 and 4, with indices 0 and 1. On
`scenarioEngine` the remove notification for node 12, which the filter
rejects, returns the state unchanged. -/
theorem TreeRemove_splices_witness :
    removeEngine.callFilter 14 = some true
    ∧ (∃ s2 x, TreeRemove { kind := TreeEventKind.TreeRemoveEvent, position := [1] } removeEngine
          = some s2
      ∧ [Item.mk 2 0 1 [] 11 false, Item.mk 3 1 1 [Item.mk 4 0 3 [] 13 false] 14 false].get?
            (findPosition 3
              [Item.mk 2 0 1 [] 11 false, Item.mk 3 1 1 [Item.mk 4 0 3 [] 13 false] 14 false])
          = some x
      ∧ x.self = 3
      ∧ (siblingList (Item.mk 3 1 1 [Item.mk 4 0 3 [] 13 false] 14 false)).setIn
            (renumber 0
              ([Item.mk 2 0 1 [] 11 false,
                Item.mk 3 1 1 [Item.mk 4 0 3 [] 13 false] 14 false].take
                  (findPosition 3
                    [Item.mk 2 0 1 [] 11 false,
                     Item.mk 3 1 1 [Item.mk 4 0 3 [] 13 false] 14 false])
               ++ (Item.mk 3 1 1 [Item.mk 4 0 3 [] 13 false] 14 false).m_Children
               ++ [Item.mk 2 0 1 [] 11 false,
                   Item.mk 3 1 1 [Item.mk 4 0 3 [] 13 false] 14 false].drop
                  (findPosition 3
                    [Item.mk 2 0 1 [] 11 false,
                     Item.mk 3 1 1 [Item.mk 4 0 3 [] 13 false] 14 false] + 1)))
            removeEngine.m_Items = some s2.m_Items
      ∧ (siblingList (Item.mk 3 1 1 [Item.mk 4 0 3 [] 13 false] 14 false)).getIn s2.m_Items
          = some (renumber 0
              ([Item.mk 2 0 1 [] 11 false,
                Item.mk 3 1 1 [Item.mk 4 0 3 [] 13 false] 14 false].take
                  (findPosition 3
                    [Item.mk 2 0 1 [] 11 false,
                     Item.mk 3 1 1 [Item.mk 4 0 3 [] 13 false] 14 false])
               ++ (Item.mk 3 1 1 [Item.mk 4 0 3 [] 13 false] 14 false).m_Children
               ++ [Item.mk 2 0 1 [] 11 false,
                   Item.mk 3 1 1 [Item.mk 4 0 3 [] 13 false] 14 false].drop
                  (findPosition 3
                    [Item.mk 2 0 1 [] 11 false,
                     Item.mk 3 1 1 [Item.mk 4 0 3 [] 13 false] 14 false] + 1))))
    ∧ (TreeRemove { kind := TreeEventKind.TreeRemoveEvent, position := [1] } removeEngine).map
        (fun s2 => flattenItems s2.m_Items |>.map (fun x => (x.self, x.GetIndex, x.m_Node)))
        = some [(1, 0, 20), (2, 0, 11), (4, 1, 13)]
    ∧ (scenarioEngine HierarchyHandling.PRESERVE_HIERARCHY).callFilter 12 = some false
    ∧ TreeRemove { kind := TreeEventKind.TreeRemoveEvent, position := [1] }
          (scenarioEngine HierarchyHandling.PRESERVE_HIERARCHY)
        = some (scenarioEngine HierarchyHandling.PRESERVE_HIERARCHY) :=
  ⟨rfl,
   (TreeRemove_splices removeEngine
     { kind := TreeEventKind.TreeRemoveEvent, position := [1] }
     (TreeNode.mk 20 [TreeNode.mk 11 [], TreeNode.mk 14 [TreeNode.mk 13 []]])
     (TreeNode.mk 14 [TreeNode.mk 13 []]) true rfl rfl rfl rfl).2 rfl 3
     (Item.mk 3 1 1 [Item.mk 4 0 3 [] 13 false] 14 false)
     [Item.mk 2 0 1 [] 11 false, Item.mk 3 1 1 [Item.mk 4 0 3 [] 13 false] 14 false]
     rfl rfl rfl (by decide) (by decide),
   by decide!,
   rfl,
   (TreeRemove_splices (scenarioEngine HierarchyHandling.PRESERVE_HIERARCHY)
     { kind := TreeEventKind.TreeRemoveEvent, position := [1] }
     scenarioTree (TreeNode.mk 12 [TreeNode.mk 13 []]) false rfl rfl rfl rfl).1 rfl⟩

/-! ## Notifications of the recursive walk -/

theorem ItemListPtr.set_frame {l : ItemListPtr} {ys : List Item} {s s2 : DataTreeFilter}
    (h : l.set ys s = some s2) : s2.events = s.events ∧ s2.nextItem = s.nextItem := by
  unfold ItemListPtr.set at h
  split at h
  · cases h
    exact ⟨rfl, rfl⟩
  · cases h

theorem release_nextItem (gone : List Item) (s : DataTreeFilter) :
    (release gone s).nextItem = s.nextItem := by
  rw [release_frame]

theorem CreateElementAt_frame {list : ItemListPtr} {id : Nat} {item : Item}
    {s s2 : DataTreeFilter} (h : CreateElementAt list id item s = some s2) :
    s2.events = s.events ∧ s2.nextItem = s.nextItem := by
  unfold CreateElementAt at h
  split at h
  · cases h
  · split_ifs at h
    · exact ItemListPtr.set_frame h
    · split at h
      · rename_i sa hs
        cases h
        rw [release_events_eq, release_nextItem]
        exact ItemListPtr.set_frame hs
      · cases h

theorem walkEvents_refl (verbose : Bool) (s : DataTreeFilter) : walkEvents verbose s s :=
  ⟨[], by simp, by simp, le_refl _, by simp⟩

theorem walkEvents_trans {verbose : Bool} {s s1 s2 : DataTreeFilter}
    (h1 : walkEvents verbose s s1) (h2 : walkEvents verbose s1 s2) : walkEvents verbose s s2 := by
  obtain ⟨e1, a1, a2, a3, a4⟩ := h1
  obtain ⟨e2, b1, b2, b3, b4⟩ := h2
  refine ⟨e1 ++ e2, by rw [b1, a1, List.append_assoc], ?_, le_trans a3 b3, ?_⟩
  · intro ev hev
    rcases List.mem_append.1 hev with h | h
    · exact a2 ev h
    · exact b2 ev h
  · rw [List.length_append, a4, b4]
    split_ifs
    · omega
    · rfl

theorem AddMatchingChildrenLoop_events :
    ∀ (cs : List TreeNode) (list : ItemListPtr) (parent : ItemPtr) (verbose : Bool)
      (s s2 : DataTreeFilter),
      AddMatchingChildrenLoop cs list parent verbose s = some s2 → walkEvents verbose s s2
  | [], list, parent, verbose, s, s2 => by
    intro h
    rw [AddMatchingChildrenLoop] at h
    cases h
    exact walkEvents_refl verbose s
  | child :: rest, list, parent, verbose, s, s2 => by
    intro h
    have ihc := AddMatchingChildrenLoop_events child.children
    have ihr := AddMatchingChildrenLoop_events rest
    rw [AddMatchingChildrenLoop] at h
    cases hf : s.callFilter child.Get with
    | none => simp [hf] at h
    | some b =>
      cases b with
      | false =>
        simp only [hf] at h
        cases h1 : AddMatchingChildren child list parent verbose s with
        | none => simp [h1] at h
        | some s1 =>
          simp only [h1] at h
          rw [AddMatchingChildren_eq_loop] at h1
          exact walkEvents_trans (ihc list parent verbose s s1 h1) (ihr list parent verbose s1 s2 h)
      | true =>
        simp only [hf] at h
        cases hsz : list.Size s with
        | none => simp [hsz] at h
        | some newIndex =>
          simp only [hsz] at h
          cases hce : CreateElementAt list newIndex (Item.New child.Get newIndex parent s).1
              (Item.New child.Get newIndex parent s).2 with
          | none => simp [hce] at h
          | some sa =>
            simp only [hce] at h
            obtain ⟨fa1, fa2⟩ := CreateElementAt_frame hce
            have fa3 : sa.events = s.events := fa1
            have fa4 : sa.nextItem = s.nextItem + 1 := fa2
            split at h
            · cases h
            · rename_i sb hv
              have hb : walkEvents verbose s sb := by
                split at hv
                · rename_i hverb
                  split at hv
                  · rename_i el _
                    cases hv
                    refine ⟨[Event.TreeFilterItemAddedEvent el.self], ?_, ?_, ?_, ?_⟩
                    · simp [InvokeEvent, fa3]
                    · intro ev hev
                      exact ⟨el.self, by simpa using hev⟩
                    · show s.nextItem ≤ sa.nextItem
                      omega
                    · show 1 = if verbose = true then sa.nextItem - s.nextItem else 0
                      rw [if_pos hverb, fa4]
                      omega
                  · cases hv
                · rename_i hverb
                  cases hv
                  refine ⟨[], by simp [fa3], by simp, by omega, ?_⟩
                  rw [if_neg hverb]
                  rfl
              split at h
              · cases h
              · rename_i sc hr
                have hc : walkEvents verbose sb sc := by
                  split at hr
                  · split at hr
                    · rw [AddMatchingChildren_eq_loop] at hr
                      exact ihc _ _ verbose sb sc hr
                    · cases hr
                  · rw [AddMatchingChildren_eq_loop] at hr
                    exact ihc _ _ verbose sb sc hr
                exact walkEvents_trans (walkEvents_trans hb hc) (ihr list parent verbose sc s2 h)
termination_by cs => sizeOf cs
decreasing_by
  all_goals simp_wf
  all_goals cases child
  all_goals simp [TreeNode.children]
  all_goals omega

/-! ## Evaluations of the code at failing inputs -/

/-- C13 (the code at the failing input): on the constructed and regenerated
engine nothing is selected and `m_LastSelectedItem` is null; after
`SetSelected(true)` on the item 3 the item is selected and in the selection
set, but `m_LastSelectedItem` is still null. -/
theorem first_selection_leaves_last_null :
    regeneratedEngine.map
        (fun s => (s.m_SelectedItems, s.m_LastSelectedItem, (s.deref 3).map Item.IsSelected))
      = some ([], 0, some false)
    ∧ (regeneratedEngine.bind (Item.SetSelected 3 true)).map
        (fun s => (s.m_SelectedItems, s.m_LastSelectedItem, (s.deref 3).map Item.IsSelected))
      = some ([3], 0, some true) := by
  decide!

/-- C14 (the code at the failing input): in the flat hierarchy with the root
list A, B (items 6 and 7 of the nodes 11 and 12, registry consistent), the
prune notification for B erases the item of A and keeps the item of B. -/
theorem flatten_prune_erases_from_begin :
    flatPruneEngine.map
        (fun s => (s.m_HierarchyHandling, s.m_Items.map (fun x => (x.self, x.m_Node)),
                   registryConsistent s, contiguousFrom 0 s.m_Items))
      = some (HierarchyHandling.FLATTEN_HIERARCHY, [(6, 11), (7, 12)], true, true)
    ∧ (flatPruneEngine.bind
          (TreePrune { kind := TreeEventKind.TreePruneEvent, position := [1] })).map
        (fun s => s.m_Items.map (fun x => (x.self, x.m_Node)))
      = some [(7, 12)] := by
  decide!

/-- C18 (the code at the failing input): the root item 4 (node 11) holds the
item 5 (node 12); after the remove notification for node 11 the item 5 is in
the root list, but its parent back-reference is still 4, the address of the
destroyed item, and `IsRoot` is false. -/
theorem promoted_child_keeps_parent :
    promoteEngine.map
        (fun s => (flattenItems s.m_Items).map
          (fun x => (x.self, x.m_Node, x.GetParent, x.IsRoot)))
      = some [(4, 11, 0, true), (5, 12, 4, false)]
    ∧ (promoteEngine.bind
          (TreeRemove { kind := TreeEventKind.TreeRemoveEvent, position := [0] })).map
        (fun s => (s.m_Items.map (fun x => (x.self, x.m_Node, x.GetParent, x.IsRoot)),
                   (s.deref 4).isSome))
      = some ([(5, 12, 4, false)], false) := by
  decide!

/-- C19 (the code at the failing input): on the regenerated engine of
`twoNodeTree` (item 3 of node 1 holding item 4 of node 2), after node 3 has
been added below the root, `TreeAdd` has no defined result: the partial
rebuild reads `m_Items->ElementAt(1)` in a root list of one element. The same
rebuild without the notifications completes with the structure that
regeneration builds on the new tree. -/
theorem TreeAdd_partial_rebuild_undefined :
    regeneratedEngine.map
        (fun s => (s.m_HierarchyHandling,
                   (flattenItems s.m_Items).map (fun x => (x.m_Node, x.GetIndex, x.GetParent))))
      = some (HierarchyHandling.PRESERVE_HIERARCHY, [(1, 0, 0), (2, 0, 3)])
    ∧ (regeneratedEngine.bind
          (fun s => TreeAdd { kind := TreeEventKind.TreeAddEvent, position := [1] }
                      { s with m_DataTree := some grownTree })).isSome = false
    ∧ (regeneratedEngine.bind
          (fun s => (clear (ItemListPtr.childrenOf 3)
                      (InvokeEvent (Event.TreeFilterRemoveChildrenEvent 3)
                        { s with m_DataTree := some grownTree })).bind
                    (fun s1 => (AddMatchingChildren grownTree (ItemListPtr.childrenOf 3) 3 false
                                  s1).map
                      (fun s2 => ((ItemListPtr.items.ElementAt 1 s1).isSome,
                        (flattenItems s2.m_Items).map
                          (fun x => (x.m_Node, x.GetIndex, x.GetParent)))))))
      = some (false, [(1, 0, 0), (2, 0, 3), (3, 1, 3)])
    ∧ (regeneratedEngine.bind
          (fun s => GenerateModelFromTree { s with m_DataTree := some grownTree })).map
        (fun s => (flattenItems s.m_Items).map (fun x => (x.m_Node, x.GetIndex, x.GetParent)))
      = some [(1, 0, 0), (2, 0, 5), (3, 1, 5)] := by
  decide!

/-- C20 (counterexample): regeneration on `removeEngine` builds a forest of
four items (addresses 5 to 8) and sends one `TreeFilterItemAddedEvent` only,
for the root item 5. -/
theorem regeneration_announces_root_only :
    (GenerateModelFromTree removeEngine).map
        (fun s => (s.events, (flattenItems s.m_Items).map Item.self))
      = some ([Event.TreeFilterRemoveAllEvent, Event.TreeFilterItemAddedEvent 5,
               Event.TreeFilterUpdateAllEvent], [5, 6, 7, 8]) := by
  decide!

theorem buildTree_head (mode : HierarchyHandling) (f : NodePtr → Bool) (root : TreeNode)
    (next : Nat) (h : f root.Get = true) :
    (buildTree mode f (some root) next).1.head?.map (fun x => (x.self, x.m_Node))
      = some (next + 1, root.Get) := by
  cases mode with
  | PRESERVE_HIERARCHY =>
    simp only [buildTree, buildLoop_cons_preserve f root [] 0 0 next h]
    rfl
  | FLATTEN_HIERARCHY =>
    simp only [buildTree, buildLoop_cons_flatten f root [] 0 0 next h]
    rfl

/-- C20 (amended): a full regeneration with a callable filter succeeds and
sends `TreeFilterRemoveAllEvent` first, then one `TreeFilterItemAddedEvent`
if and only if the root node of the tree passes the filter (it carries the
item created for the root node, the head of the new root list) and none for
the other items, then `TreeFilterUpdateAllEvent` last. Whenever the recursive
walk completes, the events it has sent are `TreeFilterItemAddedEvent`s only,
exactly as many as items it has created when it runs with `verbose` set (as
in the partial rebuild of `TreeAdd`), and none when it runs without (as in
regeneration). -/
theorem walk_notifications (s : DataTreeFilter)
    (hfilter : s.m_Filter ≠ FilterFunctionPointer.null)
    (t : TreeNode) (list : ItemListPtr) (parent : ItemPtr) (verbose : Bool)
    (sA sB : DataTreeFilter)
    (hwalk : AddMatchingChildren t list parent verbose sA = some sB) :
    (∃ s2, GenerateModelFromTree s = some s2
      ∧ s2.events = s.events ++ [Event.TreeFilterRemoveAllEvent]
          ++ (match s.m_DataTree with
              | some root =>
                if s.filterFun root.Get = true then
                  [Event.TreeFilterItemAddedEvent (s.nextItem + 1)]
                else []
              | none => [])
          ++ [Event.TreeFilterUpdateAllEvent]
      ∧ ∀ root, s.m_DataTree = some root → s.filterFun root.Get = true →
          s2.m_Items.head?.map (fun x => (x.self, x.m_Node)) = some (s.nextItem + 1, root.Get))
    ∧ ∃ evs, sB.events = sA.events ++ evs
        ∧ (∀ ev ∈ evs, ∃ a, ev = Event.TreeFilterItemAddedEvent a)
        ∧ sA.nextItem ≤ sB.nextItem
        ∧ evs.length = if verbose = true then sB.nextItem - sA.nextItem else 0 := by
  refine ⟨⟨_, GenerateModelFromTree_eq s s.filterFun (callFilter_eq_filterFun s hfilter),
    ?_, ?_⟩, ?_⟩
  · simp only [rootEvents]
    cases s.m_DataTree <;> rfl
  · intro root hroot hmatch
    simp only [hroot]
    exact buildTree_head s.m_HierarchyHandling s.filterFun root s.nextItem hmatch
  · rw [AddMatchingChildren_eq_loop] at hwalk
    exact AddMatchingChildrenLoop_events t.children list parent verbose sA sB hwalk

theorem addEngine_walk_runs :
    (AddMatchingChildren (TreeNode.mk 14 [TreeNode.mk 13 []]) (ItemListPtr.childrenOf 3) 3 true
      addEngine).isSome = true := by
  decide!

/-- Witness for C20 (amended). Regeneration on `removeEngine` sends the three
events with the root item 5 in the middle one. The walk with notifications
below node 14 on `addEngine` creates one item (address 4, for node 13) and
sends one `TreeFilterItemAddedEvent`. -/
theorem walk_notifications_witness :
    removeEngine.m_Filter ≠ FilterFunctionPointer.null
    ∧ (∃ sB,
        AddMatchingChildren (TreeNode.mk 14 [TreeNode.mk 13 []]) (ItemListPtr.childrenOf 3) 3
            true addEngine = some sB
        ∧ (∃ s2, GenerateModelFromTree removeEngine = some s2
            ∧ s2.events = removeEngine.events ++ [Event.TreeFilterRemoveAllEvent]
                ++ (match removeEngine.m_DataTree with
                    | some root =>
                      if removeEngine.filterFun root.Get = true then
                        [Event.TreeFilterItemAddedEvent (removeEngine.nextItem + 1)]
                      else []
                    | none => [])
                ++ [Event.TreeFilterUpdateAllEvent]
            ∧ ∀ root, removeEngine.m_DataTree = some root →
                removeEngine.filterFun root.Get = true →
                s2.m_Items.head?.map (fun x => (x.self, x.m_Node))
                  = some (removeEngine.nextItem + 1, root.Get))
        ∧ ∃ evs, sB.events = addEngine.events ++ evs
            ∧ (∀ ev ∈ evs, ∃ a, ev = Event.TreeFilterItemAddedEvent a)
            ∧ addEngine.nextItem ≤ sB.nextItem
            ∧ evs.length = if true = true then sB.nextItem - addEngine.nextItem else 0)
    ∧ (AddMatchingChildren (TreeNode.mk 14 [TreeNode.mk 13 []]) (ItemListPtr.childrenOf 3) 3
          true addEngine).map
        (fun sB => (sB.events.length, sB.nextItem - addEngine.nextItem,
                    (flattenItems sB.m_Items).map Item.self))
      = some (1, 1, [1, 2, 3, 4]) :=
  ⟨by decide,
   ⟨_, (Option.some_get addEngine_walk_runs).symm,
    walk_notifications removeEngine (by decide) (TreeNode.mk 14 [TreeNode.mk 13 []])
      (ItemListPtr.childrenOf 3) 3 true addEngine _
      (Option.some_get addEngine_walk_runs).symm⟩,
   by decide!⟩

/-! ## What destruction leaves in the selection set and in the registry -/

theorem release_fold_selected (keep : Item → Bool) (a : ItemPtr) :
    ∀ (l : List Item) (acc : DataTreeFilter),
      a ∈ (l.foldl (fun acc it => if keep it then acc else destroyItem it acc)
            acc).m_SelectedItems
        ↔ a ∈ acc.m_SelectedItems ∧ ∀ it ∈ l, keep it = true ∨ it.self ≠ a
  | [], acc => by simp
  | x :: xs, acc => by
    simp only [List.foldl_cons]
    rw [release_fold_selected keep a xs]
    by_cases hk : keep x = true
    · simp [hk]
    · simp only [hk, if_false, destroyItem, setErase, List.mem_filter, bne_iff_ne, ne_eq,
        List.mem_cons, forall_eq_or_imp, false_or, Bool.false_eq_true]
      constructor
      · rintro ⟨⟨h1, h2⟩, h3⟩
        exact ⟨h1, fun h => h2 h.symm, h3⟩
      · rintro ⟨h1, h2, h3⟩
        exact ⟨⟨h1, fun h => h2 h.symm⟩, h3⟩

theorem release_fold_registry (keep : Item → Bool) (e : NodePtr × ItemPtr) :
    ∀ (l : List Item) (acc : DataTreeFilter),
      e ∈ (l.foldl (fun acc it => if keep it then acc else destroyItem it acc) acc).m_Item
        ↔ e ∈ acc.m_Item ∧ ∀ it ∈ l, keep it = true ∨ it.m_Node ≠ e.1
  | [], acc => by simp
  | x :: xs, acc => by
    simp only [List.foldl_cons]
    rw [release_fold_registry keep e xs]
    by_cases hk : keep x = true
    · simp [hk]
    · simp only [hk, if_false, destroyItem, mapErase, List.mem_filter, bne_iff_ne, ne_eq,
        List.mem_cons, forall_eq_or_imp, false_or, Bool.false_eq_true]
      constructor
      · rintro ⟨⟨h1, h2⟩, h3⟩
        exact ⟨h1, fun h => h2 h.symm, h3⟩
      · rintro ⟨h1, h2, h3⟩
        exact ⟨⟨h1, fun h => h2 h.symm⟩, h3⟩

/-- After `release`, the selection set holds what it held before, except the
addresses of the items that left and are in no list any more. -/
theorem release_selected (gone : List Item) (s : DataTreeFilter) (a : ItemPtr) :
    a ∈ (release gone s).m_SelectedItems
      ↔ a ∈ s.m_SelectedItems
        ∧ ∀ it ∈ flattenItems gone, (findItem it.self s.m_Items).isSome = true ∨ it.self ≠ a := by
  unfold release
  exact release_fold_selected (fun it => (findItem it.self s.m_Items).isSome) a _ s

/-- After `release`, the registry holds what it held before, except the
entries of the nodes of the items that left and are in no list any more. -/
theorem release_registry (gone : List Item) (s : DataTreeFilter) (e : NodePtr × ItemPtr) :
    e ∈ (release gone s).m_Item
      ↔ e ∈ s.m_Item
        ∧ ∀ it ∈ flattenItems gone,
            (findItem it.self s.m_Items).isSome = true ∨ it.m_Node ≠ e.1 := by
  unfold release
  exact release_fold_registry (fun it => (findItem it.self s.m_Items).isSome) e _ s

theorem mapAssign_keys (k : NodePtr) (v : ItemPtr) (m : List (NodePtr × ItemPtr))
    (e : NodePtr × ItemPtr) (h : e ∈ mapAssign k v m) : e ∈ m ∨ e.1 = k := by
  simp only [mapAssign, mapErase, List.mem_append, List.mem_filter, List.mem_singleton] at h
  rcases h with h | h
  · exact Or.inl h.1
  · exact Or.inr (by rw [h])

theorem registerAll_keys (e : NodePtr × ItemPtr) :
    ∀ (items : List Item) (m : List (NodePtr × ItemPtr)),
      e ∈ registerAll items m → e ∈ m ∨ ∃ it ∈ items, it.m_Node = e.1
  | [], m, h => Or.inl h
  | x :: xs, m, h => by
    rw [registerAll_cons] at h
    rcases registerAll_keys e xs _ h with h1 | ⟨it, h1, h2⟩
    · rcases mapAssign_keys _ _ _ _ h1 with h3 | h3
      · exact Or.inl h3
      · exact Or.inr ⟨x, List.mem_cons_self _ _, h3.symm⟩
    · exact Or.inr ⟨it, List.mem_cons_of_mem _ h1, h2⟩

theorem regenerate_then_discard (s0 : DataTreeFilter)
    (hfilter : s0.m_Filter ≠ FilterFunctionPointer.null)
    (h1 : s0.m_Items = []) (h2 : s0.m_Item = []) (h3 : s0.m_SelectedItems = []) :
    ∃ s2, GenerateModelFromTree s0 = some s2
      ∧ (release s2.m_Items { s2 with m_Items := [] }).m_Items = []
      ∧ (release s2.m_Items { s2 with m_Items := [] }).m_Item = []
      ∧ (release s2.m_Items { s2 with m_Items := [] }).m_SelectedItems = [] := by
  refine ⟨_, GenerateModelFromTree_eq s0 s0.filterFun (callFilter_eq_filterFun s0 hfilter),
    ?_, ?_, ?_⟩
  · rw [release_m_Items]
  · apply List.eq_nil_iff_forall_not_mem.2
    intro e he
    rw [release_registry] at he
    obtain ⟨h4, h5⟩ := he
    simp only [h1, h2, release, flattenItems, List.foldl_nil] at h4
    rcases registerAll_keys e _ _ h4 with h6 | ⟨it, h6, h7⟩
    · simp at h6
    · rcases h5 it h6 with h8 | h8
      · simp [findItem] at h8
      · exact h8 h7
  · apply List.eq_nil_iff_forall_not_mem.2
    intro a ha
    rw [release_selected] at ha
    simp [h1, h3, release, flattenItems] at ha

/-- C24: for every tree (empty or not) and every environment, the
constructor succeeds, and immediately afterwards the root item list is
empty, the registry has no entry and nothing is selected: the forest that
the constructor's `SetFilter` call generated is released when the
constructor installs the fresh empty list. -/
theorem New_discards_forest (datatree : Option TreeNode) (filterCode : Nat → NodePtr → Bool)
    (nodeProperties : List ((NodePtr × String) × PropPtr))
    (hasDefaultProperty : String → Bool) :
    ∃ s, New datatree filterCode nodeProperties hasDefaultProperty = some s
      ∧ s.GetItems = [] ∧ s.m_Item = [] ∧ s.GetSelectedItems = [] := by
  unfold New SetFilter
  simp only [reduceCtorEq, if_false, ne_eq, not_false_eq_true, if_true]
  obtain ⟨s2, e1, e2, e3, e4⟩ := regenerate_then_discard
    { m_Filter := FilterFunctionPointer.addrIsDataTreeNode,
      m_DataTree := datatree,
      m_HierarchyHandling := HierarchyHandling.PRESERVE_HIERARCHY,
      m_SelectionMode := SelectionMode.MULTI_SELECT,
      m_Renderer := 0,
      m_Items := [],
      m_Item := [],
      m_SelectedItems := [],
      m_LastSelectedItem := 0,
      m_PropertyLabels := [],
      m_VisibleProperties := [],
      m_EditableProperties := [],
      filterCode := filterCode,
      nodeProperties := nodeProperties,
      hasDefaultProperty := hasDefaultProperty,
      nextItem := 0,
      nextProperty := 0,
      events := [] } (by simp) rfl rfl rfl
  rw [e1]
  exact ⟨_, rfl, e2, e3, e4⟩

/-! ## The two hierarchy modes project the same nodes -/

@[simp] theorem flattenItems_nil : flattenItems [] = [] := by simp [flattenItems]

theorem flattenItems_cons (x : Item) (xs : List Item) :
    flattenItems (x :: xs) = x :: (flattenItems x.m_Children ++ flattenItems xs) := by
  cases x
  simp [flattenItems, Item.flatten, Item.m_Children]

/-- In the preserved hierarchy the items the walk appends, read in pre-order
with their children, are one item per matching node in pre-order. -/
theorem buildLoop_preserve_flatten (f : NodePtr → Bool) :
    ∀ (cs : List TreeNode) (parent index next : Nat),
      (flattenItems
          (buildLoop HierarchyHandling.PRESERVE_HIERARCHY f cs parent index next).1).map
        Item.m_Node
        = (preOrderList cs).filter f
  | [], parent, index, next => by simp
  | c :: rest, parent, index, next => by
    have hc := buildLoop_preserve_flatten f c.children
    cases hfc : f c.Get with
    | false =>
      rw [buildLoop_cons_skip _ f c rest parent index next hfc]
      have k1 := hc parent index next
      have m1 := buildLoop_preserve_flatten f rest parent
        (index + (buildChildren HierarchyHandling.PRESERVE_HIERARCHY f c parent index next).1.length)
        (buildChildren HierarchyHandling.PRESERVE_HIERARCHY f c parent index next).2
      rw [← buildChildren_eq] at k1
      simp [flattenItems_append, k1, m1, preOrder_eq, hfc, List.filter_cons]
    | true =>
      rw [buildLoop_cons_preserve f c rest parent index next hfc]
      have k1 := hc (next + 1) 0 (next + 1)
      have m1 := buildLoop_preserve_flatten f rest parent (index + 1)
        (buildChildren HierarchyHandling.PRESERVE_HIERARCHY f c (next + 1) 0 (next + 1)).2
      rw [← buildChildren_eq] at k1
      simp [flattenItems_cons, Item.m_Children, k1, m1, preOrder_eq, hfc, List.filter_cons,
        Item.m_Node]
termination_by cs => sizeOf cs
decreasing_by
  all_goals simp_wf
  all_goals cases c
  all_goals simp [TreeNode.children]
  all_goals omega

/-- C25: for every state with a callable filter (any tree, any filter, any
previous forest), regeneration succeeds in both hierarchy modes, and the
nodes of the forest generated in the preserved hierarchy, read in pre-order
(an item, then its children recursively), are the same sequence as the nodes
of the root list generated in the flat hierarchy; both are the matching nodes
of the tree in pre-order. -/
theorem modes_project_same_nodes (s : DataTreeFilter)
    (hfilter : s.m_Filter ≠ FilterFunctionPointer.null) :
    ∃ sP sF,
      GenerateModelFromTree
          { s with m_HierarchyHandling := HierarchyHandling.PRESERVE_HIERARCHY } = some sP
      ∧ GenerateModelFromTree
          { s with m_HierarchyHandling := HierarchyHandling.FLATTEN_HIERARCHY } = some sF
      ∧ (flattenItems sP.m_Items).map Item.m_Node = sF.m_Items.map Item.m_Node
      ∧ sF.m_Items.map Item.m_Node = matchingNodes s.filterFun s.m_DataTree := by
  have hP := GenerateModelFromTree_eq
    { s with m_HierarchyHandling := HierarchyHandling.PRESERVE_HIERARCHY } s.filterFun
    (callFilter_eq_filterFun s hfilter)
  have hF := GenerateModelFromTree_eq
    { s with m_HierarchyHandling := HierarchyHandling.FLATTEN_HIERARCHY } s.filterFun
    (callFilter_eq_filterFun s hfilter)
  refine ⟨_, _, hP, hF, ?_, ?_⟩
  · cases ht : s.m_DataTree with
    | none => simp [buildTree]
    | some root =>
      have h1 := buildLoop_preserve_flatten s.filterFun [root] 0 0 s.nextItem
      have h2 := (buildLoop_flatten s.filterFun [root] 0 0 s.nextItem).1
      simp only [buildTree]
      rw [h1, h2]
  · cases ht : s.m_DataTree with
    | none => simp [buildTree, matchingNodes]
    | some root =>
      have h2 := (buildLoop_flatten s.filterFun [root] 0 0 s.nextItem).1
      simpa [buildTree, matchingNodes] using h2

/-- Witness for C25 on the scenario tree (R with children A and B, C below
B; the filter accepts A and C): the preserved forest and the flat root list
both read A, C. -/
theorem modes_project_same_nodes_witness :
    (scenarioEngine HierarchyHandling.PRESERVE_HIERARCHY).m_Filter ≠ FilterFunctionPointer.null
    ∧ (∃ sP sF,
        GenerateModelFromTree
            { scenarioEngine HierarchyHandling.PRESERVE_HIERARCHY with
              m_HierarchyHandling := HierarchyHandling.PRESERVE_HIERARCHY } = some sP
        ∧ GenerateModelFromTree
            { scenarioEngine HierarchyHandling.PRESERVE_HIERARCHY with
              m_HierarchyHandling := HierarchyHandling.FLATTEN_HIERARCHY } = some sF
        ∧ (flattenItems sP.m_Items).map Item.m_Node = sF.m_Items.map Item.m_Node
        ∧ sF.m_Items.map Item.m_Node
            = matchingNodes (scenarioEngine HierarchyHandling.PRESERVE_HIERARCHY).filterFun
                (scenarioEngine HierarchyHandling.PRESERVE_HIERARCHY).m_DataTree)
    ∧ (GenerateModelFromTree removeEngine).map
          (fun sP => (sP.m_Items.map Item.m_Node, (flattenItems sP.m_Items).map Item.m_Node))
        = some ([20], [20, 11, 14, 13])
    ∧ (GenerateModelFromTree
          { removeEngine with m_HierarchyHandling := HierarchyHandling.FLATTEN_HIERARCHY }).map
          (fun sF => sF.m_Items.map Item.m_Node)
        = some [20, 11, 14, 13] :=
  ⟨by decide,
   modes_project_same_nodes (scenarioEngine HierarchyHandling.PRESERVE_HIERARCHY) (by decide),
   by decide!, by decide!⟩

/-! ## Prune of a sub-tree without a matching node -/

theorem TreePruneScan_no_match (f : NodePtr → Bool) :
    ∀ (nodes : List NodePtr) (firstMatch : Bool) (loc : PruneLocals) (s : DataTreeFilter),
      (∀ n, s.callFilter n = some (f n)) → (∀ n ∈ nodes, f n = false) →
      TreePruneScan nodes firstMatch loc s = some (loc, s)
  | [], firstMatch, loc, s => by
    intro _ _
    rw [TreePruneScan]
  | node :: more, firstMatch, loc, s => by
    intro hf hn
    rw [TreePruneScan, hf node, hn node (List.mem_cons_self _ _)]
    exact TreePruneScan_no_match f more firstMatch loc s hf
      (fun n h => hn n (List.mem_cons_of_mem _ h))

/-- When no node of the sub-tree at the pruned position passes the filter,
`TreePrune` reaches `++listLastIter` with the iterator never assigned and
`item->m_Parent` with `item` still null: it has no defined result, in either
hierarchy mode. -/
theorem TreePrune_no_match (s : DataTreeFilter) (e : TreeEvent) (root treePosition : TreeNode)
    (hfilter : s.m_Filter ≠ FilterFunctionPointer.null)
    (htree : s.m_DataTree = some root)
    (hpos : root.subtree e.position = some treePosition)
    (hnone : ∀ n ∈ treePosition.preOrder, s.filterFun n = false) :
    TreePrune e s = none := by
  have hf := callFilter_eq_filterFun s hfilter
  unfold TreePrune
  split
  · rfl
  rename_i root2 h
  rw [htree] at h
  cases h
  split
  · rfl
  rename_i tp2 h
  rw [hpos] at h
  cases h
  have ht : s.filterFun treePosition.Get = false := by
    apply hnone
    rw [preOrder_eq]
    exact List.mem_cons_self _ _
  have hhit : (if s.m_HierarchyHandling = HierarchyHandling.PRESERVE_HIERARCHY then
                 s.callFilter treePosition.Get else some false) = some false := by
    split_ifs
    · rw [hf, ht]
    · rfl
  rw [hhit]
  simp only [Bool.false_eq_true, if_false]
  rw [TreePruneScan_no_match s.filterFun treePosition.preOrder true _ s hf hnone]
  rfl

/-- C22 (the code at the failing input): on `leafEngine`, whose registry is
consistent, the sub-tree of node 12 has no matching node. The scan of
`TreePrune` leaves `item` null, `list` null and both iterators unassigned,
and the handler has no defined result, in the preserved and in the flat
hierarchy. -/
theorem TreePrune_without_match_undefined :
    registryConsistent (leafEngine HierarchyHandling.PRESERVE_HIERARCHY) = true
    ∧ registryConsistent (leafEngine HierarchyHandling.FLATTEN_HIERARCHY) = true
    ∧ (TreeNode.mk 12 []).preOrder.filter
        (leafEngine HierarchyHandling.PRESERVE_HIERARCHY).filterFun = []
    ∧ (TreePruneScan (TreeNode.mk 12 []).preOrder true
          { item := 0, list := none, listFirstIter := none, listLastIter := none }
          (leafEngine HierarchyHandling.FLATTEN_HIERARCHY)).map Prod.fst
        = some { item := 0, list := none, listFirstIter := none, listLastIter := none }
    ∧ TreePrune { kind := TreeEventKind.TreePruneEvent, position := [1] }
        (leafEngine HierarchyHandling.PRESERVE_HIERARCHY) = none
    ∧ TreePrune { kind := TreeEventKind.TreePruneEvent, position := [1] }
        (leafEngine HierarchyHandling.FLATTEN_HIERARCHY) = none :=
  ⟨by decide, by decide, by decide, by decide,
   TreePrune_no_match (leafEngine HierarchyHandling.PRESERVE_HIERARCHY) _ _
     (TreeNode.mk 12 []) (by decide) rfl rfl (by decide),
   TreePrune_no_match (leafEngine HierarchyHandling.FLATTEN_HIERARCHY) _ _
     (TreeNode.mk 12 []) (by decide) rfl rfl (by decide)⟩

/-! ## Regeneration clears the selection -/

/-- The items the walk creates are unselected. -/
theorem buildLoop_unselected (mode : HierarchyHandling) (f : NodePtr → Bool) :
    ∀ (cs : List TreeNode) (parent index next : Nat),
      ∀ it ∈ flattenItems (buildLoop mode f cs parent index next).1, it.m_Selected = false
  | [], parent, index, next => by simp
  | c :: rest, parent, index, next => by
    have hc := buildLoop_unselected mode f c.children
    have hr := buildLoop_unselected mode f rest
    cases hfc : f c.Get with
    | false =>
      rw [buildLoop_cons_skip _ f c rest parent index next hfc]
      intro it hit
      simp only [flattenItems_append, List.mem_append] at hit
      rcases hit with h | h
      · rw [buildChildren_eq] at h
        exact hc _ _ _ it h
      · exact hr _ _ _ it h
    | true =>
      cases mode with
      | PRESERVE_HIERARCHY =>
        rw [buildLoop_cons_preserve f c rest parent index next hfc]
        intro it hit
        simp only [flattenItems_cons, Item.m_Children, List.mem_cons, List.mem_append] at hit
        rcases hit with h | h | h
        · rw [h]; rfl
        · rw [buildChildren_eq] at h
          exact hc _ _ _ it h
        · exact hr _ _ _ it h
      | FLATTEN_HIERARCHY =>
        rw [buildLoop_cons_flatten f c rest parent index next hfc]
        intro it hit
        simp only [flattenItems_cons, Item.m_Children, flattenItems_nil, List.nil_append,
          flattenItems_append, List.mem_cons, List.mem_append] at hit
        rcases hit with h | h | h
        · rw [h]; rfl
        · rw [buildChildren_eq] at h
          exact hc _ _ _ it h
        · exact hr _ _ _ it h
termination_by cs => sizeOf cs
decreasing_by
  all_goals simp_wf
  all_goals cases c
  all_goals simp [TreeNode.children]
  all_goals omega

/-- Regeneration from a state whose selection set holds live items only
leaves nothing selected. -/
theorem GenerateModelFromTree_unselects (s : DataTreeFilter)
    (hfilter : s.m_Filter ≠ FilterFunctionPointer.null)
    (hlive : ∀ a ∈ s.m_SelectedItems, a ∈ itemAddrs s.m_Items) :
    ∃ s2, GenerateModelFromTree s = some s2
      ∧ s2.GetSelectedItems = []
      ∧ ∀ it ∈ flattenItems s2.m_Items, it.IsSelected = false := by
  refine ⟨_, GenerateModelFromTree_eq s s.filterFun (callFilter_eq_filterFun s hfilter), ?_, ?_⟩
  · apply List.eq_nil_iff_forall_not_mem.2
    intro a ha
    simp only [GetSelectedItems] at ha
    rw [release_selected] at ha
    obtain ⟨h1, h2⟩ := ha
    have h3 := hlive a h1
    simp only [itemAddrs, List.mem_map] at h3
    obtain ⟨it, h4, h5⟩ := h3
    rcases h2 it h4 with h6 | h6
    · simp [findItem] at h6
    · exact h6 h5
  · intro it hit
    simp only at hit
    cases ht : s.m_DataTree with
    | none => simp [ht, buildTree] at hit
    | some root =>
      simp only [ht, buildTree] at hit
      exact buildLoop_unselected _ _ _ _ _ _ it hit

theorem TreeAddWalk_no_match (f : NodePtr → Bool) (root : TreeNode) :
    ∀ (ups : List TreePosition) (s : DataTreeFilter),
      (∀ n, s.callFilter n = some (f n)) →
      (∀ up ∈ ups, ∃ u, root.subtree up = some u ∧ f u.Get = false) →
      TreeAddWalk root ups s = some (none, s)
  | [], s => by
    intro _ _
    rw [TreeAddWalk]
  | up :: more, s => by
    intro hf hn
    obtain ⟨u, h1, h2⟩ := hn up (List.mem_cons_self _ _)
    rw [TreeAddWalk, h1]
    simp only [hf, h2]
    exact TreeAddWalk_no_match f root more s hf (fun x h => hn x (List.mem_cons_of_mem _ h))

/-- C21: in a state with a callable filter whose selection set holds live
items only, a full regeneration succeeds and leaves the selection set empty
and every item of the new forest unselected. The same holds on each way into
regeneration: `SetFilter` with another pointer, `SetHierarchyHandling` with
another mode, a node-change notification for a non-null node, and `TreeAdd`
for a matching node in the flat hierarchy or without a matching proper
ancestor. -/
theorem regeneration_clears_selection (s : DataTreeFilter)
    (hfilter : s.m_Filter ≠ FilterFunctionPointer.null)
    (hlive : ∀ a ∈ s.m_SelectedItems, a ∈ itemAddrs s.m_Items) :
    (∃ s2, GenerateModelFromTree s = some s2
      ∧ s2.GetSelectedItems = [] ∧ ∀ it ∈ flattenItems s2.m_Items, it.IsSelected = false)
    ∧ (∀ filter, filter ≠ s.m_Filter →
        ∃ s2, SetFilter filter s = some s2
          ∧ s2.GetSelectedItems = [] ∧ ∀ it ∈ flattenItems s2.m_Items, it.IsSelected = false)
    ∧ (∀ hierarchyHandling, hierarchyHandling ≠ s.m_HierarchyHandling →
        ∃ s2, SetHierarchyHandling hierarchyHandling s = some s2
          ∧ s2.GetSelectedItems = [] ∧ ∀ it ∈ flattenItems s2.m_Items, it.IsSelected = false)
    ∧ (∀ e root treePosition, e.kind = TreeEventKind.TreeNodeChangeEvent →
        s.m_DataTree = some root → root.subtree e.position = some treePosition →
        treePosition.Get ≠ 0 →
        ∃ s2, TreeNodeChange e s = some s2
          ∧ s2.GetSelectedItems = [] ∧ ∀ it ∈ flattenItems s2.m_Items, it.IsSelected = false)
    ∧ (∀ e root treePosition,
        s.m_DataTree = some root → root.subtree e.position = some treePosition →
        s.filterFun treePosition.Get = true →
        (s.m_HierarchyHandling = HierarchyHandling.FLATTEN_HIERARCHY
          ∨ ∀ up ∈ ancestorPositions e.position,
              ∃ u, root.subtree up = some u ∧ s.filterFun u.Get = false) →
        ∃ s2, TreeAdd e s = some s2
          ∧ s2.GetSelectedItems = [] ∧ ∀ it ∈ flattenItems s2.m_Items, it.IsSelected = false) := by
  have hgen := GenerateModelFromTree_unselects s hfilter hlive
  refine ⟨hgen, ?_, ?_, ?_, ?_⟩
  · intro filter hne
    unfold SetFilter
    rw [if_neg (fun h => hne h.symm)]
    split_ifs with h
    · exact GenerateModelFromTree_unselects { s with m_Filter := filter } h hlive
    · exact GenerateModelFromTree_unselects
        { s with m_Filter := FilterFunctionPointer.addrIsDataTreeNode } (by simp) hlive
  · intro hh hne
    unfold SetHierarchyHandling
    rw [if_neg (fun h => hne h.symm)]
    exact GenerateModelFromTree_unselects { s with m_HierarchyHandling := hh } hfilter hlive
  · intro e root treePosition hk htree hpos hnode
    have : TreeNodeChange e s = GenerateModelFromTree s := by
      unfold TreeNodeChange
      rw [if_neg (by simp [hk])]
      split
      · rename_i h; rw [htree] at h; cases h
      rename_i root2 h
      rw [htree] at h
      cases h
      split
      · rename_i h; rw [hpos] at h; cases h
      rename_i tp2 h
      rw [hpos] at h
      cases h
      rw [if_neg hnode]
    rw [this]
    exact hgen
  · intro e root treePosition htree hpos hmatch hfall
    have hf := callFilter_eq_filterFun s hfilter
    have : TreeAdd e s = GenerateModelFromTree s := by
      unfold TreeAdd
      split
      · rename_i h; rw [htree] at h; cases h
      rename_i root2 h
      rw [htree] at h
      cases h
      split
      · rename_i h; rw [hpos] at h; cases h
      rename_i tp2 h
      rw [hpos] at h
      cases h
      rw [hf, hmatch]
      have hw : (if s.m_HierarchyHandling = HierarchyHandling.PRESERVE_HIERARCHY then
                   TreeAddWalk root (ancestorPositions e.position) s
                 else some (none, s)) = some (none, s) := by
        split_ifs with hm
        · rcases hfall with h | h
          · rw [hm] at h; cases h
          · exact TreeAddWalk_no_match s.filterFun root _ s hf h
        · rfl
      rw [hw]
    rw [this]
    exact hgen

/-- Witness for C21 on `scenarioEngine`, whose one root item (address 1) is
selected: after regeneration nothing is selected, and the new items 2 and 3
are unselected. -/
theorem regeneration_clears_selection_witness :
    (scenarioEngine HierarchyHandling.PRESERVE_HIERARCHY).m_Filter ≠ FilterFunctionPointer.null
    ∧ (∀ a ∈ (scenarioEngine HierarchyHandling.PRESERVE_HIERARCHY).m_SelectedItems,
        a ∈ itemAddrs (scenarioEngine HierarchyHandling.PRESERVE_HIERARCHY).m_Items)
    ∧ (∃ s2, GenerateModelFromTree (scenarioEngine HierarchyHandling.PRESERVE_HIERARCHY) = some s2
        ∧ s2.GetSelectedItems = []
        ∧ ∀ it ∈ flattenItems s2.m_Items, it.IsSelected = false)
    ∧ ((scenarioEngine HierarchyHandling.PRESERVE_HIERARCHY).m_SelectedItems,
        (flattenItems (scenarioEngine HierarchyHandling.PRESERVE_HIERARCHY).m_Items).map
          (fun it => (it.self, it.IsSelected))) = ([1], [(1, true)])
    ∧ (GenerateModelFromTree (scenarioEngine HierarchyHandling.PRESERVE_HIERARCHY)).map
        (fun s2 => (s2.GetSelectedItems,
                    (flattenItems s2.m_Items).map (fun it => (it.self, it.IsSelected))))
        = some ([], [(2, false), (3, false)]) :=
  ⟨by decide, by decide,
   (regeneration_clears_selection (scenarioEngine HierarchyHandling.PRESERVE_HIERARCHY)
     (by decide) (by decide)).1,
   by decide, by decide!⟩

/-! ## Addresses and selected flags of a forest -/

@[simp] theorem flagsOf_nil : flagsOf [] = [] := by simp [flagsOf]

theorem flagsOf_cons (x : Item) (xs : List Item) :
    flagsOf (x :: xs) = (x.self, x.m_Selected) :: (flagsOf x.m_Children ++ flagsOf xs) := by
  simp [flagsOf, flattenItems_cons]

theorem flagsOf_append (xs ys : List Item) : flagsOf (xs ++ ys) = flagsOf xs ++ flagsOf ys := by
  simp [flagsOf, flattenItems_append]

theorem flagsOf_fst (forest : List Item) : (flagsOf forest).map Prod.fst = itemAddrs forest := by
  simp [flagsOf, itemAddrs]

theorem flagsOf_mem {forest : List Item} {a : ItemPtr} {b : Bool} :
    (a, b) ∈ flagsOf forest ↔ ∃ it ∈ flattenItems forest, it.self = a ∧ it.m_Selected = b := by
  simp [flagsOf]

theorem flagsOf_renumber : ∀ (xs : List Item) (i : Nat), flagsOf (renumber i xs) = flagsOf xs
  | [], i => by simp [renumber]
  | x :: xs, i => by
    cases x
    simp [renumber, flagsOf_cons, flagsOf_renumber xs (i + 1), Item.setIndex, Item.self,
      Item.m_Selected, Item.m_Children]

mutual
/-- Rewriting one item of a forest, its address kept, changes the flags of
the forest in the part of that item only. -/
theorem Item.modify_flags (q : Nat) (g : Item → Item) :
    ∀ (x x1 it : Item), Item.modify q g x = some x1 → Item.find q x = some it →
      ∃ pre post, flagsOf [x] = pre ++ flagsOf [it] ++ post
        ∧ flagsOf [x1] = pre ++ flagsOf [g it] ++ post
  | .mk a i p ch n b, x1, it => by
    simp only [Item.modify_mk, Item.find_mk]
    split
    · intro e1 e2
      cases e1
      cases e2
      exact ⟨[], [], by simp, by simp⟩
    · intro e1 e2
      cases hm : modifyItem q g ch with
      | none => simp [hm] at e1
      | some ch1 =>
        simp only [hm, Option.map_some', Option.some.injEq] at e1
        subst e1
        obtain ⟨pre, post, h1, h2⟩ := modifyItem_flags q g ch ch1 it hm e2
        refine ⟨(a, b) :: pre, post, ?_, ?_⟩
        · simp [flagsOf_cons, Item.self, Item.m_Selected, Item.m_Children, h1]
        · simp [flagsOf_cons, Item.self, Item.m_Selected, Item.m_Children, h2]
theorem modifyItem_flags (q : Nat) (g : Item → Item) :
    ∀ (xs xs1 : List Item) (it : Item), modifyItem q g xs = some xs1 → findItem q xs = some it →
      ∃ pre post, flagsOf xs = pre ++ flagsOf [it] ++ post
        ∧ flagsOf xs1 = pre ++ flagsOf [g it] ++ post
  | [], xs1, it => by simp
  | x :: xs, xs1, it => by
    rw [modifyItem_cons, findItem_cons]
    cases hm : Item.modify q g x with
    | some x1 =>
      have hs : (Item.find q x).isSome = true := by
        rw [← Item.modify_isSome q g x, hm]; rfl
      cases hf : Item.find q x with
      | none => rw [hf] at hs; simp at hs
      | some y =>
        simp only [Option.some.injEq, Option.orElse]
        intro e1 e2
        subst e1
        subst e2
        obtain ⟨pre, post, h1, h2⟩ := Item.modify_flags q g x x1 y hm hf
        refine ⟨pre, post ++ flagsOf xs, ?_, ?_⟩
        · have := flagsOf_append [x] xs
          simp only [List.singleton_append] at this
          rw [this, h1]
          simp
        · have := flagsOf_append [x1] xs
          simp only [List.singleton_append] at this
          rw [this, h2]
          simp
    | none =>
      have hf : Item.find q x = none := by
        have := Item.modify_isSome q g x
        rw [hm] at this
        cases h : Item.find q x
        · rfl
        · rw [h] at this; simp at this
      cases hm2 : modifyItem q g xs with
      | none => simp
      | some xs2 =>
        simp only [hf, Option.map_some', Option.some.injEq, Option.orElse]
        intro e1 e2
        subst e1
        obtain ⟨pre, post, h1, h2⟩ := modifyItem_flags q g xs xs2 it hm2 e2
        refine ⟨flagsOf [x] ++ pre, post, ?_, ?_⟩
        · have := flagsOf_append [x] xs
          simp only [List.singleton_append] at this
          rw [this, h1]
          simp
        · have := flagsOf_append [x] xs2
          simp only [List.singleton_append] at this
          rw [this, h2]
          simp
end

namespace ItemListPtr

/-- Overwriting a list of the forest changes the flags of the forest in the
part of that list only. -/
theorem setIn_flags {l : ItemListPtr} {forest xs ys forest1 : List Item}
    (hg : l.getIn forest = some xs) (hs : l.setIn ys forest = some forest1) :
    ∃ pre post, flagsOf forest = pre ++ flagsOf xs ++ post
      ∧ flagsOf forest1 = pre ++ flagsOf ys ++ post := by
  cases l with
  | items =>
    simp only [getIn, Option.some.injEq] at hg
    simp only [setIn, Option.some.injEq] at hs
    subst hg
    subst hs
    exact ⟨[], [], by simp, by simp⟩
  | childrenOf p =>
    simp only [getIn] at hg
    cases hd : derefIn p forest with
    | none => simp [hd] at hg
    | some it =>
      simp only [hd, Option.some.injEq] at hg
      obtain ⟨hp, hf⟩ := derefIn_eq_some hd
      simp only [setIn, if_neg hp] at hs
      obtain ⟨pre, post, h1, h2⟩ := modifyItem_flags p (Item.setChildren ys) forest forest1 it hs hf
      cases it with
      | mk a i par ch n b =>
        simp only [Item.m_Children] at hg
        subst hg
        refine ⟨pre ++ [(a, b)], flagsOf [] ++ post, ?_, ?_⟩
        · rw [h1]
          simp [flagsOf_cons, Item.self, Item.m_Selected, Item.m_Children]
        · rw [h2]
          simp [flagsOf_cons, Item.setChildren, Item.self, Item.m_Selected, Item.m_Children]

end ItemListPtr

/-! ## The invariant on lists of flags -/

theorem FlagsInvariant.remove {u1 g u2 : List (ItemPtr × Bool)} {sel sel2 : List ItemPtr}
    {next : Nat} (h : FlagsInvariant (u1 ++ g ++ u2) sel next)
    (hsel : ∀ a : Nat, a ∈ sel2 ↔ a ∈ sel ∧ a ∉ g.map Prod.fst) :
    FlagsInvariant (u1 ++ u2) sel2 next := by
  obtain ⟨h1, h2, h3⟩ := h
  simp only [List.map_append, List.append_assoc] at h1 h2
  have hn := h1
  rw [List.nodup_append] at h1
  obtain ⟨n1, n2, n3⟩ := h1
  rw [List.nodup_append] at n2
  obtain ⟨n4, n5, n6⟩ := n2
  refine ⟨?_, ?_, ?_⟩
  · rw [List.map_append, List.nodup_append]
    refine ⟨n1, n5, ?_⟩
    intro a ha hb
    exact n3 ha (List.mem_append_right _ hb)
  · intro a ha
    apply h2
    simp only [List.map_append, List.mem_append] at ha ⊢
    rcases ha with h | h
    · exact Or.inl h
    · exact Or.inr (Or.inr h)
  · intro a
    rw [hsel, h3]
    simp only [List.mem_append, List.append_assoc]
    constructor
    · rintro ⟨h | h | h, hg⟩
      · exact Or.inl h
      · exact absurd (List.mem_map_of_mem Prod.fst h) hg
      · exact Or.inr h
    · rintro (h | h)
      · refine ⟨Or.inl h, fun hg => ?_⟩
        exact n3 (List.mem_map_of_mem Prod.fst h) (List.mem_append_left _ hg)
      · refine ⟨Or.inr (Or.inr h), fun hg => ?_⟩
        exact n6 hg (List.mem_map_of_mem Prod.fst h)

theorem FlagsInvariant.add {u1 u2 : List (ItemPtr × Bool)} {sel : List ItemPtr}
    {next : Nat} (h : FlagsInvariant (u1 ++ u2) sel next) :
    FlagsInvariant (u1 ++ (next + 1, false) :: u2) sel (next + 1) := by
  obtain ⟨h1, h2, h3⟩ := h
  have hfresh : next + 1 ∉ (u1 ++ u2).map Prod.fst := by
    intro hm
    have := (h2 _ hm).2
    omega
  simp only [List.map_append, List.mem_append, not_or] at hfresh
  refine ⟨?_, ?_, ?_⟩
  · simp only [List.map_append, List.map_cons] at h1 ⊢
    rw [List.nodup_append] at h1 ⊢
    obtain ⟨n1, n2, n3⟩ := h1
    refine ⟨n1, List.nodup_cons.2 ⟨hfresh.2, n2⟩, ?_⟩
    intro a ha hb
    rcases List.mem_cons.1 hb with h | h
    · subst h
      exact hfresh.1 ha
    · exact n3 ha h
  · intro a ha
    simp only [List.map_append, List.map_cons, List.mem_append, List.mem_cons] at ha
    rcases ha with h | h | h
    · have := h2 a (by simp only [List.map_append, List.mem_append]; exact Or.inl h)
      exact ⟨this.1, by omega⟩
    · subst h
      exact ⟨by omega, le_refl _⟩
    · have := h2 a (by simp only [List.map_append, List.mem_append]; exact Or.inr h)
      exact ⟨this.1, by omega⟩
  · intro a
    rw [h3]
    simp only [List.mem_append, List.mem_cons, Prod.mk.injEq]
    constructor
    · rintro (h | h)
      · exact Or.inl h
      · exact Or.inr (Or.inr h)
    · rintro (h | h | h)
      · exact Or.inl h
      · simp at h
      · exact Or.inr h

theorem FlagsInvariant.flag {u1 u2 : List (ItemPtr × Bool)} {sel sel2 : List ItemPtr}
    {next : Nat} {p : ItemPtr} {b b2 : Bool}
    (h : FlagsInvariant (u1 ++ (p, b) :: u2) sel next)
    (hsel : ∀ a : Nat, a ∈ sel2 ↔ (a ∈ sel ∧ a ≠ p) ∨ (a = p ∧ b2 = true)) :
    FlagsInvariant (u1 ++ (p, b2) :: u2) sel2 next := by
  obtain ⟨h1, h2, h3⟩ := h
  refine ⟨by simpa using h1, by simpa using h2, ?_⟩
  simp only [List.map_append, List.map_cons] at h1
  rw [List.nodup_append] at h1
  obtain ⟨n1, n2, n3⟩ := h1
  obtain ⟨n4, n5⟩ := List.nodup_cons.1 n2
  intro a
  rw [hsel, h3]
  simp only [List.mem_append, List.mem_cons, Prod.mk.injEq]
  constructor
  · rintro (⟨h | h | h, hne⟩ | ⟨h4, h5⟩)
    · exact Or.inl h
    · exact absurd h.1 hne
    · exact Or.inr (Or.inr h)
    · exact Or.inr (Or.inl ⟨h4, h5.symm⟩)
  · rintro (h | h | h)
    · refine Or.inl ⟨Or.inl h, fun e => ?_⟩
      subst e
      exact n3 (List.mem_map_of_mem Prod.fst h) (List.mem_cons_self _ _)
    · exact Or.inr ⟨h.1, h.2.symm⟩
    · refine Or.inl ⟨Or.inr (Or.inr h), fun e => ?_⟩
      subst e
      exact n4 (List.mem_map_of_mem Prod.fst h)

/-! ## The selection invariant under the list operations -/

theorem SelectionInvariant.congr {s s2 : DataTreeFilter} (h : SelectionInvariant s)
    (h1 : s2.m_Items = s.m_Items) (h2 : s2.m_SelectedItems = s.m_SelectedItems)
    (h3 : s2.m_LastSelectedItem = s.m_LastSelectedItem) (h4 : s2.nextItem = s.nextItem) :
    SelectionInvariant s2 := by
  unfold SelectionInvariant at h ⊢
  rw [h1, h2, h3, h4]
  exact h

mutual
theorem Item.find_isSome (q : Nat) :
    ∀ (x : Item), q ∈ Item.addrs x → (Item.find q x).isSome = true
  | .mk a i p ch n b => by
    simp only [Item.addrs_mk, List.mem_cons, Item.find_mk]
    intro h
    split
    · rfl
    · rename_i hne
      rcases h with h | h
      · exact absurd h.symm hne
      · exact findItem_isSome q ch h
theorem findItem_isSome (q : Nat) :
    ∀ (xs : List Item), q ∈ itemAddrs xs → (findItem q xs).isSome = true
  | [] => by simp
  | x :: xs => by
    simp only [itemAddrs_cons, List.mem_append, findItem_cons]
    intro h
    cases hf : Item.find q x with
    | some y => rfl
    | none =>
      rcases h with h | h
      · have := Item.find_isSome q x h
        rw [hf] at this
        simp at this
      · simpa [Option.orElse] using findItem_isSome q xs h
end

theorem findItem_addr {q : Nat} {forest : List Item} (h : (findItem q forest).isSome = true) :
    q ∈ itemAddrs forest := by
  by_contra hn
  rw [findItem_eq_none q forest hn] at h
  simp at h

/-- Items leave the forest and are released: the invariant holds for what
remains. -/
theorem release_remove (f0 f1 gone : List Item) (u1 u2 : List (ItemPtr × Bool))
    (s : DataTreeFilter) (sel : List ItemPtr) (next : Nat)
    (h0 : flagsOf f0 = u1 ++ flagsOf gone ++ u2) (h1 : flagsOf f1 = u1 ++ u2)
    (hinv : FlagsInvariant (flagsOf f0) sel next)
    (hs1 : s.m_Items = f1) (hs2 : s.m_SelectedItems = sel) :
    FlagsInvariant (flagsOf f1) (release gone s).m_SelectedItems next := by
  rw [h0] at hinv
  rw [h1]
  refine FlagsInvariant.remove hinv ?_
  intro a
  rw [release_selected, hs1, hs2, flagsOf_fst]
  refine and_congr_right (fun _ => ?_)
  constructor
  · intro h hm
    simp only [itemAddrs, List.mem_map] at hm
    obtain ⟨it, hit, rfl⟩ := hm
    rcases h it hit with h2 | h2
    · have h3 := findItem_addr h2
      rw [← flagsOf_fst, h1] at h3
      obtain ⟨n1, _, _⟩ := hinv
      simp only [List.map_append, List.append_assoc] at n1 h3
      rw [List.nodup_append] at n1
      obtain ⟨_, n2, n3⟩ := n1
      rw [List.nodup_append] at n2
      obtain ⟨_, _, n6⟩ := n2
      have hg : it.self ∈ (flagsOf gone).map Prod.fst := by
        rw [flagsOf_fst]
        exact List.mem_map_of_mem Item.self hit
      rcases List.mem_append.1 h3 with h4 | h4
      · exact n3 h4 (List.mem_append_left _ hg)
      · exact n6 hg h4
    · exact h2 rfl
  · intro h it hit
    right
    intro e
    apply h
    rw [← e]
    exact List.mem_map_of_mem Item.self hit

theorem eraseRange_sel {list : ItemListPtr} {first last : Nat} {s s2 : DataTreeFilter}
    (h : eraseRange list first last s = some s2) (hinv : SelectionInvariant s) :
    SelectionInvariant s2 := by
  unfold eraseRange ItemListPtr.get at h
  cases hg : list.getIn s.m_Items with
  | none => simp [hg] at h
  | some xs =>
    simp only [hg] at h
    split at h
    · rename_i hr
      split at h
      · rename_i sa hs
        cases h
        have hs2 := ItemListPtr.set_m_Items hs
        obtain ⟨pre, post, e1, e2⟩ := ItemListPtr.setIn_flags hg hs2
        unfold ItemListPtr.set at hs
        split at hs
        · rename_i f1 hf
          cases hs
          have hxs : xs = xs.take first ++ ((xs.drop first).take (last - first) ++ xs.drop last) := by
            have h1 : xs.drop last = (xs.drop first).drop (last - first) := by
              rw [List.drop_drop]
              congr 1
              omega
            rw [h1, List.take_append_drop, List.take_append_drop]
          obtain ⟨hl, hfi⟩ := hinv
          refine ⟨by rw [release_frame]; exact hl, ?_⟩
          rw [release_m_Items]
          have key := release_remove s.m_Items f1 ((xs.drop first).take (last - first))
            (pre ++ flagsOf (xs.take first)) (flagsOf (xs.drop last) ++ post)
            { s with m_Items := f1 } s.m_SelectedItems s.nextItem
            (by rw [e1]; nth_rewrite 1 [hxs]; simp [flagsOf_append])
            (by rw [e2]; simp [flagsOf_append]) hfi rfl rfl
          rw [release_nextItem]
          exact key
        · cases hs
      · cases h
    · cases h

theorem clear_sel {list : ItemListPtr} {s s2 : DataTreeFilter}
    (h : clear list s = some s2) (hinv : SelectionInvariant s) :
    SelectionInvariant s2 := by
  unfold clear ItemListPtr.get at h
  cases hg : list.getIn s.m_Items with
  | none => simp [hg] at h
  | some xs =>
    simp only [hg] at h
    split at h
    · rename_i sa hs
      cases h
      have hs2 := ItemListPtr.set_m_Items hs
      obtain ⟨pre, post, e1, e2⟩ := ItemListPtr.setIn_flags hg hs2
      unfold ItemListPtr.set at hs
      split at hs
      · rename_i f1 hf
        cases hs
        obtain ⟨hl, hfi⟩ := hinv
        refine ⟨by rw [release_frame]; exact hl, ?_⟩
        rw [release_m_Items, release_nextItem]
        exact release_remove s.m_Items f1 xs pre post { s with m_Items := f1 }
          s.m_SelectedItems s.nextItem e1 (by rw [e2]; simp) hfi rfl rfl
      · cases hs
    · cases h

theorem renumberAndAnnounce_sel {list : ItemListPtr} {s s2 : DataTreeFilter}
    (h : renumberAndAnnounce list s = some s2) (hinv : SelectionInvariant s) :
    SelectionInvariant s2 := by
  unfold renumberAndAnnounce ItemListPtr.get at h
  cases hg : list.getIn s.m_Items with
  | none => simp [hg] at h
  | some xs =>
    simp only [hg] at h
    split at h
    · rename_i sa hs
      cases h
      have hs2 := ItemListPtr.set_m_Items hs
      obtain ⟨pre, post, e1, e2⟩ := ItemListPtr.setIn_flags hg hs2
      rw [flagsOf_renumber, ← e1] at e2
      unfold ItemListPtr.set at hs
      split at hs
      · rename_i f1 hf
        cases hs
        obtain ⟨hl, hfi⟩ := hinv
        refine ⟨hl, ?_⟩
        show FlagsInvariant (flagsOf f1) s.m_SelectedItems s.nextItem
        rw [e2]
        exact hfi
      · cases hs
    · cases h

/-- Appending a new item keeps the invariant. -/
theorem CreateElementAt_sel (list : ItemListPtr) (node : NodePtr) (parent : ItemPtr)
    (s s2 : DataTreeFilter) (newIndex : Nat) (hsize : list.Size s = some newIndex)
    (h : CreateElementAt list newIndex (Item.New node newIndex parent s).1
          (Item.New node newIndex parent s).2 = some s2)
    (hinv : SelectionInvariant s) : SelectionInvariant s2 := by
  unfold ItemListPtr.Size ItemListPtr.get at hsize
  unfold CreateElementAt ItemListPtr.get at h
  have hitems : (Item.New node newIndex parent s).2.m_Items = s.m_Items := rfl
  rw [hitems] at h
  cases hg : list.getIn s.m_Items with
  | none => simp [hg] at hsize
  | some xs =>
    simp only [hg, Option.some.injEq] at hsize h
    subst hsize
    simp only [if_true] at h
    have hs2 := ItemListPtr.set_m_Items h
    rw [hitems] at hs2
    obtain ⟨pre, post, e1, e2⟩ := ItemListPtr.setIn_flags hg hs2
    unfold ItemListPtr.set at h
    split at h
    · rename_i f1 hf
      cases h
      obtain ⟨hl, hfi⟩ := hinv
      refine ⟨hl, ?_⟩
      show FlagsInvariant (flagsOf f1) s.m_SelectedItems (s.nextItem + 1)
      rw [e1] at hfi
      have := @FlagsInvariant.add (pre ++ flagsOf xs) post _ _ (by simpa using hfi)
      simp only at e2
      rw [e2, flagsOf_append]
      simpa [flagsOf_cons, Item.New, Item.self, Item.m_Selected, Item.m_Children] using this
    · cases h

/-! ## The selection invariant under the walk and under regeneration -/

theorem AddMatchingChildrenLoop_sel :
    ∀ (cs : List TreeNode) (list : ItemListPtr) (parent : ItemPtr) (verbose : Bool)
      (s s2 : DataTreeFilter),
      AddMatchingChildrenLoop cs list parent verbose s = some s2 →
      SelectionInvariant s → SelectionInvariant s2
  | [], list, parent, verbose, s, s2 => by
    intro h hc
    rw [AddMatchingChildrenLoop] at h
    cases h
    exact hc
  | child :: rest, list, parent, verbose, s, s2 => by
    intro h hc
    have ihc := AddMatchingChildrenLoop_sel child.children
    have ihr := AddMatchingChildrenLoop_sel rest
    rw [AddMatchingChildrenLoop] at h
    cases hf : s.callFilter child.Get with
    | none => simp [hf] at h
    | some b =>
      cases b with
      | false =>
        simp only [hf] at h
        cases h1 : AddMatchingChildren child list parent verbose s with
        | none => simp [h1] at h
        | some s1 =>
          simp only [h1] at h
          rw [AddMatchingChildren_eq_loop] at h1
          exact ihr list parent verbose s1 s2 h (ihc list parent verbose s s1 h1 hc)
      | true =>
        simp only [hf] at h
        cases hsz : list.Size s with
        | none => simp [hsz] at h
        | some newIndex =>
          simp only [hsz] at h
          cases hce : CreateElementAt list newIndex (Item.New child.Get newIndex parent s).1
              (Item.New child.Get newIndex parent s).2 with
          | none => simp [hce] at h
          | some sa =>
            simp only [hce] at h
            have hca := CreateElementAt_sel list child.Get parent s sa newIndex hsz hce hc
            split at h
            · cases h
            · rename_i sb hv
              have hcb : SelectionInvariant sb := by
                split at hv
                · split at hv
                  · cases hv
                    exact hca
                  · cases hv
                · cases hv
                  exact hca
              split at h
              · cases h
              · rename_i sc hr
                have hcc : SelectionInvariant sc := by
                  split at hr
                  · split at hr
                    · rw [AddMatchingChildren_eq_loop] at hr
                      exact ihc _ _ verbose sb sc hr hcb
                    · cases hr
                  · rw [AddMatchingChildren_eq_loop] at hr
                    exact ihc _ _ verbose sb sc hr hcb
                exact ihr list parent verbose sc s2 h hcc
termination_by cs => sizeOf cs
decreasing_by
  all_goals simp_wf
  all_goals cases child
  all_goals simp [TreeNode.children]
  all_goals omega

theorem AddMatchingChildren_sel (t : TreeNode) (list : ItemListPtr) (parent : ItemPtr)
    (verbose : Bool) (s s2 : DataTreeFilter)
    (h : AddMatchingChildren t list parent verbose s = some s2)
    (hinv : SelectionInvariant s) : SelectionInvariant s2 := by
  rw [AddMatchingChildren_eq_loop] at h
  exact AddMatchingChildrenLoop_sel t.children list parent verbose s s2 h hinv

/-- Dropping the whole forest leaves an empty forest and an empty selection
set. -/
theorem discard_sel (s : DataTreeFilter) (hinv : SelectionInvariant s) :
    SelectionInvariant (release s.m_Items { s with m_Items := [] }) := by
  obtain ⟨hl, hfi⟩ := hinv
  refine ⟨by rw [release_frame]; exact hl, ?_⟩
  rw [release_m_Items, release_nextItem]
  exact release_remove s.m_Items [] s.m_Items [] [] { s with m_Items := [] }
    s.m_SelectedItems s.nextItem (by simp) (by simp) hfi rfl rfl

theorem GenerateModelFromTree_sel (s s2 : DataTreeFilter)
    (h : GenerateModelFromTree s = some s2) (hinv : SelectionInvariant s) :
    SelectionInvariant s2 := by
  have h0 : SelectionInvariant (InvokeEvent Event.TreeFilterRemoveAllEvent s) :=
    hinv.congr rfl rfl rfl rfl
  have h1 := discard_sel _ h0
  simp only [GenerateModelFromTree] at h
  split at h
  · cases h
    exact h1.congr rfl rfl rfl rfl
  · split at h
    · cases h
    · split at h
      · cases h
      · rename_i sa hce
        have ha := CreateElementAt_sel ItemListPtr.items _ 0 _ sa 0
          (by simp [ItemListPtr.Size, ItemListPtr.get, ItemListPtr.getIn, release_m_Items])
          hce h1
        split at h
        · cases h
        · rename_i el _
          have hb : SelectionInvariant (InvokeEvent (Event.TreeFilterItemAddedEvent el.self) sa) :=
            ha.congr rfl rfl rfl rfl
          split at h
          · cases h
          · rename_i sd hw
            cases h
            have hd : SelectionInvariant sd := by
              split at hw
              · exact AddMatchingChildren_sel _ _ _ _ _ _ hw hb
              · exact AddMatchingChildren_sel _ _ _ _ _ _ hw hb
            exact hd.congr rfl rfl rfl rfl
    · split at h
      · cases h
      · rename_i sd hw
        cases h
        have hd := AddMatchingChildren_sel _ _ _ _ _ _ hw h1
        exact hd.congr rfl rfl rfl rfl

/-! ## The selection invariant under the selection calls and the handlers -/

theorem mem_setInsert {a x : ItemPtr} {l : List ItemPtr} :
    a ∈ setInsert x l ↔ a = x ∨ a ∈ l := by
  unfold setInsert
  split_ifs with h
  · constructor
    · exact Or.inr
    · rintro (h1 | h1)
      · rw [h1]; exact h
      · exact h1
  · simp only [List.mem_append, List.mem_singleton]
    exact Or.comm

theorem mem_setErase {a x : ItemPtr} {l : List ItemPtr} :
    a ∈ setErase x l ↔ a ∈ l ∧ a ≠ x := by
  simp [setErase]

theorem find_flags {q : Nat} {forest : List Item} {it : Item}
    (h : findItem q forest = some it) :
    ∃ pre post, flagsOf forest = pre ++ flagsOf [it] ++ post := by
  have hm : (modifyItem q id forest).isSome = true := by
    rw [modifyItem_isSome, h]; rfl
  cases hmod : modifyItem q id forest with
  | none => rw [hmod] at hm; simp at hm
  | some f1 =>
    obtain ⟨pre, post, h1, _⟩ := modifyItem_flags q id forest f1 it hmod h
    exact ⟨pre, post, h1⟩

theorem SetSelected_sel (self : ItemPtr) (selected : Bool) (s s2 : DataTreeFilter)
    (h : Item.SetSelected self selected s = some s2) (hinv : SelectionInvariant s) :
    SelectionInvariant s2 := by
  obtain ⟨hl, hfi⟩ := hinv
  unfold Item.SetSelected at h
  split at h
  · cases h
  · rename_i it hd
    obtain ⟨hp, hf⟩ := derefIn_eq_some hd
    have hself := findItem_self self _ it hf
    split at h
    · split at h
      · cases h
      · rename_i f hmod
        obtain ⟨pre, post, e1, e2⟩ :=
          modifyItem_flags self (Item.setSelectedFlag selected) s.m_Items f it hmod hf
        have e1b : flagsOf s.m_Items
            = pre ++ (self, it.m_Selected) :: (flagsOf it.m_Children ++ post) := by
          rw [e1, flagsOf_cons, hself]; simp
        have e2b : flagsOf f = pre ++ (self, selected) :: (flagsOf it.m_Children ++ post) := by
          rw [e2, flagsOf_cons]
          cases it
          simp only [Item.self] at hself
          simp [Item.setSelectedFlag, Item.self, Item.m_Selected, Item.m_Children, hself]
        rw [e1b] at hfi
        have hpos : ∀ a : Nat, a ∈ s.m_SelectedItems → a ≠ 0 := by
          intro a ha e
          have h3 := (hfi.2.2 a).1 ha
          have h4 := hfi.2.1 a (List.mem_map_of_mem Prod.fst h3)
          simp only at h4
          omega
        dsimp only at h
        split_ifs at h with hsel hmode hlast
        · exact absurd hl (by assumption)
        · cases h
          refine ⟨hl, ?_⟩
          show FlagsInvariant (flagsOf f) _ s.nextItem
          rw [e2b]
          refine FlagsInvariant.flag hfi ?_
          intro a
          simp only [mem_setInsert, mem_setErase, hl, hsel]
          constructor
          · rintro (h1 | ⟨h1, _⟩)
            · exact Or.inr ⟨h1, trivial⟩
            · by_cases ha : a = self
              · exact Or.inr ⟨ha, trivial⟩
              · exact Or.inl ⟨h1, ha⟩
          · rintro (⟨h1, _⟩ | ⟨h1, _⟩)
            · exact Or.inr ⟨h1, hpos a h1⟩
            · exact Or.inl h1
        · exact absurd hl (by assumption)
        · cases h
          refine ⟨hl, ?_⟩
          show FlagsInvariant (flagsOf f) _ s.nextItem
          rw [e2b]
          refine FlagsInvariant.flag hfi ?_
          intro a
          simp only [mem_setInsert, hsel]
          constructor
          · rintro (h1 | h1)
            · exact Or.inr ⟨h1, trivial⟩
            · by_cases ha : a = self
              · exact Or.inr ⟨ha, trivial⟩
              · exact Or.inl ⟨h1, ha⟩
          · rintro (⟨h1, _⟩ | ⟨h1, _⟩)
            · exact Or.inr h1
            · exact Or.inl h1
        · cases h
          refine ⟨hl, ?_⟩
          show FlagsInvariant (flagsOf f) _ s.nextItem
          rw [e2b]
          refine FlagsInvariant.flag hfi ?_
          intro a
          have hfalse : selected = false := by simpa using hsel
          simp only [mem_setErase, hfalse]
          constructor
          · intro h1
            exact Or.inl h1
          · rintro (h1 | ⟨_, h1⟩)
            · exact h1
            · cases h1
    · cases h
      exact ⟨hl, hfi⟩

theorem SelectItem_sel (item : ItemPtr) (selected : Bool) (s s2 : DataTreeFilter)
    (h : SelectItem item selected s = some s2) (hinv : SelectionInvariant s) :
    SelectionInvariant s2 := by
  unfold SelectItem at h
  split at h
  · cases h
  · rename_i s1 hs
    cases h
    exact (SetSelected_sel item selected s s1 hs hinv).congr rfl rfl rfl rfl

theorem SetSelectionMode_sel (selectionMode : SelectionMode) (s : DataTreeFilter)
    (hinv : SelectionInvariant s) : SelectionInvariant (SetSelectionMode selectionMode s) := by
  unfold SetSelectionMode
  split_ifs
  · exact hinv
  · exact hinv.congr rfl rfl rfl rfl

theorem SetFilter_sel (filter : FilterFunctionPointer) (s s2 : DataTreeFilter)
    (h : SetFilter filter s = some s2) (hinv : SelectionInvariant s) :
    SelectionInvariant s2 := by
  unfold SetFilter at h
  split at h
  · cases h
    exact hinv
  · refine GenerateModelFromTree_sel _ _ h ?_
    split_ifs
    · exact hinv.congr rfl rfl rfl rfl
    · exact hinv.congr rfl rfl rfl rfl

theorem SetHierarchyHandling_sel (hh : HierarchyHandling) (s s2 : DataTreeFilter)
    (h : SetHierarchyHandling hh s = some s2) (hinv : SelectionInvariant s) :
    SelectionInvariant s2 := by
  unfold SetHierarchyHandling at h
  split at h
  · cases h
    exact hinv
  · exact GenerateModelFromTree_sel _ _ h (hinv.congr rfl rfl rfl rfl)

theorem TreeNodeChange_sel (e : TreeEvent) (s s2 : DataTreeFilter)
    (h : TreeNodeChange e s = some s2) (hinv : SelectionInvariant s) :
    SelectionInvariant s2 := by
  unfold TreeNodeChange at h
  split at h
  · cases h
    exact hinv
  · split at h
    · cases h
    · split at h
      · cases h
      · split at h
        · cases h
          exact hinv
        · exact GenerateModelFromTree_sel _ _ h hinv

theorem TreeAddWalk_sel (root : TreeNode) :
    ∀ (ups : List TreePosition) (s : DataTreeFilter)
      (r : Option (TreeNode × ItemPtr × ItemListPtr)) (s2 : DataTreeFilter),
      TreeAddWalk root ups s = some (r, s2) → SelectionInvariant s → SelectionInvariant s2
  | [], s, r, s2 => by
    intro h hinv
    simp only [TreeAddWalk, Option.some.injEq, Prod.mk.injEq] at h
    rw [← h.2]
    exact hinv
  | up :: more, s, r, s2 => by
    intro h hinv
    rw [TreeAddWalk] at h
    split at h
    · cases h
    · split at h
      · cases h
      · split at h
        · cases h
        · simp only [Option.some.injEq, Prod.mk.injEq] at h
          rw [← h.2]
          exact hinv.congr rfl rfl rfl rfl
      · exact TreeAddWalk_sel root more s r s2 h hinv

theorem TreePruneScan_sel :
    ∀ (nodes : List NodePtr) (firstMatch : Bool) (loc : PruneLocals) (s : DataTreeFilter)
      (loc2 : PruneLocals) (s2 : DataTreeFilter),
      TreePruneScan nodes firstMatch loc s = some (loc2, s2) →
      SelectionInvariant s → SelectionInvariant s2
  | [], firstMatch, loc, s, loc2, s2 => by
    intro h hinv
    simp only [TreePruneScan, Option.some.injEq, Prod.mk.injEq] at h
    rw [← h.2]
    exact hinv
  | node :: more, firstMatch, loc, s, loc2, s2 => by
    intro h hinv
    rw [TreePruneScan] at h
    split at h
    · cases h
    · split at h
      · split at h
        · cases h
        · split at h
          · cases h
          · exact TreePruneScan_sel more _ _ _ loc2 s2 h (hinv.congr rfl rfl rfl rfl)
      · split at h
        · cases h
        · exact TreePruneScan_sel more _ _ _ loc2 s2 h hinv
    · exact TreePruneScan_sel more _ _ _ loc2 s2 h hinv

theorem TreeAdd_sel (e : TreeEvent) (s s2 : DataTreeFilter)
    (h : TreeAdd e s = some s2) (hinv : SelectionInvariant s) :
    SelectionInvariant s2 := by
  unfold TreeAdd at h
  split at h
  · cases h
  · split at h
    · cases h
    · split at h
      · cases h
      · cases h
        exact hinv
      · split at h
        · cases h
        · rename_i upPosition parent list s1 hw
          have hs1 : SelectionInvariant s1 := by
            split at hw
            · exact TreeAddWalk_sel _ _ _ _ _ hw hinv
            · cases hw
          split at h
          · cases h
          · rename_i sa hcl
            have hsa := clear_sel hcl (hs1.congr rfl rfl rfl rfl)
            exact AddMatchingChildren_sel _ _ _ _ _ _ h hsa
        · rename_i s1 hw
          have hs1 : SelectionInvariant s1 := by
            split at hw
            · exact TreeAddWalk_sel _ _ _ _ _ hw hinv
            · cases hw
              exact hinv
          exact GenerateModelFromTree_sel _ _ h hs1

theorem TreePrune_sel (e : TreeEvent) (s s2 : DataTreeFilter)
    (h : TreePrune e s = some s2) (hinv : SelectionInvariant s) :
    SelectionInvariant s2 := by
  unfold TreePrune at h
  split at h
  · cases h
  · split at h
    · cases h
    · split at h
      · cases h
      · split at h
        · cases h
        · rename_i loc s1 hl
          have hs1 : SelectionInvariant s1 := by
            split at hl
            · split at hl
              · cases hl
              · split at hl
                · cases hl
                · cases hl
                  exact hinv.congr rfl rfl rfl rfl
            · exact TreePruneScan_sel _ _ _ _ _ _ hl hinv
          split at h
          · cases h
          · split at h
            · rename_i it list first _ _ _
              split at h
              · cases h
              · rename_i sa he
                exact renumberAndAnnounce_sel h
                  (eraseRange_sel he (hs1.congr rfl rfl rfl rfl))
            · cases h

/-! ## The selection invariant under `TreeRemove` -/

theorem mem_flattenItems_of_mem : ∀ (xs : List Item) (x : Item), x ∈ xs → x ∈ flattenItems xs
  | [], x => by simp
  | y :: ys, x => by
    rw [flattenItems_cons]
    intro h
    rcases List.mem_cons.1 h with h | h
    · rw [h]
      exact List.mem_cons_self _ _
    · exact List.mem_cons_of_mem _
        (List.mem_append_right _ (mem_flattenItems_of_mem ys x h))

mutual
theorem Item.flatten_children_mem : ∀ (x y : Item), y ∈ Item.flatten x →
    ∀ c ∈ flattenItems y.m_Children, c ∈ Item.flatten x
  | .mk a0 i p ch n b, y => by
    simp only [Item.flatten, List.mem_cons]
    rintro (h | h) c hc
    · subst h
      exact Or.inr hc
    · exact Or.inr (flattenItems_children_mem ch y h c hc)
theorem flattenItems_children_mem : ∀ (xs : List Item) (y : Item), y ∈ flattenItems xs →
    ∀ c ∈ flattenItems y.m_Children, c ∈ flattenItems xs
  | [], y => by simp [flattenItems]
  | x :: xs, y => by
    simp only [flattenItems, List.mem_append]
    rintro (h | h) c hc
    · exact Or.inl (Item.flatten_children_mem x y h c hc)
    · exact Or.inr (flattenItems_children_mem xs y h c hc)
end

namespace ItemListPtr

/-- The elements of a list of the forest are items of the forest. -/
theorem getIn_mem {l : ItemListPtr} {forest xs : List Item} (h : l.getIn forest = some xs) :
    ∀ x ∈ xs, x ∈ flattenItems forest := by
  cases l with
  | items =>
    simp only [getIn, Option.some.injEq] at h
    subst h
    exact mem_flattenItems_of_mem _
  | childrenOf p =>
    simp only [getIn] at h
    cases hd : derefIn p forest with
    | none => simp [hd] at h
    | some it =>
      simp only [hd, Option.some.injEq] at h
      subst h
      have := derefIn_eq_some hd
      intro x hx
      exact flattenItems_children_mem forest it (findItem_mem p forest it this.2) x
        (mem_flattenItems_of_mem _ x hx)

end ItemListPtr

/-- Distinct addresses: two items of the forest at the same address are the
same item. -/
theorem flatten_self_inj {forest : List Item} (hn : (itemAddrs forest).Nodup) {x y : Item}
    (hx : x ∈ flattenItems forest) (hy : y ∈ flattenItems forest) (h : x.self = y.self) :
    x = y :=
  List.inj_on_of_nodup_map hn hx hy h

/-- Items leave a list and are released, some of them staying in the forest
through another list: the invariant holds for what remains. -/
theorem release_remove_gen (f0 f1 gone : List Item) (u1 g u2 : List (ItemPtr × Bool))
    (s : DataTreeFilter) (sel : List ItemPtr) (next : Nat)
    (h0 : flagsOf f0 = u1 ++ g ++ u2) (h1 : flagsOf f1 = u1 ++ u2)
    (hgone : ∀ it ∈ flattenItems gone, it.self ∈ g.map Prod.fst ∨ it.self ∈ itemAddrs f1)
    (hg : ∀ a ∈ g.map Prod.fst, a ∈ itemAddrs gone)
    (hinv : FlagsInvariant (flagsOf f0) sel next)
    (hs1 : s.m_Items = f1) (hs2 : s.m_SelectedItems = sel) :
    FlagsInvariant (flagsOf f1) (release gone s).m_SelectedItems next := by
  rw [h0] at hinv
  rw [h1]
  refine FlagsInvariant.remove hinv ?_
  intro a
  rw [release_selected, hs1, hs2]
  refine and_congr_right (fun _ => ?_)
  constructor
  · intro h hm
    have hm2 := hg a hm
    simp only [itemAddrs, List.mem_map] at hm2
    obtain ⟨it, hit, rfl⟩ := hm2
    rcases h it hit with h2 | h2
    · have h3 := findItem_addr h2
      rw [← flagsOf_fst, h1] at h3
      obtain ⟨n1, _, _⟩ := hinv
      simp only [List.map_append, List.append_assoc] at n1 h3
      rw [List.nodup_append] at n1
      obtain ⟨_, n2, n3⟩ := n1
      rw [List.nodup_append] at n2
      obtain ⟨_, _, n6⟩ := n2
      rcases List.mem_append.1 h3 with h4 | h4
      · exact n3 h4 (List.mem_append_left _ hm)
      · exact n6 hm h4
    · exact h2 rfl
  · intro h it hit
    rcases hgone it hit with h2 | h2
    · right
      intro e
      apply h
      rw [← e]
      exact h2
    · left
      exact findItem_isSome _ _ h2

theorem eraseRange_inv {list : ItemListPtr} {first last : Nat} {s s2 : DataTreeFilter}
    (h : eraseRange list first last s = some s2) :
    ∃ xs f1, list.getIn s.m_Items = some xs ∧ first ≤ last ∧ last ≤ xs.length
      ∧ list.setIn (xs.take first ++ xs.drop last) s.m_Items = some f1
      ∧ s2 = release ((xs.drop first).take (last - first)) { s with m_Items := f1 } := by
  unfold eraseRange ItemListPtr.get at h
  cases hg : list.getIn s.m_Items with
  | none => simp [hg] at h
  | some xs =>
    simp only [hg] at h
    split at h
    · rename_i hr
      split at h
      · rename_i sa hs
        cases h
        unfold ItemListPtr.set at hs
        split at hs
        · rename_i f1 hf
          cases hs
          exact ⟨xs, f1, rfl, hr.1, hr.2, hf, rfl⟩
        · cases hs
      · cases h
    · cases h

theorem findPosition_le (p : ItemPtr) (xs : List Item) : findPosition p xs ≤ xs.length :=
  List.findIdx_le_length _

/-- The item is found again after the insertion only if it was in the list
in the first place. -/
theorem findPosition_of_splice (p : ItemPtr) (xs ch : List Item)
    (hd : ∀ c ∈ ch, c.self ≠ p)
    (h : findPosition p (xs.take (findPosition p xs) ++ ch ++ xs.drop (findPosition p xs))
          < (xs.take (findPosition p xs) ++ ch ++ xs.drop (findPosition p xs)).length) :
    findPosition p xs < xs.length := by
  by_contra hk
  have hk2 : findPosition p xs = xs.length := le_antisymm (findPosition_le p xs) (by omega)
  rw [hk2, List.take_length, List.drop_length, List.append_nil] at h
  have hnone : ∀ x ∈ xs ++ ch, (fun x : Item => x.self == p) x = false := by
    intro x hx
    rcases List.mem_append.1 hx with h1 | h1
    · have := List.findIdx_eq_length.1 hk2 x h1
      simpa using this
    · simpa using hd x h1
  have := findIdx_append_of_none (fun x : Item => x.self == p) (xs ++ ch) [] hnone
  simp only [List.append_nil, List.findIdx_nil, Nat.add_zero] at this
  unfold findPosition at h
  omega

theorem children_other_address {forest : List Item} {p : Nat} {it : Item}
    (hn : (itemAddrs forest).Nodup) (hf : findItem p forest = some it) :
    ∀ c ∈ it.m_Children, c.self ≠ p := by
  obtain ⟨pre, post, e⟩ := find_flags hf
  have hself := findItem_self p _ it hf
  rw [← flagsOf_fst, e] at hn
  simp only [List.map_append, flagsOf_cons, flagsOf_nil, List.append_nil, List.map_cons] at hn
  rw [List.nodup_append] at hn
  obtain ⟨n1, _, _⟩ := hn
  rw [List.nodup_append] at n1
  obtain ⟨_, n2, _⟩ := n1
  obtain ⟨n3, _⟩ := List.nodup_cons.1 n2
  intro c hc e2
  apply n3
  rw [flagsOf_fst, hself, ← e2]
  exact List.mem_map_of_mem Item.self (mem_flattenItems_of_mem _ c hc)

/-- The body of `TreeRemove` after the item has been read from the registry:
the splice of the children, the second search and the erase keep the
invariant. -/
theorem TreeRemove_core (s0 s1 sa : DataTreeFilter) (p : ItemPtr) (it : Item)
    (xs ys : List Item) (ev : Event)
    (hinv : SelectionInvariant s0)
    (hit : s0.deref p = some it)
    (hxs : (siblingList it).get s0 = some xs)
    (hset : (siblingList it).set
        (if it.m_Children.length > 0 then
           xs.take (findPosition p xs) ++ it.m_Children ++ xs.drop (findPosition p xs)
         else xs) s0 = some s1)
    (hys : (siblingList it).get s1 = some ys)
    (hlt : findPosition p ys < ys.length)
    (he : eraseRange (siblingList it) (findPosition p ys) (findPosition p ys + 1)
        (InvokeEvent ev s1) = some sa) :
    SelectionInvariant sa := by
  obtain ⟨hl, hfi⟩ := hinv
  have hN : (itemAddrs s0.m_Items).Nodup := by
    rw [← flagsOf_fst]; exact hfi.1
  obtain ⟨hp0, hf⟩ := derefIn_eq_some hit
  have hself := findItem_self p _ it hf
  have hitmem := findItem_mem p _ it hf
  have hd := children_other_address hN hf
  have hL : (if it.m_Children.length > 0 then
               xs.take (findPosition p xs) ++ it.m_Children ++ xs.drop (findPosition p xs)
             else xs)
      = xs.take (findPosition p xs) ++ it.m_Children ++ xs.drop (findPosition p xs) := by
    split_ifs with hc
    · rfl
    · have : it.m_Children = [] := List.eq_nil_of_length_eq_zero (by omega)
      simp [this]
  rw [hL] at hset
  have hxs2 : (siblingList it).getIn s0.m_Items = some xs := hxs
  obtain ⟨f1, e1, e2, e3, _⟩ := ItemListPtr.setIn_of_getIn
    (xs.take (findPosition p xs) ++ it.m_Children ++ xs.drop (findPosition p xs)) hxs2
  have hs1 : s1.m_Items = f1 := by
    have := ItemListPtr.set_m_Items hset
    rw [e1] at this
    exact (Option.some.inj this).symm
  have hys2 : ys = xs.take (findPosition p xs) ++ it.m_Children ++ xs.drop (findPosition p xs) := by
    have : (siblingList it).getIn s1.m_Items = some ys := hys
    rw [hs1, e2] at this
    exact (Option.some.inj this).symm
  subst hys2
  have hk := findPosition_of_splice p xs it.m_Children hd hlt
  have hfp := findPosition_splice p xs it.m_Children hk hd
  rw [hfp] at he
  obtain ⟨x, x1, x2⟩ := findPosition_get? p xs hk
  have hxmem : x ∈ xs := List.get?_mem x1
  have hxit : x = it :=
    flatten_self_inj hN (ItemListPtr.getIn_mem hxs2 x hxmem) hitmem (by rw [x2, hself])
  subst hxit
  have hdrop : xs.drop (findPosition p xs) = x :: xs.drop (findPosition p xs + 1) := by
    rw [List.drop_eq_getElem_cons hk]
    congr 1
    have := List.get?_eq_getElem? xs (findPosition p xs)
    rw [x1, List.getElem?_eq_getElem hk] at this
    exact (Option.some.inj this).symm
  obtain ⟨zs, f2, g1, _, _, g4, g5⟩ := eraseRange_inv he
  have hzs : zs = xs.take (findPosition p xs) ++ x.m_Children ++ xs.drop (findPosition p xs) := by
    have : (siblingList x).getIn s1.m_Items = some zs := g1
    rw [hs1, e2] at this
    exact (Option.some.inj this).symm
  subst hzs
  rw [splice_erase xs x.m_Children (findPosition p xs) hk] at g4
  have g4b : (siblingList x).setIn
      (xs.take (findPosition p xs) ++ x.m_Children ++ xs.drop (findPosition p xs + 1))
      s0.m_Items = some f2 := by
    rw [← e3]
    have : (InvokeEvent ev s1).m_Items = f1 := hs1
    rw [← this]
    exact g4
  obtain ⟨pre, post, q1, q2⟩ := ItemListPtr.setIn_flags hxs2 g4b
  have hgone : ((xs.take (findPosition p xs) ++ x.m_Children ++ xs.drop (findPosition p xs)).drop
      (findPosition p xs + x.m_Children.length)).take
        (findPosition p xs + x.m_Children.length + 1 - (findPosition p xs + x.m_Children.length))
      = [x] := by
    have hlen : (xs.take (findPosition p xs) ++ x.m_Children).length
        = findPosition p xs + x.m_Children.length := by
      rw [List.length_append, List.length_take]
      omega
    rw [← hlen, List.drop_left, hdrop]
    simp
  rw [hgone] at g5
  have hxs3 : xs = xs.take (findPosition p xs) ++ x :: xs.drop (findPosition p xs + 1) := by
    rw [← hdrop, List.take_append_drop]
  have q1b : flagsOf s0.m_Items
      = (pre ++ flagsOf (xs.take (findPosition p xs))) ++ [(p, x.m_Selected)]
        ++ (flagsOf x.m_Children ++ flagsOf (xs.drop (findPosition p xs + 1)) ++ post) := by
    rw [q1]
    nth_rewrite 1 [hxs3]
    simp [flagsOf_append, flagsOf_cons, hself]
  have q2b : flagsOf f2
      = (pre ++ flagsOf (xs.take (findPosition p xs)))
        ++ (flagsOf x.m_Children ++ flagsOf (xs.drop (findPosition p xs + 1)) ++ post) := by
    rw [q2]
    simp [flagsOf_append]
  have hchild : ∀ y ∈ flattenItems x.m_Children, y.self ∈ itemAddrs f2 := by
    intro y hy
    rw [← flagsOf_fst, q2b]
    simp only [List.map_append, List.mem_append, flagsOf_fst]
    exact Or.inr (Or.inl (Or.inl (List.mem_map_of_mem Item.self hy)))
  have key := release_remove_gen s0.m_Items f2 [x]
    (pre ++ flagsOf (xs.take (findPosition p xs))) [(p, x.m_Selected)]
    (flagsOf x.m_Children ++ flagsOf (xs.drop (findPosition p xs + 1)) ++ post)
    { InvokeEvent ev s1 with m_Items := f2 } s0.m_SelectedItems s0.nextItem q1b q2b
    (by
      intro y hy
      rw [flattenItems_cons] at hy
      simp only [flattenItems_nil, List.append_nil, List.mem_cons] at hy
      rcases hy with h | h
      · left
        rw [h, hself]
        simp
      · right
        exact hchild y h)
    (by
      intro a ha
      simp only [List.map_cons, List.map_nil, List.mem_singleton] at ha
      rw [ha, ← hself]
      simp [itemAddrs, flattenItems_cons])
    hfi rfl
    (by
      have hfr := ItemListPtr.set_frame hset
      unfold ItemListPtr.set at hset
      split at hset
      · cases hset
        rfl
      · cases hset)
  have hnext : s1.nextItem = s0.nextItem := (ItemListPtr.set_frame hset).2
  have hlast : s1.m_LastSelectedItem = s0.m_LastSelectedItem := by
    unfold ItemListPtr.set at hset
    split at hset
    · cases hset
      rfl
    · cases hset
  rw [g5]
  refine ⟨?_, ?_⟩
  · rw [release_frame]
    show s1.m_LastSelectedItem = 0
    rw [hlast]
    exact hl
  · rw [release_m_Items, release_nextItem]
    show FlagsInvariant (flagsOf f2) _ s1.nextItem
    rw [hnext]
    exact key

theorem TreeRemove_sel (e : TreeEvent) (s s2 : DataTreeFilter)
    (h : TreeRemove e s = some s2) (hinv : SelectionInvariant s) :
    SelectionInvariant s2 := by
  unfold TreeRemove at h
  split at h
  · cases h
    exact hinv
  · split at h
    · cases h
    · split at h
      · cases h
      · split at h
        · cases h
        · cases h
          exact hinv
        · split at h
          · cases h
          · rename_i it hit
            split at h
            · cases h
            · rename_i xs hxs
              split at h
              · cases h
              · rename_i s1 hset
                split at h
                · cases h
                · rename_i ys hys
                  split at h
                  · rename_i hlt
                    split at h
                    · cases h
                    · rename_i sa he
                      refine renumberAndAnnounce_sel h
                        (TreeRemove_core _ s1 sa _ it xs ys _ ?_ hit hxs hset hys hlt he)
                      exact hinv.congr rfl rfl rfl rfl
                  · cases h

/-! ## The selection set in every reachable state -/

theorem New_sel (datatree : Option TreeNode) (filterCode : Nat → NodePtr → Bool)
    (nodeProperties : List ((NodePtr × String) × PropPtr))
    (hasDefaultProperty : String → Bool) (s : DataTreeFilter)
    (h : New datatree filterCode nodeProperties hasDefaultProperty = some s) :
    SelectionInvariant s := by
  unfold New at h
  split at h
  · cases h
  · rename_i s1 hs
    cases h
    refine discard_sel s1 (SetFilter_sel _ _ s1 hs ?_)
    refine ⟨rfl, ?_, ?_, ?_⟩
    · simp
    · intro a ha
      simp at ha
    · intro a
      simp

theorem operation_run_sel (op : Operation) (s s2 : DataTreeFilter)
    (h : op.run s = some s2) (hinv : SelectionInvariant s) : SelectionInvariant s2 := by
  cases op with
  | GenerateModelFromTree => exact GenerateModelFromTree_sel s s2 h hinv
  | SetFilter filter => exact SetFilter_sel filter s s2 h hinv
  | SetHierarchyHandling hh => exact SetHierarchyHandling_sel hh s s2 h hinv
  | TreeNodeChange e => exact TreeNodeChange_sel e s s2 h hinv
  | TreeAdd e => exact TreeAdd_sel e s s2 h hinv
  | TreePrune e => exact TreePrune_sel e s s2 h hinv
  | TreeRemove e => exact TreeRemove_sel e s s2 h hinv

theorem action_run_sel (a : Action) (s s2 : DataTreeFilter)
    (h : a.run s = some s2) (hinv : SelectionInvariant s) : SelectionInvariant s2 := by
  cases a with
  | SetSelected item selected => exact SetSelected_sel item selected s s2 h hinv
  | SelectItem item selected => exact SelectItem_sel item selected s s2 h hinv
  | SetSelectionMode selectionMode =>
    simp only [Action.run, Option.some.injEq] at h
    rw [← h]
    exact SetSelectionMode_sel selectionMode s hinv
  | forest op => exact operation_run_sel op s s2 h hinv
  | treeChanged tree =>
    simp only [Action.run, Option.some.injEq] at h
    rw [← h]
    exact hinv.congr rfl rfl rfl rfl

theorem runActions_sel :
    ∀ (actions : List Action) (s s2 : DataTreeFilter),
      runActions actions s = some s2 → SelectionInvariant s → SelectionInvariant s2
  | [], s, s2 => by
    intro h hinv
    simp only [runActions, Option.some.injEq] at h
    rw [← h]
    exact hinv
  | a :: rest, s, s2 => by
    intro h hinv
    rw [runActions] at h
    split at h
    · cases h
    · rename_i s1 h1
      exact runActions_sel rest s1 s2 h (action_run_sel a s s1 h1 hinv)

/-- C23: in every state reached from the constructor by any sequence of
`SetSelected`, `SelectItem`, `SetSelectionMode`, regenerations, tree handlers
and changes of the tree content (every call of the sequence being defined),
the selection set holds exactly the items of the forest whose selected flag
is set: an address is in `GetSelectedItems()` if and only if it is the
address of an item of the forest for which `IsSelected()` is true, if and
only if the pointer is live and `IsSelected()` is true for its target. -/
theorem selection_set_is_selected_items (datatree : Option TreeNode)
    (filterCode : Nat → NodePtr → Bool) (nodeProperties : List ((NodePtr × String) × PropPtr))
    (hasDefaultProperty : String → Bool) (actions : List Action) (s : DataTreeFilter)
    (hreach : (New datatree filterCode nodeProperties hasDefaultProperty).bind
        (runActions actions) = some s) :
    (∀ a : ItemPtr, a ∈ s.GetSelectedItems
        ↔ ∃ it ∈ flattenItems s.GetItems, it.self = a ∧ it.IsSelected = true)
    ∧ (∀ a : ItemPtr, a ∈ s.GetSelectedItems
        ↔ (s.deref a).map Item.IsSelected = some true) := by
  cases hn : New datatree filterCode nodeProperties hasDefaultProperty with
  | none => rw [hn] at hreach; cases hreach
  | some s0 =>
    rw [hn] at hreach
    have hinv := runActions_sel actions s0 s hreach (New_sel _ _ _ _ s0 hn)
    obtain ⟨_, hN, hB, hJ⟩ := hinv
    have h1 : ∀ a : ItemPtr, a ∈ s.GetSelectedItems
        ↔ ∃ it ∈ flattenItems s.GetItems, it.self = a ∧ it.IsSelected = true := by
      intro a
      exact (hJ a).trans flagsOf_mem
    refine ⟨h1, ?_⟩
    intro a
    rw [h1]
    constructor
    · rintro ⟨it, hit, hs, hf⟩
      have ha : a ∈ itemAddrs s.m_Items := by
        rw [← hs]
        exact List.mem_map_of_mem Item.self hit
      have hpos := (hB a (by rw [flagsOf_fst]; exact ha)).1
      have hsome := findItem_isSome a s.m_Items ha
      cases hfind : findItem a s.m_Items with
      | none => rw [hfind] at hsome; simp at hsome
      | some it2 =>
        have e : it2 = it :=
          flatten_self_inj (by rw [← flagsOf_fst]; exact hN) (findItem_mem a _ it2 hfind) hit
            (by rw [findItem_self a _ it2 hfind, hs])
        have hne : a ≠ 0 := Nat.pos_iff_ne_zero.1 hpos
        simp [deref, derefIn, hne, hfind, e, hf]
    · intro h
      cases hd : s.deref a with
      | none => rw [hd] at h; simp at h
      | some it =>
        rw [hd] at h
        simp only [Option.map_some', Option.some.injEq] at h
        obtain ⟨_, hf⟩ := derefIn_eq_some hd
        exact ⟨it, findItem_mem a _ it hf, findItem_self a _ it hf, h⟩

theorem selectionActions_run :
    ((New (some twoNodeTree) (fun _ _ => false) [] (fun _ => false)).bind
      (runActions selectionActions)).isSome = true := by
  decide!

/-- Witness for C23 on the session `selectionActions`: in single selection
both items get selected, and after the remove notification has destroyed the
item 3 the selection set holds the item 4, the one item whose flag is set. -/
theorem selection_set_is_selected_items_witness :
    (∃ s, (New (some twoNodeTree) (fun _ _ => false) [] (fun _ => false)).bind
          (runActions selectionActions) = some s
      ∧ (∀ a : ItemPtr, a ∈ s.GetSelectedItems
          ↔ ∃ it ∈ flattenItems s.GetItems, it.self = a ∧ it.IsSelected = true)
      ∧ (∀ a : ItemPtr, a ∈ s.GetSelectedItems
          ↔ (s.deref a).map Item.IsSelected = some true))
    ∧ ((New (some twoNodeTree) (fun _ _ => false) [] (fun _ => false)).bind
          (runActions (selectionActions.take 4))).map
        (fun s => (s.GetSelectedItems,
                   (flattenItems s.GetItems).map (fun it => (it.self, it.IsSelected))))
        = some ([3, 4], [(3, true), (4, true)])
    ∧ ((New (some twoNodeTree) (fun _ _ => false) [] (fun _ => false)).bind
          (runActions selectionActions)).map
        (fun s => (s.GetSelectedItems,
                   (flattenItems s.GetItems).map (fun it => (it.self, it.IsSelected))))
        = some ([4], [(4, true)]) :=
  ⟨⟨_, (Option.some_get selectionActions_run).symm,
    selection_set_is_selected_items (some twoNodeTree) (fun _ _ => false) []
      (fun _ => false) selectionActions _ (Option.some_get selectionActions_run).symm⟩,
   by decide!, by decide!⟩

/-! ## Prune of a sub-tree whose matching nodes are nested -/

/-- C16 (the code at the failing input): on `nestedPruneEngine` (preserved
hierarchy, registry consistent, lists numbered from 0) the root list holds
the one item 5 of node 13, and the item 6 of node 14 is its child. For the
prune notification for node 12 the scan of `TreePrune` takes the root list as
`list` at the first match 13 and advances `listLastIter` for the nested match
14, which puts it at `list->end()` (position 1 of a list of length 1). The
increment `++listLastIter` that follows has no defined result, and so the
handler has none: no notification sequence is defined. -/
theorem nested_prune_range_past_end :
    nestedPruneEngine.map
        (fun s => (flattenItems s.m_Items).map
                     (fun x => (x.self, x.m_Node, x.GetIndex, x.GetParent)))
      = some [(5, 13, 0, 0), (6, 14, 0, 5)]
    ∧ nestedPruneEngine.map
        (fun s => (s.m_HierarchyHandling, s.m_Items.length, registryConsistent s,
                   contiguousFrom 0 s.m_Items))
      = some (HierarchyHandling.PRESERVE_HIERARCHY, 1, true, true)
    ∧ (TreeNode.mk 12 [TreeNode.mk 13 [TreeNode.mk 14 []]]).preOrder = [12, 13, 14]
    ∧ (nestedPruneEngine.bind
          (fun s => (TreePruneScan [12, 13, 14] true
                      { item := 0, list := none, listFirstIter := none, listLastIter := none }
                      s).map Prod.fst))
      = some { item := 5, list := some ItemListPtr.items, listFirstIter := some 0,
               listLastIter := some 1 }
    ∧ nestedPruneEngine.map (incrementIter (some ItemListPtr.items) (some 1)) = some none
    ∧ (nestedPruneEngine.bind
          (TreePrune { kind := TreeEventKind.TreePruneEvent, position := [0] })).isSome
      = false :=
  ⟨by decide!, by decide!, by decide, by decide!, by decide!, by decide!⟩

end mitk
